import Mathlib

/-!
Verification development for a pair of order-book implementations:
a baseline `NaiveOrderBook` (two Python lists re-sorted after every
mutation) and an `OptimizedOrderBook` (identity index, per-price ladder
and lazy-deletion price heaps).  The Lean definitions below are a
shallow embedding of the two Python classes: every method is translated
into a pure function threading the book state explicitly, exceptions
become `Option` error results paired with the state left behind by the
mutations performed before the raise, and the heapq min-heap is modelled
by its abstract contract (a sorted list: `heap[0]` is the minimum,
`heappush` is an ordered insert, `heappop` drops the minimum).
-/

/-- An order, i.e. the Python order dict with its four keys.
Prices and quantities are embedded as integers: the programs only ever
compare, store and return them. -/
structure Order where
  order_id : Nat
  price : Int
  quantity : Int
  side : String
deriving DecidableEq

/-- Association-list model of a Python dict: lookup of the binding of a
key (first binding wins; the operations below never create a duplicate
key). -/
def lookupA {α β : Type} [DecidableEq α] : List (α × β) → α → Option β
  | [], _ => none
  | p :: m, a => if p.1 = a then some p.2 else lookupA m a

/-- Model of `d[k] = v` for a key already present: replace the value in
place, keeping the dict's insertion order. -/
def setKey {α β : Type} [DecidableEq α] : List (α × β) → α → β → List (α × β)
  | [], _, _ => []
  | p :: m, a, b => if p.1 = a then (a, b) :: m else p :: setKey m a b

/-- Model of `del d[k]`: drop the binding of the key. -/
def eraseKey {α β : Type} [DecidableEq α] : List (α × β) → α → List (α × β)
  | [], _ => []
  | p :: m, a => if p.1 = a then m else p :: eraseKey m a

/-- Replace the first element equal to `o` by `o2`.  This models an
in-place mutation of the dict object `o` as seen from a list holding a
reference to that same object (in every state produced by the API the
object occurs at most once in any bucket). -/
def replaceFirst : List Order → Order → Order → List Order
  | [], _, _ => []
  | x :: xs, o, o2 => if x = o then o2 :: xs else x :: replaceFirst xs o o2

/-- Model of `heapq.heappush`: the heap is represented by the sorted
list of its elements, so a push is an ordered insert. -/
def heapPush (h : List Int) (x : Int) : List Int :=
  List.orderedInsert (· ≤ ·) x h

/-- Errors raised by `add_order` (`ValueError` in the source, split by
message). -/
inductive AddErr
  | duplicate
  | invalidSide
deriving DecidableEq

/-- State of the optimized order book: the identity index
`orders_by_id`, the two price ladders and the two lazy-deletion heaps
(`bid_heap` holds negated prices, `ask_heap` plain prices). -/
structure OptimizedOrderBook where
  orders_by_id : List (Nat × Order)
  bids_by_price : List (Int × List Order)
  asks_by_price : List (Int × List Order)
  bid_heap : List Int
  ask_heap : List Int
deriving DecidableEq

namespace OptimizedOrderBook

/-- The `__init__` state: all structures empty. -/
def init : OptimizedOrderBook :=
  { orders_by_id := [], bids_by_price := [], asks_by_price := [],
    bid_heap := [], ask_heap := [] }

/-- Embedding of `OptimizedOrderBook.add_order`.  Mirrors the source
line by line: the duplicate check first; then the store into
`orders_by_id` (which in the source happens BEFORE the side is
validated, so the invalid-side error leaves that store behind); then
the per-side ladder and heap updates. -/
def add_order (s : OptimizedOrderBook) (o : Order) :
    OptimizedOrderBook × Option AddErr :=
  if (lookupA s.orders_by_id o.order_id).isSome then
    (s, some AddErr.duplicate)
  else
    let s1 := { s with orders_by_id := s.orders_by_id ++ [(o.order_id, o)] }
    if o.side = "bid" then
      match lookupA s1.bids_by_price o.price with
      | some l =>
          ({ s1 with bids_by_price := setKey s1.bids_by_price o.price (l ++ [o]) }, none)
      | none =>
          ({ s1 with
              bids_by_price := s1.bids_by_price ++ [(o.price, [o])],
              bid_heap := heapPush s1.bid_heap (-o.price) }, none)
    else if o.side = "ask" then
      match lookupA s1.asks_by_price o.price with
      | some l =>
          ({ s1 with asks_by_price := setKey s1.asks_by_price o.price (l ++ [o]) }, none)
      | none =>
          ({ s1 with
              asks_by_price := s1.asks_by_price ++ [(o.price, [o])],
              ask_heap := heapPush s1.ask_heap o.price }, none)
    else (s1, some AddErr.invalidSide)

/-- Embedding of `OptimizedOrderBook.amend_order`.  The source mutates
the shared order dict in place (`order["quantity"] = new_quantity`);
here the same object is reached through `orders_by_id` and through the
ladder bucket at its price, so the embedding rewrites both
occurrences. -/
def amend_order (s : OptimizedOrderBook) (oid : Nat) (q : Int) :
    OptimizedOrderBook × Bool :=
  match lookupA s.orders_by_id oid with
  | none => (s, false)
  | some o =>
    let o2 := { o with quantity := q }
    ({ s with
        orders_by_id := setKey s.orders_by_id oid o2,
        bids_by_price :=
          if o.side = "bid" then
            match lookupA s.bids_by_price o.price with
            | some l => setKey s.bids_by_price o.price (replaceFirst l o o2)
            | none => s.bids_by_price
          else s.bids_by_price,
        asks_by_price :=
          if o.side = "ask" then
            match lookupA s.asks_by_price o.price with
            | some l => setKey s.asks_by_price o.price (replaceFirst l o o2)
            | none => s.asks_by_price
          else s.asks_by_price }, true)

/-- Embedding of `OptimizedOrderBook.delete_order`: remove from the
identity index, then from the side's ladder bucket (`list.remove`, a
first-match removal by equality), dropping the price key when the
bucket empties; the heap entry is left stale on purpose. -/
def delete_order (s : OptimizedOrderBook) (oid : Nat) :
    OptimizedOrderBook × Bool :=
  match lookupA s.orders_by_id oid with
  | none => (s, false)
  | some o =>
    let s1 := { s with orders_by_id := eraseKey s.orders_by_id oid }
    if o.side = "bid" then
      match lookupA s1.bids_by_price o.price with
      | none => (s1, true)
      | some l =>
        let l2 := l.erase o
        if l2 = [] then
          ({ s1 with bids_by_price := eraseKey s1.bids_by_price o.price }, true)
        else
          ({ s1 with bids_by_price := setKey s1.bids_by_price o.price l2 }, true)
    else if o.side = "ask" then
      match lookupA s1.asks_by_price o.price with
      | none => (s1, true)
      | some l =>
        let l2 := l.erase o
        if l2 = [] then
          ({ s1 with asks_by_price := eraseKey s1.asks_by_price o.price }, true)
        else
          ({ s1 with asks_by_price := setKey s1.asks_by_price o.price l2 }, true)
    else (s1, true)

/-- Embedding of `OptimizedOrderBook.lookup_order`. -/
def lookup_order (s : OptimizedOrderBook) (oid : Nat) : Option Order :=
  lookupA s.orders_by_id oid

/-- Orders at a price on one ladder, the empty list when the key is
absent. -/
def bucketList (ladder : List (Int × List Order)) (p : Int) : List Order :=
  match lookupA ladder p with
  | some l => l
  | none => []

/-- Embedding of `OptimizedOrderBook.get_orders_at_price`: bid-side
bucket (when requested) followed by ask-side bucket. -/
def get_orders_at_price (s : OptimizedOrderBook) (p : Int) (side : Option String) :
    List Order :=
  (if side = none ∨ side = some "bid" then bucketList s.bids_by_price p else [])
    ++ (if side = none ∨ side = some "ask" then bucketList s.asks_by_price p else [])

/-- The lazy-deletion drain loop shared by `get_best_bid` and
`get_best_ask`: look at the top of the heap, decode it into a price
(`dec` is negation for bids, the identity for asks); if that price has
a non-empty bucket return the bucket's first order, otherwise pop the
stale entry and continue.  Returns the result together with the heap
that remains. -/
def drainLoop (ladder : List (Int × List Order)) (dec : Int → Int) :
    List Int → Option Order × List Int
  | [] => (none, [])
  | h :: t =>
    match lookupA ladder (dec h) with
    | some (o :: _) => (some o, h :: t)
    | some [] => drainLoop ladder dec t
    | none => drainLoop ladder dec t

/-- Embedding of `OptimizedOrderBook.get_best_bid` (result together
with the state left by the heap cleanup). -/
def get_best_bid (s : OptimizedOrderBook) : Option Order × OptimizedOrderBook :=
  let r := drainLoop s.bids_by_price (fun x => -x) s.bid_heap
  (r.1, { s with bid_heap := r.2 })

/-- Embedding of `OptimizedOrderBook.get_best_ask`. -/
def get_best_ask (s : OptimizedOrderBook) : Option Order × OptimizedOrderBook :=
  let r := drainLoop s.asks_by_price (fun x => x) s.ask_heap
  (r.1, { s with ask_heap := r.2 })

/-- Embedding of `OptimizedOrderBook.get_best_bid_ask`: both calls in
sequence, threading the state. -/
def get_best_bid_ask (s : OptimizedOrderBook) :
    (Option Order × Option Order) × OptimizedOrderBook :=
  let b := get_best_bid s
  let a := get_best_ask b.2
  ((b.1, a.1), a.2)

end OptimizedOrderBook

/-- Sort key of the naive book's bid list: Python sorts by price with
`reverse=True`, which is the stable ascending sort by the negated
price. -/
def kb (o : Order) : Int := -o.price

/-- Sort key of the naive book's ask list: stable ascending sort by
price. -/
def ka (o : Order) : Int := o.price

/-- Model of Python's stable `list.sort(key=...)`: insertion sort on a
key, which is stable and therefore extensionally equal to Timsort. -/
def sortK (k : Order → Int) (l : List Order) : List Order :=
  List.insertionSort (fun a b => k a ≤ k b) l

/-- First order with the given id, scanning left to right. -/
def findById : List Order → Nat → Option Order
  | [], _ => none
  | x :: xs, oid => if x.order_id = oid then some x else findById xs oid

/-- Update the quantity of the first order with the given id (the naive
amend loop mutates the first match and stops). -/
def updateQtyFirst : List Order → Nat → Int → List Order
  | [], _, _ => []
  | x :: xs, oid, q =>
    if x.order_id = oid then { x with quantity := q } :: xs
    else x :: updateQtyFirst xs oid q

/-- Remove the first order with the given id (the naive delete loop
pops the first match and stops). -/
def removeFirstById : List Order → Nat → List Order
  | [], _ => []
  | x :: xs, oid => if x.order_id = oid then xs else x :: removeFirstById xs oid

/-- Orders of a list resting at a given price, in list order. -/
def filterPrice : List Order → Int → List Order
  | [], _ => []
  | x :: xs, p => if x.price = p then x :: filterPrice xs p else filterPrice xs p

/-- State of the naive order book: two plain lists, kept sorted
(descending bids, ascending asks) by re-sorting after each mutation. -/
structure NaiveOrderBook where
  bids : List Order
  asks : List Order
deriving DecidableEq

namespace NaiveOrderBook

/-- The `__init__` state: two empty lists. -/
def init : NaiveOrderBook := { bids := [], asks := [] }

/-- Embedding of `NaiveOrderBook.add_order`: append to the side's list
and re-sort; an invalid side raises before any mutation. -/
def add_order (n : NaiveOrderBook) (o : Order) : NaiveOrderBook × Option AddErr :=
  if o.side = "bid" then ({ n with bids := sortK kb (n.bids ++ [o]) }, none)
  else if o.side = "ask" then ({ n with asks := sortK ka (n.asks ++ [o]) }, none)
  else (n, some AddErr.invalidSide)

/-- Embedding of `NaiveOrderBook.amend_order`: search bids then asks
for the id, mutate the first match's quantity and re-sort that list. -/
def amend_order (n : NaiveOrderBook) (oid : Nat) (q : Int) : NaiveOrderBook × Bool :=
  if (findById n.bids oid).isSome then
    ({ n with bids := sortK kb (updateQtyFirst n.bids oid q) }, true)
  else if (findById n.asks oid).isSome then
    ({ n with asks := sortK ka (updateQtyFirst n.asks oid q) }, true)
  else (n, false)

/-- Embedding of `NaiveOrderBook.delete_order`: search bids then asks
for the id, pop the first match and re-sort that list. -/
def delete_order (n : NaiveOrderBook) (oid : Nat) : NaiveOrderBook × Bool :=
  if (findById n.bids oid).isSome then
    ({ n with bids := sortK kb (removeFirstById n.bids oid) }, true)
  else if (findById n.asks oid).isSome then
    ({ n with asks := sortK ka (removeFirstById n.asks oid) }, true)
  else (n, false)

/-- Embedding of `NaiveOrderBook.lookup_order`: scan bids, then
asks. -/
def lookup_order (n : NaiveOrderBook) (oid : Nat) : Option Order :=
  match findById n.bids oid with
  | some o => some o
  | none => findById n.asks oid

/-- Embedding of `NaiveOrderBook.get_orders_at_price`. -/
def get_orders_at_price (n : NaiveOrderBook) (p : Int) (side : Option String) :
    List Order :=
  (if side = none ∨ side = some "bid" then filterPrice n.bids p else [])
    ++ (if side = none ∨ side = some "ask" then filterPrice n.asks p else [])

/-- Embedding of `NaiveOrderBook.get_best_bid`: head of the descending
bid list. -/
def get_best_bid (n : NaiveOrderBook) : Option Order := n.bids.head?

/-- Embedding of `NaiveOrderBook.get_best_ask`: head of the ascending
ask list. -/
def get_best_ask (n : NaiveOrderBook) : Option Order := n.asks.head?

/-- Embedding of `NaiveOrderBook.get_best_bid_ask`. -/
def get_best_bid_ask (n : NaiveOrderBook) : Option Order × Option Order :=
  (n.get_best_bid, n.get_best_ask)

end NaiveOrderBook

/-! ### Association-list lemmas -/

lemma lookupA_setKey_self {α β : Type} [DecidableEq α] (m : List (α × β)) (a : α)
    (b o : β) (h : lookupA m a = some o) : lookupA (setKey m a b) a = some b := by
  induction m with
  | nil => simp [lookupA] at h
  | cons p m ih =>
    by_cases hp : p.1 = a
    · simp [lookupA, setKey, hp]
    · simp [lookupA, setKey, hp] at h ⊢
      exact ih h

lemma lookupA_setKey_ne {α β : Type} [DecidableEq α] (m : List (α × β)) (a c : α)
    (b : β) (h : c ≠ a) : lookupA (setKey m a b) c = lookupA m c := by
  induction m with
  | nil => simp [setKey]
  | cons p m ih =>
    by_cases hp : p.1 = a
    · subst hp
      simp [lookupA, setKey, Ne.symm h]
    · by_cases hc : p.1 = c <;> simp [lookupA, setKey, hp, hc, h, ih]

lemma lookupA_eraseKey_ne {α β : Type} [DecidableEq α] (m : List (α × β)) (a c : α)
    (h : c ≠ a) : lookupA (eraseKey m a) c = lookupA m c := by
  induction m with
  | nil => simp [eraseKey]
  | cons p m ih =>
    by_cases hp : p.1 = a
    · subst hp
      simp [lookupA, eraseKey, Ne.symm h]
    · by_cases hc : p.1 = c <;> simp [lookupA, eraseKey, hp, hc, h, ih]

lemma lookupA_append {α β : Type} [DecidableEq α] (m m2 : List (α × β)) (a : α) :
    lookupA (m ++ m2) a =
      match lookupA m a with
      | some b => some b
      | none => lookupA m2 a := by
  induction m with
  | nil => simp [lookupA]
  | cons p m ih =>
    by_cases hp : p.1 = a <;> simp [lookupA, hp, ih]

lemma lookupA_none_of_not_memKeys {α β : Type} [DecidableEq α] (m : List (α × β))
    (a : α) (h : a ∉ m.map Prod.fst) : lookupA m a = none := by
  induction m with
  | nil => rfl
  | cons p m ih =>
    simp only [List.map_cons, List.mem_cons] at h
    push_neg at h
    simp [lookupA, Ne.symm h.1, ih h.2]

lemma memKeys_of_lookupA_some {α β : Type} [DecidableEq α] {m : List (α × β)}
    {a : α} {b : β} (h : lookupA m a = some b) : a ∈ m.map Prod.fst := by
  induction m with
  | nil => simp [lookupA] at h
  | cons p m ih =>
    by_cases hp : p.1 = a
    · simp [hp]
    · simp [lookupA, hp] at h
      simp [ih h]

lemma lookupA_eraseKey_self {α β : Type} [DecidableEq α] (m : List (α × β)) (a : α)
    (h : (m.map Prod.fst).Nodup) : lookupA (eraseKey m a) a = none := by
  induction m with
  | nil => rfl
  | cons p m ih =>
    simp only [List.map_cons, List.nodup_cons] at h
    by_cases hp : p.1 = a
    · subst hp
      simpa [eraseKey] using lookupA_none_of_not_memKeys m p.1 h.1
    · simp [lookupA, eraseKey, hp, ih h.2]

lemma keys_setKey {α β : Type} [DecidableEq α] (m : List (α × β)) (a : α) (b : β) :
    (setKey m a b).map Prod.fst = m.map Prod.fst := by
  induction m with
  | nil => rfl
  | cons p m ih =>
    by_cases hp : p.1 = a <;> simp [setKey, hp, ih]

lemma keys_eraseKey_sublist {α β : Type} [DecidableEq α] (m : List (α × β)) (a : α) :
    ((eraseKey m a).map Prod.fst).Sublist (m.map Prod.fst) := by
  induction m with
  | nil => simp [eraseKey]
  | cons p m ih =>
    by_cases hp : p.1 = a
    · simp [eraseKey, hp]
    · simpa [eraseKey, hp] using ih.cons₂ p.1

lemma mem_of_lookupA_some {α β : Type} [DecidableEq α] {m : List (α × β)}
    {a : α} {b : β} (h : lookupA m a = some b) : (a, b) ∈ m := by
  induction m with
  | nil => simp [lookupA] at h
  | cons p m ih =>
    rcases p with ⟨x, y⟩
    by_cases hp : x = a
    · simp [lookupA, hp] at h
      subst hp
      subst h
      exact List.mem_cons_self _ _
    · simp [lookupA, hp] at h
      exact List.mem_cons_of_mem _ (ih h)

/-! ### The lazy drain loop: idempotence -/

lemma drainLoop_idem (ladder : List (Int × List Order)) (dec : Int → Int)
    (heap : List Int) :
    OptimizedOrderBook.drainLoop ladder dec
        (OptimizedOrderBook.drainLoop ladder dec heap).2 =
      OptimizedOrderBook.drainLoop ladder dec heap := by
  induction heap with
  | nil => rfl
  | cons h t ih =>
    cases hl : lookupA ladder (dec h) with
    | none => simpa [OptimizedOrderBook.drainLoop, hl] using ih
    | some l =>
      cases l with
      | nil => simpa [OptimizedOrderBook.drainLoop, hl] using ih
      | cons o l2 => simp [OptimizedOrderBook.drainLoop, hl]

/-- C7: calling best(side) twice in a row with no mutation in between
returns the same order (or None) both times, and the second call leaves
the book state unchanged, popping no further entries from the side's
heap.  Proved for every book state (hence in particular every reachable
one). -/
theorem c7_best_idempotent (s : OptimizedOrderBook) :
    s.get_best_bid.2.get_best_bid = (s.get_best_bid.1, s.get_best_bid.2) ∧
    s.get_best_ask.2.get_best_ask = (s.get_best_ask.1, s.get_best_ask.2) := by
  cases s
  constructor <;>
    simp [OptimizedOrderBook.get_best_bid, OptimizedOrderBook.get_best_ask,
      drainLoop_idem]

/-- C6: an add with an identifier already present fails with the
duplicate error and returns the book completely unchanged (identity
index, ladders and heaps included). -/
theorem c6_duplicate_add_unchanged (s : OptimizedOrderBook) (o : Order)
    (h : (lookupA s.orders_by_id o.order_id).isSome = true) :
    s.add_order o = (s, some AddErr.duplicate) := by
  simp [OptimizedOrderBook.add_order, h]

/-- Closed witness for C6: adding id 5 twice; the second call fails and
the state after equals the state before, so the first order's
attributes are untouched. -/
theorem c6_duplicate_add_unchanged_witness :
    (lookupA ((OptimizedOrderBook.init.add_order
        ⟨5, 100, 10, "bid"⟩).1.orders_by_id) 5).isSome = true ∧
    ((OptimizedOrderBook.init.add_order ⟨5, 100, 10, "bid"⟩).1.add_order
        ⟨5, 101, 7, "ask"⟩) =
      ((OptimizedOrderBook.init.add_order ⟨5, 100, 10, "bid"⟩).1,
        some AddErr.duplicate) :=
  ⟨by decide, c6_duplicate_add_unchanged _ _ (by decide)⟩

/-- C2 (evaluation of the code at the failing input): adding an order
whose side is "buy" to the empty book raises the invalid-side error,
yet the identity index has already been mutated: the order is left in
`orders_by_id` (so a subsequent lookup returns it), contradicting the
claim that a failed add leaves the book unchanged. -/
theorem c2_invalid_side_mutates :
    (OptimizedOrderBook.init.add_order ⟨1, 100, 5, "buy"⟩).2 =
        some AddErr.invalidSide ∧
    (OptimizedOrderBook.init.add_order ⟨1, 100, 5, "buy"⟩).1.orders_by_id =
        [(1, ⟨1, 100, 5, "buy"⟩)] ∧
    (OptimizedOrderBook.init.add_order ⟨1, 100, 5, "buy"⟩).1.lookup_order 1 =
        some ⟨1, 100, 5, "buy"⟩ := by
  refine ⟨rfl, rfl, rfl⟩

/-- C9: amend_order performs no validation of the new quantity: for any
book state whose identity index contains the identifier, and any
integer quantity (negative included), the call returns True and stores
the quantity unchanged. -/
theorem c9_amend_no_validation (s : OptimizedOrderBook) (oid : Nat) (o : Order)
    (q : Int) (h : lookupA s.orders_by_id oid = some o) :
    (s.amend_order oid q).2 = true ∧
    (s.amend_order oid q).1.lookup_order oid = some { o with quantity := q } := by
  refine ⟨by simp [OptimizedOrderBook.amend_order, h], ?_⟩
  simp only [OptimizedOrderBook.amend_order, h, OptimizedOrderBook.lookup_order]
  exact lookupA_setKey_self _ _ _ _ h

/-- Closed witness for C9: amending to the negative quantity -5
succeeds and is stored verbatim. -/
theorem c9_amend_no_validation_witness :
    lookupA ((OptimizedOrderBook.init.add_order
        ⟨1, 100, 5, "bid"⟩).1.orders_by_id) 1 = some ⟨1, 100, 5, "bid"⟩ ∧
    (((OptimizedOrderBook.init.add_order ⟨1, 100, 5, "bid"⟩).1.amend_order
        1 (-5)).2 = true ∧
      ((OptimizedOrderBook.init.add_order ⟨1, 100, 5, "bid"⟩).1.amend_order
          1 (-5)).1.lookup_order 1 = some ⟨1, 100, -5, "bid"⟩) :=
  ⟨by decide,
    c9_amend_no_validation _ 1 ⟨1, 100, 5, "bid"⟩ (-5) (by decide)⟩

/-! ### More association-list and ladder lemmas -/

lemma eraseKey_sublist {α β : Type} [DecidableEq α] (m : List (α × β)) (a : α) :
    (eraseKey m a).Sublist m := by
  induction m with
  | nil => simp [eraseKey]
  | cons p m ih =>
    by_cases hp : p.1 = a
    · simp [eraseKey, hp]
    · simpa [eraseKey, hp] using ih.cons₂ p

lemma mem_setKey_cases {α β : Type} [DecidableEq α] {m : List (α × β)} {a : α}
    {b : β} {pr : α × β} (hnod : (m.map Prod.fst).Nodup) (h : pr ∈ setKey m a b) :
    pr = (a, b) ∨ (pr ∈ m ∧ pr.1 ≠ a) := by
  induction m with
  | nil => simp [setKey] at h
  | cons p m ih =>
    simp only [List.map_cons, List.nodup_cons] at hnod
    by_cases hp : p.1 = a
    · rw [setKey, if_pos hp] at h
      rcases List.mem_cons.1 h with h1 | h1
      · exact Or.inl h1
      · refine Or.inr ⟨List.mem_cons_of_mem _ h1, ?_⟩
        intro hk
        have hm : pr.1 ∈ List.map Prod.fst m := List.mem_map_of_mem Prod.fst h1
        rw [hk, ← hp] at hm
        exact hnod.1 hm
    · rw [setKey, if_neg hp] at h
      rcases List.mem_cons.1 h with h1 | h1
      · exact Or.inr ⟨h1 ▸ List.mem_cons_self _ _, h1 ▸ hp⟩
      · rcases ih hnod.2 h1 with h2 | h2
        · exact Or.inl h2
        · exact Or.inr ⟨List.mem_cons_of_mem _ h2.1, h2.2⟩

lemma mem_eraseKey_cases {α β : Type} [DecidableEq α] {m : List (α × β)} {a : α}
    {pr : α × β} (hnod : (m.map Prod.fst).Nodup) (h : pr ∈ eraseKey m a) :
    pr ∈ m ∧ pr.1 ≠ a := by
  induction m with
  | nil => simp [eraseKey] at h
  | cons p m ih =>
    simp only [List.map_cons, List.nodup_cons] at hnod
    by_cases hp : p.1 = a
    · rw [eraseKey, if_pos hp] at h
      refine ⟨List.mem_cons_of_mem _ h, ?_⟩
      intro hk
      have hm : pr.1 ∈ List.map Prod.fst m := List.mem_map_of_mem Prod.fst h
      rw [hk, ← hp] at hm
      exact hnod.1 hm
    · rw [eraseKey, if_neg hp] at h
      rcases List.mem_cons.1 h with h1 | h1
      · exact ⟨h1 ▸ List.mem_cons_self _ _, h1 ▸ hp⟩
      · exact ⟨List.mem_cons_of_mem _ (ih hnod.2 h1).1, (ih hnod.2 h1).2⟩

lemma mem_replaceFirst_of_ne {l : List Order} {x o o2 : Order}
    (hx : x ∈ l) (hne : x ≠ o) : x ∈ replaceFirst l o o2 := by
  induction l with
  | nil => simp at hx
  | cons y ys ih =>
    by_cases hy : y = o
    · rw [replaceFirst, if_pos hy]
      rcases List.mem_cons.1 hx with h | h
      · exact absurd (h.trans hy) hne
      · exact List.mem_cons_of_mem _ h
    · rw [replaceFirst, if_neg hy]
      rcases List.mem_cons.1 hx with h | h
      · exact h ▸ List.mem_cons_self _ _
      · exact List.mem_cons_of_mem _ (ih h)

lemma mem_replaceFirst_self {l : List Order} {o o2 : Order} (h : o ∈ l) :
    o2 ∈ replaceFirst l o o2 := by
  induction l with
  | nil => simp at h
  | cons y ys ih =>
    by_cases hy : y = o
    · simp [replaceFirst, hy]
    · rcases List.mem_cons.1 h with h1 | h1
      · exact absurd h1.symm hy
      · rw [replaceFirst, if_neg hy]
        exact List.mem_cons_of_mem _ (ih h1)

lemma mem_replaceFirst_cases {l : List Order} {x o o2 : Order}
    (h : x ∈ replaceFirst l o o2) : x = o2 ∨ x ∈ l := by
  induction l with
  | nil => simp [replaceFirst] at h
  | cons y ys ih =>
    by_cases hy : y = o
    · rw [replaceFirst, if_pos hy] at h
      rcases List.mem_cons.1 h with h1 | h1
      · exact Or.inl h1
      · exact Or.inr (List.mem_cons_of_mem _ h1)
    · rw [replaceFirst, if_neg hy] at h
      rcases List.mem_cons.1 h with h1 | h1
      · exact Or.inr (h1 ▸ List.mem_cons_self _ _)
      · rcases ih h1 with h2 | h2
        · exact Or.inl h2
        · exact Or.inr (List.mem_cons_of_mem _ h2)

lemma replaceFirst_length (l : List Order) (o o2 : Order) :
    (replaceFirst l o o2).length = l.length := by
  induction l with
  | nil => rfl
  | cons y ys ih =>
    by_cases hy : y = o <;> simp [replaceFirst, hy, ih]

lemma replaceFirst_map_id (l : List Order) (o o2 : Order)
    (h : o2.order_id = o.order_id) :
    (replaceFirst l o o2).map Order.order_id = l.map Order.order_id := by
  induction l with
  | nil => rfl
  | cons y ys ih =>
    by_cases hy : y = o
    · simp [replaceFirst, hy, h]
    · simp [replaceFirst, hy, ih]

/-- All orders sitting in a ladder, in ladder-then-bucket order. -/
def joinLadder (ladder : List (Int × List Order)) : List Order :=
  (ladder.map Prod.snd).flatten

lemma joinLadder_cons (pl : Int × List Order) (m : List (Int × List Order)) :
    joinLadder (pl :: m) = pl.2 ++ joinLadder m := by
  simp [joinLadder]

lemma joinLadder_setKey_perm (ladder : List (Int × List Order)) (p : Int)
    (l : List Order) (o : Order) (h : lookupA ladder p = some l) :
    List.Perm (joinLadder (setKey ladder p (l ++ [o]))) (joinLadder ladder ++ [o]) := by
  induction ladder with
  | nil => simp [lookupA] at h
  | cons pl m ih =>
    by_cases hp : pl.1 = p
    · rw [lookupA, if_pos hp] at h
      injection h with h
      subst h
      rw [setKey, if_pos hp, joinLadder_cons, joinLadder_cons]
      simpa [List.append_assoc] using
        List.Perm.append_left pl.2 (@List.perm_append_comm _ [o] (joinLadder m))
    · rw [lookupA, if_neg hp] at h
      rw [setKey, if_neg hp, joinLadder_cons, joinLadder_cons, List.append_assoc]
      exact List.Perm.append_left pl.2 (ih h)

lemma joinLadder_append (ladder m2 : List (Int × List Order)) :
    joinLadder (ladder ++ m2) = joinLadder ladder ++ joinLadder m2 := by
  simp [joinLadder]

lemma joinIds_setKey (ladder : List (Int × List Order)) (p : Int)
    (l l2 : List Order) (h : lookupA ladder p = some l)
    (hids : l2.map Order.order_id = l.map Order.order_id) :
    (joinLadder (setKey ladder p l2)).map Order.order_id =
      (joinLadder ladder).map Order.order_id := by
  induction ladder with
  | nil => simp [lookupA] at h
  | cons pl m ih =>
    by_cases hp : pl.1 = p
    · rw [lookupA, if_pos hp] at h
      injection h with h
      rw [setKey, if_pos hp, joinLadder_cons, joinLadder_cons]
      simp [hids, h]
    · rw [lookupA, if_neg hp] at h
      rw [setKey, if_neg hp, joinLadder_cons, joinLadder_cons]
      simp [ih h]

lemma joinLadder_setKey_sublist (ladder : List (Int × List Order)) (p : Int)
    (l l2 : List Order) (h : lookupA ladder p = some l) (hsub : l2.Sublist l) :
    (joinLadder (setKey ladder p l2)).Sublist (joinLadder ladder) := by
  induction ladder with
  | nil => simp [lookupA] at h
  | cons pl m ih =>
    by_cases hp : pl.1 = p
    · rw [lookupA, if_pos hp] at h
      injection h with h
      subst h
      rw [setKey, if_pos hp, joinLadder_cons, joinLadder_cons]
      exact hsub.append (List.Sublist.refl _)
    · rw [lookupA, if_neg hp] at h
      rw [setKey, if_neg hp, joinLadder_cons, joinLadder_cons]
      exact (List.append_sublist_append_left pl.2).mpr (ih h)

lemma joinLadder_eraseKey_sublist (ladder : List (Int × List Order)) (p : Int) :
    (joinLadder (eraseKey ladder p)).Sublist (joinLadder ladder) := by
  induction ladder with
  | nil => simp [eraseKey, joinLadder]
  | cons pl m ih =>
    by_cases hp : pl.1 = p
    · rw [eraseKey, if_pos hp, joinLadder_cons]
      exact List.sublist_append_right pl.2 _
    · rw [eraseKey, if_neg hp, joinLadder_cons, joinLadder_cons]
      exact (List.append_sublist_append_left pl.2).mpr ih

lemma mem_joinLadder {ladder : List (Int × List Order)} {x : Order} :
    x ∈ joinLadder ladder ↔ ∃ pl ∈ ladder, x ∈ pl.2 := by
  simp only [joinLadder, List.mem_flatten, List.mem_map]
  constructor
  · rintro ⟨l, ⟨pl, hpl, rfl⟩, hx⟩
    exact ⟨pl, hpl, hx⟩
  · rintro ⟨pl, hpl, hx⟩
    exact ⟨pl.2, ⟨pl, hpl, rfl⟩, hx⟩

/-! ### Correctness of the lazy drain loop -/

/-- A price is live on a ladder when its bucket exists and is
non-empty. -/
def LiveP (ladder : List (Int × List Order)) (p : Int) : Prop :=
  ∃ l, lookupA ladder p = some l ∧ l ≠ []

lemma drainLoop_mem_preserved (ladder : List (Int × List Order)) (dec : Int → Int)
    (x : Int) (hlive : ∃ l, lookupA ladder (dec x) = some l ∧ l ≠ []) :
    ∀ heap : List Int, x ∈ heap →
      x ∈ (OptimizedOrderBook.drainLoop ladder dec heap).2 := by
  intro heap
  induction heap with
  | nil => intro hx; simp at hx
  | cons h t ih =>
    intro hx
    cases hl : lookupA ladder (dec h) with
    | some l =>
      cases l with
      | cons o l2 => simpa [OptimizedOrderBook.drainLoop, hl] using hx
      | nil =>
        rcases List.mem_cons.1 hx with h1 | h1
        · subst h1
          rcases hlive with ⟨l', hl', hne⟩
          rw [hl] at hl'
          injection hl' with e
          exact absurd e.symm hne
        · simpa [OptimizedOrderBook.drainLoop, hl] using ih h1
    | none =>
      rcases List.mem_cons.1 hx with h1 | h1
      · subst h1
        rcases hlive with ⟨l', hl', _⟩
        rw [hl] at hl'
        cases hl'
      · simpa [OptimizedOrderBook.drainLoop, hl] using ih h1

lemma drainLoop_sorted (ladder : List (Int × List Order)) (dec : Int → Int) :
    ∀ heap : List Int, heap.Sorted (· ≤ ·) →
      (OptimizedOrderBook.drainLoop ladder dec heap).2.Sorted (· ≤ ·) := by
  intro heap
  induction heap with
  | nil => intro hs; simp [OptimizedOrderBook.drainLoop]
  | cons h t ih =>
    intro hs
    cases hl : lookupA ladder (dec h) with
    | some l =>
      cases l with
      | cons o l2 => simpa [OptimizedOrderBook.drainLoop, hl] using hs
      | nil => simpa [OptimizedOrderBook.drainLoop, hl] using ih hs.of_cons
    | none => simpa [OptimizedOrderBook.drainLoop, hl] using ih hs.of_cons

/-- Correctness of the bid-side drain: with every live price present
(negated) in a sorted heap, the loop returns the head of the bucket at
the maximum live price, or none when no price is live. -/
lemma drainLoop_bid_spec (ladder : List (Int × List Order)) :
    ∀ heap : List Int, (∀ p, LiveP ladder p → -p ∈ heap) →
      heap.Sorted (· ≤ ·) →
      ((∀ p, ¬ LiveP ladder p) ∧
          (OptimizedOrderBook.drainLoop ladder (fun x => -x) heap).1 = none) ∨
      (∃ p l, lookupA ladder p = some l ∧ l ≠ [] ∧
          (∀ q, LiveP ladder q → q ≤ p) ∧
          (OptimizedOrderBook.drainLoop ladder (fun x => -x) heap).1 = l.head?) := by
  intro heap
  induction heap with
  | nil =>
    intro hmem _
    exact Or.inl ⟨fun p hp => absurd (hmem p hp) (List.not_mem_nil _), rfl⟩
  | cons h t ih =>
    intro hmem hsort
    cases hl : lookupA ladder (-h) with
    | some l =>
      cases l with
      | cons o l2 =>
        refine Or.inr ⟨-h, o :: l2, hl, by simp, ?_, ?_⟩
        · rintro q ⟨lq, hlq, hlqne⟩
          have hq : -q ∈ h :: t := hmem q ⟨lq, hlq, hlqne⟩
          rcases List.mem_cons.1 hq with h1 | h1
          · omega
          · have := List.rel_of_sorted_cons hsort _ h1
            omega
        · simp [OptimizedOrderBook.drainLoop, hl]
      | nil =>
        have hmem2 : ∀ p, LiveP ladder p → -p ∈ t := by
          rintro p ⟨lp, hlp, hlpne⟩
          have hp : -p ∈ h :: t := hmem p ⟨lp, hlp, hlpne⟩
          rcases List.mem_cons.1 hp with h1 | h1
          · exfalso
            have hph : p = -h := by omega
            rw [hph, hl] at hlp
            injection hlp with e
            exact hlpne e.symm
          · exact h1
        simpa [OptimizedOrderBook.drainLoop, hl] using ih hmem2 hsort.of_cons
    | none =>
      have hmem2 : ∀ p, LiveP ladder p → -p ∈ t := by
        rintro p ⟨lp, hlp, hlpne⟩
        have hp : -p ∈ h :: t := hmem p ⟨lp, hlp, hlpne⟩
        rcases List.mem_cons.1 hp with h1 | h1
        · exfalso
          have hph : p = -h := by omega
          rw [hph, hl] at hlp
          cases hlp
        · exact h1
      simpa [OptimizedOrderBook.drainLoop, hl] using ih hmem2 hsort.of_cons

/-- Correctness of the ask-side drain: with every live price present in
a sorted heap, the loop returns the head of the bucket at the minimum
live price, or none when no price is live. -/
lemma drainLoop_ask_spec (ladder : List (Int × List Order)) :
    ∀ heap : List Int, (∀ p, LiveP ladder p → p ∈ heap) →
      heap.Sorted (· ≤ ·) →
      ((∀ p, ¬ LiveP ladder p) ∧
          (OptimizedOrderBook.drainLoop ladder (fun x => x) heap).1 = none) ∨
      (∃ p l, lookupA ladder p = some l ∧ l ≠ [] ∧
          (∀ q, LiveP ladder q → p ≤ q) ∧
          (OptimizedOrderBook.drainLoop ladder (fun x => x) heap).1 = l.head?) := by
  intro heap
  induction heap with
  | nil =>
    intro hmem _
    exact Or.inl ⟨fun p hp => absurd (hmem p hp) (List.not_mem_nil _), rfl⟩
  | cons h t ih =>
    intro hmem hsort
    cases hl : lookupA ladder h with
    | some l =>
      cases l with
      | cons o l2 =>
        refine Or.inr ⟨h, o :: l2, hl, by simp, ?_, ?_⟩
        · rintro q ⟨lq, hlq, hlqne⟩
          have hq : q ∈ h :: t := hmem q ⟨lq, hlq, hlqne⟩
          rcases List.mem_cons.1 hq with h1 | h1
          · omega
          · exact List.rel_of_sorted_cons hsort _ h1
        · simp [OptimizedOrderBook.drainLoop, hl]
      | nil =>
        have hmem2 : ∀ p, LiveP ladder p → p ∈ t := by
          rintro p ⟨lp, hlp, hlpne⟩
          have hp : p ∈ h :: t := hmem p ⟨lp, hlp, hlpne⟩
          rcases List.mem_cons.1 hp with h1 | h1
          · exfalso
            rw [h1, hl] at hlp
            injection hlp with e
            exact hlpne e.symm
          · exact h1
        simpa [OptimizedOrderBook.drainLoop, hl] using ih hmem2 hsort.of_cons
    | none =>
      have hmem2 : ∀ p, LiveP ladder p → p ∈ t := by
        rintro p ⟨lp, hlp, hlpne⟩
        have hp : p ∈ h :: t := hmem p ⟨lp, hlp, hlpne⟩
        rcases List.mem_cons.1 hp with h1 | h1
        · exfalso
          rw [h1, hl] at hlp
          cases hlp
        · exact h1
      simpa [OptimizedOrderBook.drainLoop, hl] using ih hmem2 hsort.of_cons

/-! ### Helpers for the reachability invariant -/

lemma lookupA_append_some {α β : Type} [DecidableEq α] {m : List (α × β)}
    (m2 : List (α × β)) {a : α} {b : β} (h : lookupA m a = some b) :
    lookupA (m ++ m2) a = some b := by
  rw [lookupA_append, h]

lemma lookupA_append_none {α β : Type} [DecidableEq α] {m : List (α × β)}
    (m2 : List (α × β)) {a : α} (h : lookupA m a = none) :
    lookupA (m ++ m2) a = lookupA m2 a := by
  rw [lookupA_append, h]

lemma lookupA_singleton {α β : Type} [DecidableEq α] (a c : α) (b : β) :
    lookupA [(a, b)] c = if a = c then some b else none := by
  simp [lookupA]

lemma lookupA_isSome_of_mem {α β : Type} [DecidableEq α] {m : List (α × β)}
    {pl : α × β} (h : pl ∈ m) : (lookupA m pl.1).isSome = true := by
  induction m with
  | nil => simp at h
  | cons x m ih =>
    by_cases hx : x.1 = pl.1
    · rw [lookupA, if_pos hx]
      rfl
    · rcases List.mem_cons.1 h with h1 | h1
      · exact absurd (h1 ▸ rfl) hx
      · rw [lookupA, if_neg hx]
        exact ih h1

lemma lookupA_eq_none_iff {α β : Type} [DecidableEq α] {m : List (α × β)} {a : α} :
    lookupA m a = none ↔ a ∉ m.map Prod.fst := by
  constructor
  · intro h ha
    rcases List.mem_map.1 ha with ⟨pl, hpl, hk⟩
    have := lookupA_isSome_of_mem hpl
    rw [hk] at this
    rw [h] at this
    cases this
  · exact lookupA_none_of_not_memKeys m a

lemma bucket_sublist_joinLadder {ladder : List (Int × List Order)}
    {pl : Int × List Order} (h : pl ∈ ladder) : pl.2.Sublist (joinLadder ladder) := by
  induction ladder with
  | nil => simp at h
  | cons x m ih =>
    rw [joinLadder_cons]
    rcases List.mem_cons.1 h with h1 | h1
    · subst h1
      exact List.sublist_append_left _ _
    · exact (ih h1).trans (List.sublist_append_right _ _)

lemma mem_replaceFirst_cases_nodup {l : List Order} {x o o2 : Order}
    (hnd : l.Nodup) (h : x ∈ replaceFirst l o o2) :
    x = o2 ∨ (x ∈ l ∧ x ≠ o) := by
  induction l with
  | nil => simp [replaceFirst] at h
  | cons y ys ih =>
    rw [List.nodup_cons] at hnd
    by_cases hy : y = o
    · rw [replaceFirst, if_pos hy] at h
      rcases List.mem_cons.1 h with h1 | h1
      · exact Or.inl h1
      · refine Or.inr ⟨List.mem_cons_of_mem _ h1, ?_⟩
        intro hx
        rw [hx, ← hy] at h1
        exact hnd.1 h1
    · rw [replaceFirst, if_neg hy] at h
      rcases List.mem_cons.1 h with h1 | h1
      · exact Or.inr ⟨h1 ▸ List.mem_cons_self _ _, h1 ▸ hy⟩
      · rcases ih hnd.2 h1 with h2 | h2
        · exact Or.inl h2
        · exact Or.inr ⟨List.mem_cons_of_mem _ h2.1, h2.2⟩

lemma nodup_ids_append_bid {A B A2 : List Order} {o : Order}
    (hperm : List.Perm A2 (A ++ [o]))
    (hnodup : ((A ++ B).map Order.order_id).Nodup)
    (hfresh : ∀ x ∈ A ++ B, x.order_id ≠ o.order_id) :
    ((A2 ++ B).map Order.order_id).Nodup := by
  have h1 : List.Perm (A2 ++ B) ((A ++ B) ++ [o]) := by
    refine (hperm.append_right B).trans ?_
    rw [List.append_assoc, List.append_assoc]
    exact List.Perm.append_left A (@List.perm_append_comm _ [o] B)
  refine ((h1.map Order.order_id).nodup_iff).2 ?_
  rw [List.map_append]
  rw [List.nodup_append]
  refine ⟨hnodup, List.nodup_singleton _, ?_⟩
  intro x hx
  rcases List.mem_map.1 hx with ⟨y, hy, hxy⟩
  simp only [List.map_cons, List.map_nil, List.mem_singleton]
  intro hc
  exact hfresh y hy (by rw [hxy, hc])

lemma nodup_ids_append_ask {A B B2 : List Order} {o : Order}
    (hperm : List.Perm B2 (B ++ [o]))
    (hnodup : ((A ++ B).map Order.order_id).Nodup)
    (hfresh : ∀ x ∈ A ++ B, x.order_id ≠ o.order_id) :
    ((A ++ B2).map Order.order_id).Nodup := by
  have h1 : List.Perm (A ++ B2) ((A ++ B) ++ [o]) := by
    refine (hperm.append_left A).trans ?_
    rw [List.append_assoc]
  refine ((h1.map Order.order_id).nodup_iff).2 ?_
  rw [List.map_append]
  rw [List.nodup_append]
  refine ⟨hnodup, List.nodup_singleton _, ?_⟩
  intro x hx
  rcases List.mem_map.1 hx with ⟨y, hy, hxy⟩
  simp only [List.map_cons, List.map_nil, List.mem_singleton]
  intro hc
  exact hfresh y hy (by rw [hxy, hc])

/-! ### The reachability invariant of the optimized book -/

/-- Well-formedness invariant of an optimized book state: keys of the
three dicts are unique; identity-index bindings carry their own key;
ladder buckets are non-empty and hold orders of exactly that price and
side; every bucket order is registered in the identity index under its
id with the same value, and conversely every registered order with a
valid side sits in its price bucket; no order id occurs twice across
the buckets; every live price is present in its side's heap; and both
heaps (as sorted-list models of binary heaps) are sorted. -/
structure WF (s : OptimizedOrderBook) : Prop where
  idKeys : (s.orders_by_id.map Prod.fst).Nodup
  bidKeys : (s.bids_by_price.map Prod.fst).Nodup
  askKeys : (s.asks_by_price.map Prod.fst).Nodup
  idVal : ∀ pr ∈ s.orders_by_id, Order.order_id pr.2 = pr.1
  bidBuckets : ∀ pl ∈ s.bids_by_price, pl.2 ≠ ([] : List Order) ∧
      ∀ o ∈ pl.2, o.price = pl.1 ∧ o.side = "bid"
  askBuckets : ∀ pl ∈ s.asks_by_price, pl.2 ≠ ([] : List Order) ∧
      ∀ o ∈ pl.2, o.price = pl.1 ∧ o.side = "ask"
  bidReg : ∀ pl ∈ s.bids_by_price, ∀ o ∈ pl.2,
      lookupA s.orders_by_id o.order_id = some o
  askReg : ∀ pl ∈ s.asks_by_price, ∀ o ∈ pl.2,
      lookupA s.orders_by_id o.order_id = some o
  bidMem : ∀ pr ∈ s.orders_by_id, Order.side pr.2 = "bid" →
      ∃ l, lookupA s.bids_by_price (Order.price pr.2) = some l ∧ pr.2 ∈ l
  askMem : ∀ pr ∈ s.orders_by_id, Order.side pr.2 = "ask" →
      ∃ l, lookupA s.asks_by_price (Order.price pr.2) = some l ∧ pr.2 ∈ l
  bucketIds : (((joinLadder s.bids_by_price ++ joinLadder s.asks_by_price)).map
      Order.order_id).Nodup
  bidHeapMem : ∀ p, LiveP s.bids_by_price p → -p ∈ s.bid_heap
  askHeapMem : ∀ p, LiveP s.asks_by_price p → p ∈ s.ask_heap
  bidHeapSorted : s.bid_heap.Sorted (· ≤ ·)
  askHeapSorted : s.ask_heap.Sorted (· ≤ ·)

lemma WF.fresh_bucket_ids {s : OptimizedOrderBook} {oid : Nat} (h : WF s)
    (hfresh : lookupA s.orders_by_id oid = none) :
    ∀ x ∈ joinLadder s.bids_by_price ++ joinLadder s.asks_by_price,
      x.order_id ≠ oid := by
  intro x hx hc
  have hs : lookupA s.orders_by_id x.order_id = some x := by
    rcases List.mem_append.1 hx with h1 | h1
    · rcases mem_joinLadder.1 h1 with ⟨pl, hpl, hxl⟩
      exact h.bidReg pl hpl x hxl
    · rcases mem_joinLadder.1 h1 with ⟨pl, hpl, hxl⟩
      exact h.askReg pl hpl x hxl
  rw [hc, hfresh] at hs
  cases hs

lemma WF.bid_bucket_ids_nodup {s : OptimizedOrderBook} {p : Int} {l : List Order}
    (h : WF s) (hb : lookupA s.bids_by_price p = some l) :
    (l.map Order.order_id).Nodup := by
  have h1 : l.Sublist (joinLadder s.bids_by_price) :=
    bucket_sublist_joinLadder (mem_of_lookupA_some hb)
  have h2 : l.Sublist (joinLadder s.bids_by_price ++ joinLadder s.asks_by_price) :=
    h1.trans (List.sublist_append_left _ _)
  exact (h2.map Order.order_id).nodup h.bucketIds

lemma WF.ask_bucket_ids_nodup {s : OptimizedOrderBook} {p : Int} {l : List Order}
    (h : WF s) (hb : lookupA s.asks_by_price p = some l) :
    (l.map Order.order_id).Nodup := by
  have h1 : l.Sublist (joinLadder s.asks_by_price) :=
    bucket_sublist_joinLadder (mem_of_lookupA_some hb)
  have h2 : l.Sublist (joinLadder s.bids_by_price ++ joinLadder s.asks_by_price) :=
    h1.trans (List.sublist_append_right _ _)
  exact (h2.map Order.order_id).nodup h.bucketIds

theorem WF.base : WF OptimizedOrderBook.init := by
  refine ⟨?_, ?_, ?_, ?_, ?_, ?_, ?_, ?_, ?_, ?_, ?_, ?_, ?_, ?_, ?_⟩ <;>
    simp [OptimizedOrderBook.init, joinLadder, LiveP, lookupA]

/-- The reachable states of the optimized book: everything obtainable
from the initial state by any sequence of API calls, error-raising
calls included (in Python the exception propagates but the book object
and the mutations already performed survive).  `get_best_bid_ask` is
the composition of the two best-price constructors. -/
inductive Reachable : OptimizedOrderBook → Prop
  | base : Reachable OptimizedOrderBook.init
  | add (s : OptimizedOrderBook) (o : Order) :
      Reachable s → Reachable (s.add_order o).1
  | amend (s : OptimizedOrderBook) (oid : Nat) (q : Int) :
      Reachable s → Reachable (s.amend_order oid q).1
  | delete (s : OptimizedOrderBook) (oid : Nat) :
      Reachable s → Reachable (s.delete_order oid).1
  | bestBid (s : OptimizedOrderBook) :
      Reachable s → Reachable s.get_best_bid.2
  | bestAsk (s : OptimizedOrderBook) :
      Reachable s → Reachable s.get_best_ask.2

lemma WF.add_bid_present (s : OptimizedOrderBook) (o : Order) (l : List Order)
    (h : WF s) (hfresh : lookupA s.orders_by_id o.order_id = none)
    (hbid : o.side = "bid") (hb : lookupA s.bids_by_price o.price = some l) :
    WF { s with
          orders_by_id := s.orders_by_id ++ [(o.order_id, o)],
          bids_by_price := setKey s.bids_by_price o.price (l ++ [o]) } := by
  have hkey : o.order_id ∉ s.orders_by_id.map Prod.fst := lookupA_eq_none_iff.1 hfresh
  have hD2self : lookupA (s.orders_by_id ++ [(o.order_id, o)]) o.order_id = some o := by
    rw [lookupA_append_none _ hfresh, lookupA_singleton, if_pos rfl]
  have hD2old : ∀ {x : Nat} {v : Order}, lookupA s.orders_by_id x = some v →
      lookupA (s.orders_by_id ++ [(o.order_id, o)]) x = some v :=
    fun hx => lookupA_append_some _ hx
  have hBpair : (o.price, l) ∈ s.bids_by_price := mem_of_lookupA_some hb
  have hBne : l ≠ [] := (h.bidBuckets _ hBpair).1
  have hlnew : lookupA (setKey s.bids_by_price o.price (l ++ [o])) o.price
      = some (l ++ [o]) := lookupA_setKey_self _ _ _ _ hb
  have hlother : ∀ p, p ≠ o.price →
      lookupA (setKey s.bids_by_price o.price (l ++ [o])) p
        = lookupA s.bids_by_price p :=
    fun p hp => lookupA_setKey_ne _ _ _ _ hp
  refine ⟨?_, ?_, ?_, ?_, ?_, ?_, ?_, ?_, ?_, ?_, ?_, ?_, ?_, ?_, ?_⟩
  · rw [List.map_append]
    simp [List.nodup_append, h.idKeys, hkey]
  · rw [keys_setKey]
    exact h.bidKeys
  · exact h.askKeys
  · intro pr hpr
    rcases List.mem_append.1 hpr with h1 | h1
    · exact h.idVal pr h1
    · rw [List.mem_singleton.1 h1]
  · intro pl hpl
    rcases mem_setKey_cases h.bidKeys hpl with rfl | ⟨hm, _⟩
    · refine ⟨by simp, ?_⟩
      intro x hx
      rcases List.mem_append.1 hx with h1 | h1
      · exact (h.bidBuckets _ hBpair).2 x h1
      · rw [List.mem_singleton.1 h1]
        exact ⟨rfl, hbid⟩
    · exact h.bidBuckets pl hm
  · exact h.askBuckets
  · intro pl hpl x hx
    rcases mem_setKey_cases h.bidKeys hpl with rfl | ⟨hm, _⟩
    · rcases List.mem_append.1 hx with h1 | h1
      · exact hD2old (h.bidReg _ hBpair x h1)
      · rw [List.mem_singleton.1 h1]
        exact hD2self
    · exact hD2old (h.bidReg pl hm x hx)
  · intro pl hpl x hx
    exact hD2old (h.askReg pl hpl x hx)
  · intro pr hpr hside
    rcases List.mem_append.1 hpr with h1 | h1
    · rcases h.bidMem pr h1 hside with ⟨lb, hlb, hmem⟩
      by_cases hpp : Order.price pr.2 = o.price
      · rw [hpp, hb] at hlb
        injection hlb with hlb
        refine ⟨l ++ [o], by rw [hpp]; exact hlnew, ?_⟩
        exact List.mem_append_left _ (hlb ▸ hmem)
      · exact ⟨lb, by rw [hlother _ hpp]; exact hlb, hmem⟩
    · rw [List.mem_singleton.1 h1]
      exact ⟨l ++ [o], hlnew, List.mem_append_right _ (List.mem_singleton_self o)⟩
  · intro pr hpr hside
    rcases List.mem_append.1 hpr with h1 | h1
    · exact h.askMem pr h1 hside
    · rw [List.mem_singleton.1 h1] at hside
      rw [hbid] at hside
      exact absurd hside (by decide)
  · exact nodup_ids_append_bid (joinLadder_setKey_perm _ _ _ _ hb) h.bucketIds
      (h.fresh_bucket_ids hfresh)
  · rintro p ⟨lb, hlb, hlbne⟩
    by_cases hpp : p = o.price
    · subst hpp
      exact h.bidHeapMem o.price ⟨l, hb, hBne⟩
    · rw [hlother _ hpp] at hlb
      exact h.bidHeapMem p ⟨lb, hlb, hlbne⟩
  · exact h.askHeapMem
  · exact h.bidHeapSorted
  · exact h.askHeapSorted

lemma WF.add_bid_absent (s : OptimizedOrderBook) (o : Order)
    (h : WF s) (hfresh : lookupA s.orders_by_id o.order_id = none)
    (hbid : o.side = "bid") (hb : lookupA s.bids_by_price o.price = none) :
    WF { s with
          orders_by_id := s.orders_by_id ++ [(o.order_id, o)],
          bids_by_price := s.bids_by_price ++ [(o.price, [o])],
          bid_heap := heapPush s.bid_heap (-o.price) } := by
  have hkey : o.order_id ∉ s.orders_by_id.map Prod.fst := lookupA_eq_none_iff.1 hfresh
  have hkeyB : o.price ∉ s.bids_by_price.map Prod.fst := lookupA_eq_none_iff.1 hb
  have hD2self : lookupA (s.orders_by_id ++ [(o.order_id, o)]) o.order_id = some o := by
    rw [lookupA_append_none _ hfresh, lookupA_singleton, if_pos rfl]
  have hD2old : ∀ {x : Nat} {v : Order}, lookupA s.orders_by_id x = some v →
      lookupA (s.orders_by_id ++ [(o.order_id, o)]) x = some v :=
    fun hx => lookupA_append_some _ hx
  have hlnew : lookupA (s.bids_by_price ++ [(o.price, [o])]) o.price = some [o] := by
    rw [lookupA_append_none _ hb, lookupA_singleton, if_pos rfl]
  have hlother : ∀ p, p ≠ o.price →
      lookupA (s.bids_by_price ++ [(o.price, [o])]) p = lookupA s.bids_by_price p := by
    intro p hp
    rw [lookupA_append, lookupA_singleton, if_neg (Ne.symm hp)]
    cases hx : lookupA s.bids_by_price p <;> rfl
  refine ⟨?_, ?_, ?_, ?_, ?_, ?_, ?_, ?_, ?_, ?_, ?_, ?_, ?_, ?_, ?_⟩
  · rw [List.map_append]
    simp [List.nodup_append, h.idKeys, hkey]
  · rw [List.map_append]
    simp [List.nodup_append, h.bidKeys, hkeyB]
  · exact h.askKeys
  · intro pr hpr
    rcases List.mem_append.1 hpr with h1 | h1
    · exact h.idVal pr h1
    · rw [List.mem_singleton.1 h1]
  · intro pl hpl
    rcases List.mem_append.1 hpl with h1 | h1
    · exact h.bidBuckets pl h1
    · rw [List.mem_singleton.1 h1]
      refine ⟨by simp, ?_⟩
      intro x hx
      rw [List.mem_singleton.1 hx]
      exact ⟨rfl, hbid⟩
  · exact h.askBuckets
  · intro pl hpl x hx
    rcases List.mem_append.1 hpl with h1 | h1
    · exact hD2old (h.bidReg pl h1 x hx)
    · rw [List.mem_singleton.1 h1] at hx
      rw [List.mem_singleton.1 hx]
      exact hD2self
  · intro pl hpl x hx
    exact hD2old (h.askReg pl hpl x hx)
  · intro pr hpr hside
    rcases List.mem_append.1 hpr with h1 | h1
    · rcases h.bidMem pr h1 hside with ⟨lb, hlb, hmem⟩
      exact ⟨lb, lookupA_append_some _ hlb, hmem⟩
    · rw [List.mem_singleton.1 h1]
      exact ⟨[o], hlnew, List.mem_singleton_self o⟩
  · intro pr hpr hside
    rcases List.mem_append.1 hpr with h1 | h1
    · exact h.askMem pr h1 hside
    · rw [List.mem_singleton.1 h1] at hside
      rw [hbid] at hside
      exact absurd hside (by decide)
  · have hperm : List.Perm (joinLadder (s.bids_by_price ++ [(o.price, [o])]))
        (joinLadder s.bids_by_price ++ [o]) := by
      rw [joinLadder_append]
      simp [joinLadder]
    exact nodup_ids_append_bid hperm h.bucketIds (h.fresh_bucket_ids hfresh)
  · rintro p ⟨lb, hlb, hlbne⟩
    by_cases hpp : p = o.price
    · subst hpp
      exact (List.mem_orderedInsert _).2 (Or.inl rfl)
    · rw [hlother _ hpp] at hlb
      exact (List.mem_orderedInsert _).2 (Or.inr (h.bidHeapMem p ⟨lb, hlb, hlbne⟩))
  · exact h.askHeapMem
  · exact h.bidHeapSorted.orderedInsert _ _
  · exact h.askHeapSorted

lemma WF.add_ask_present (s : OptimizedOrderBook) (o : Order) (l : List Order)
    (h : WF s) (hfresh : lookupA s.orders_by_id o.order_id = none)
    (hask : o.side = "ask") (hb : lookupA s.asks_by_price o.price = some l) :
    WF { s with
          orders_by_id := s.orders_by_id ++ [(o.order_id, o)],
          asks_by_price := setKey s.asks_by_price o.price (l ++ [o]) } := by
  have hkey : o.order_id ∉ s.orders_by_id.map Prod.fst := lookupA_eq_none_iff.1 hfresh
  have hD2self : lookupA (s.orders_by_id ++ [(o.order_id, o)]) o.order_id = some o := by
    rw [lookupA_append_none _ hfresh, lookupA_singleton, if_pos rfl]
  have hD2old : ∀ {x : Nat} {v : Order}, lookupA s.orders_by_id x = some v →
      lookupA (s.orders_by_id ++ [(o.order_id, o)]) x = some v :=
    fun hx => lookupA_append_some _ hx
  have hBpair : (o.price, l) ∈ s.asks_by_price := mem_of_lookupA_some hb
  have hBne : l ≠ [] := (h.askBuckets _ hBpair).1
  have hlnew : lookupA (setKey s.asks_by_price o.price (l ++ [o])) o.price
      = some (l ++ [o]) := lookupA_setKey_self _ _ _ _ hb
  have hlother : ∀ p, p ≠ o.price →
      lookupA (setKey s.asks_by_price o.price (l ++ [o])) p
        = lookupA s.asks_by_price p :=
    fun p hp => lookupA_setKey_ne _ _ _ _ hp
  refine ⟨?_, ?_, ?_, ?_, ?_, ?_, ?_, ?_, ?_, ?_, ?_, ?_, ?_, ?_, ?_⟩
  · rw [List.map_append]
    simp [List.nodup_append, h.idKeys, hkey]
  · exact h.bidKeys
  · rw [keys_setKey]
    exact h.askKeys
  · intro pr hpr
    rcases List.mem_append.1 hpr with h1 | h1
    · exact h.idVal pr h1
    · rw [List.mem_singleton.1 h1]
  · exact h.bidBuckets
  · intro pl hpl
    rcases mem_setKey_cases h.askKeys hpl with rfl | ⟨hm, _⟩
    · refine ⟨by simp, ?_⟩
      intro x hx
      rcases List.mem_append.1 hx with h1 | h1
      · exact (h.askBuckets _ hBpair).2 x h1
      · rw [List.mem_singleton.1 h1]
        exact ⟨rfl, hask⟩
    · exact h.askBuckets pl hm
  · intro pl hpl x hx
    exact hD2old (h.bidReg pl hpl x hx)
  · intro pl hpl x hx
    rcases mem_setKey_cases h.askKeys hpl with rfl | ⟨hm, _⟩
    · rcases List.mem_append.1 hx with h1 | h1
      · exact hD2old (h.askReg _ hBpair x h1)
      · rw [List.mem_singleton.1 h1]
        exact hD2self
    · exact hD2old (h.askReg pl hm x hx)
  · intro pr hpr hside
    rcases List.mem_append.1 hpr with h1 | h1
    · exact h.bidMem pr h1 hside
    · rw [List.mem_singleton.1 h1] at hside
      rw [hask] at hside
      exact absurd hside (by decide)
  · intro pr hpr hside
    rcases List.mem_append.1 hpr with h1 | h1
    · rcases h.askMem pr h1 hside with ⟨lb, hlb, hmem⟩
      by_cases hpp : Order.price pr.2 = o.price
      · rw [hpp, hb] at hlb
        injection hlb with hlb
        refine ⟨l ++ [o], by rw [hpp]; exact hlnew, ?_⟩
        exact List.mem_append_left _ (hlb ▸ hmem)
      · exact ⟨lb, by rw [hlother _ hpp]; exact hlb, hmem⟩
    · rw [List.mem_singleton.1 h1]
      exact ⟨l ++ [o], hlnew, List.mem_append_right _ (List.mem_singleton_self o)⟩
  · exact nodup_ids_append_ask (joinLadder_setKey_perm _ _ _ _ hb) h.bucketIds
      (h.fresh_bucket_ids hfresh)
  · exact h.bidHeapMem
  · rintro p ⟨lb, hlb, hlbne⟩
    by_cases hpp : p = o.price
    · subst hpp
      exact h.askHeapMem o.price ⟨l, hb, hBne⟩
    · rw [hlother _ hpp] at hlb
      exact h.askHeapMem p ⟨lb, hlb, hlbne⟩
  · exact h.bidHeapSorted
  · exact h.askHeapSorted

lemma WF.add_ask_absent (s : OptimizedOrderBook) (o : Order)
    (h : WF s) (hfresh : lookupA s.orders_by_id o.order_id = none)
    (hask : o.side = "ask") (hb : lookupA s.asks_by_price o.price = none) :
    WF { s with
          orders_by_id := s.orders_by_id ++ [(o.order_id, o)],
          asks_by_price := s.asks_by_price ++ [(o.price, [o])],
          ask_heap := heapPush s.ask_heap o.price } := by
  have hkey : o.order_id ∉ s.orders_by_id.map Prod.fst := lookupA_eq_none_iff.1 hfresh
  have hkeyB : o.price ∉ s.asks_by_price.map Prod.fst := lookupA_eq_none_iff.1 hb
  have hD2self : lookupA (s.orders_by_id ++ [(o.order_id, o)]) o.order_id = some o := by
    rw [lookupA_append_none _ hfresh, lookupA_singleton, if_pos rfl]
  have hD2old : ∀ {x : Nat} {v : Order}, lookupA s.orders_by_id x = some v →
      lookupA (s.orders_by_id ++ [(o.order_id, o)]) x = some v :=
    fun hx => lookupA_append_some _ hx
  have hlnew : lookupA (s.asks_by_price ++ [(o.price, [o])]) o.price = some [o] := by
    rw [lookupA_append_none _ hb, lookupA_singleton, if_pos rfl]
  have hlother : ∀ p, p ≠ o.price →
      lookupA (s.asks_by_price ++ [(o.price, [o])]) p = lookupA s.asks_by_price p := by
    intro p hp
    rw [lookupA_append, lookupA_singleton, if_neg (Ne.symm hp)]
    cases hx : lookupA s.asks_by_price p <;> rfl
  refine ⟨?_, ?_, ?_, ?_, ?_, ?_, ?_, ?_, ?_, ?_, ?_, ?_, ?_, ?_, ?_⟩
  · rw [List.map_append]
    simp [List.nodup_append, h.idKeys, hkey]
  · exact h.bidKeys
  · rw [List.map_append]
    simp [List.nodup_append, h.askKeys, hkeyB]
  · intro pr hpr
    rcases List.mem_append.1 hpr with h1 | h1
    · exact h.idVal pr h1
    · rw [List.mem_singleton.1 h1]
  · exact h.bidBuckets
  · intro pl hpl
    rcases List.mem_append.1 hpl with h1 | h1
    · exact h.askBuckets pl h1
    · rw [List.mem_singleton.1 h1]
      refine ⟨by simp, ?_⟩
      intro x hx
      rw [List.mem_singleton.1 hx]
      exact ⟨rfl, hask⟩
  · intro pl hpl x hx
    exact hD2old (h.bidReg pl hpl x hx)
  · intro pl hpl x hx
    rcases List.mem_append.1 hpl with h1 | h1
    · exact hD2old (h.askReg pl h1 x hx)
    · rw [List.mem_singleton.1 h1] at hx
      rw [List.mem_singleton.1 hx]
      exact hD2self
  · intro pr hpr hside
    rcases List.mem_append.1 hpr with h1 | h1
    · exact h.bidMem pr h1 hside
    · rw [List.mem_singleton.1 h1] at hside
      rw [hask] at hside
      exact absurd hside (by decide)
  · intro pr hpr hside
    rcases List.mem_append.1 hpr with h1 | h1
    · rcases h.askMem pr h1 hside with ⟨lb, hlb, hmem⟩
      exact ⟨lb, lookupA_append_some _ hlb, hmem⟩
    · rw [List.mem_singleton.1 h1]
      exact ⟨[o], hlnew, List.mem_singleton_self o⟩
  · have hperm : List.Perm (joinLadder (s.asks_by_price ++ [(o.price, [o])]))
        (joinLadder s.asks_by_price ++ [o]) := by
      rw [joinLadder_append]
      simp [joinLadder]
    exact nodup_ids_append_ask hperm h.bucketIds (h.fresh_bucket_ids hfresh)
  · exact h.bidHeapMem
  · rintro p ⟨lb, hlb, hlbne⟩
    by_cases hpp : p = o.price
    · subst hpp
      exact (List.mem_orderedInsert _).2 (Or.inl rfl)
    · rw [hlother _ hpp] at hlb
      exact (List.mem_orderedInsert _).2 (Or.inr (h.askHeapMem p ⟨lb, hlb, hlbne⟩))
  · exact h.bidHeapSorted
  · exact h.askHeapSorted.orderedInsert _ _

lemma WF.add_invalid (s : OptimizedOrderBook) (o : Order)
    (h : WF s) (hfresh : lookupA s.orders_by_id o.order_id = none)
    (hnb : o.side ≠ "bid") (hna : o.side ≠ "ask") :
    WF { s with orders_by_id := s.orders_by_id ++ [(o.order_id, o)] } := by
  have hkey : o.order_id ∉ s.orders_by_id.map Prod.fst := lookupA_eq_none_iff.1 hfresh
  have hD2old : ∀ {x : Nat} {v : Order}, lookupA s.orders_by_id x = some v →
      lookupA (s.orders_by_id ++ [(o.order_id, o)]) x = some v :=
    fun hx => lookupA_append_some _ hx
  refine ⟨?_, ?_, ?_, ?_, ?_, ?_, ?_, ?_, ?_, ?_, ?_, ?_, ?_, ?_, ?_⟩
  · rw [List.map_append]
    simp [List.nodup_append, h.idKeys, hkey]
  · exact h.bidKeys
  · exact h.askKeys
  · intro pr hpr
    rcases List.mem_append.1 hpr with h1 | h1
    · exact h.idVal pr h1
    · rw [List.mem_singleton.1 h1]
  · exact h.bidBuckets
  · exact h.askBuckets
  · intro pl hpl x hx
    exact hD2old (h.bidReg pl hpl x hx)
  · intro pl hpl x hx
    exact hD2old (h.askReg pl hpl x hx)
  · intro pr hpr hside
    rcases List.mem_append.1 hpr with h1 | h1
    · exact h.bidMem pr h1 hside
    · rw [List.mem_singleton.1 h1] at hside
      exact absurd hside hnb
  · intro pr hpr hside
    rcases List.mem_append.1 hpr with h1 | h1
    · exact h.askMem pr h1 hside
    · rw [List.mem_singleton.1 h1] at hside
      exact absurd hside hna
  · exact h.bucketIds
  · exact h.bidHeapMem
  · exact h.askHeapMem
  · exact h.bidHeapSorted
  · exact h.askHeapSorted

theorem WF.add (s : OptimizedOrderBook) (o : Order) (h : WF s) :
    WF (s.add_order o).1 := by
  by_cases hdup : (lookupA s.orders_by_id o.order_id).isSome = true
  · simpa [OptimizedOrderBook.add_order, hdup] using h
  · have hfresh : lookupA s.orders_by_id o.order_id = none := by
      cases hx : lookupA s.orders_by_id o.order_id
      · rfl
      · rw [hx] at hdup
        simp at hdup
    by_cases hbid : o.side = "bid"
    · cases hb : lookupA s.bids_by_price o.price with
      | some l =>
        simpa [OptimizedOrderBook.add_order, hfresh, hbid, hb] using
          WF.add_bid_present s o l h hfresh hbid hb
      | none =>
        simpa [OptimizedOrderBook.add_order, hfresh, hbid, hb] using
          WF.add_bid_absent s o h hfresh hbid hb
    · by_cases hask : o.side = "ask"
      · cases hb : lookupA s.asks_by_price o.price with
        | some l =>
          simpa [OptimizedOrderBook.add_order, hfresh, hbid, hask, hb] using
            WF.add_ask_present s o l h hfresh hask hb
        | none =>
          simpa [OptimizedOrderBook.add_order, hfresh, hbid, hask, hb] using
            WF.add_ask_absent s o h hfresh hask hb
      · simpa [OptimizedOrderBook.add_order, hfresh, hbid, hask] using
          WF.add_invalid s o h hfresh hbid hask

lemma WF.amend_bid (s : OptimizedOrderBook) (o : Order) (oid : Nat) (q : Int)
    (l : List Order) (h : WF s) (hluk : lookupA s.orders_by_id oid = some o)
    (ho : o.side = "bid") (hb : lookupA s.bids_by_price o.price = some l) :
    WF { s with
          orders_by_id := setKey s.orders_by_id oid { o with quantity := q },
          bids_by_price := setKey s.bids_by_price o.price
            (replaceFirst l o { o with quantity := q }) } := by
  have hoid : o.order_id = oid := h.idVal _ (mem_of_lookupA_some hluk)
  have hBpair : (o.price, l) ∈ s.bids_by_price := mem_of_lookupA_some hb
  have hBne : l ≠ [] := (h.bidBuckets _ hBpair).1
  have hoin : o ∈ l := by
    rcases h.bidMem _ (mem_of_lookupA_some hluk) ho with ⟨lb, hlb, hm⟩
    rw [hb] at hlb
    injection hlb with hlb
    exact hlb ▸ hm
  have hlNodup : l.Nodup := (h.bid_bucket_ids_nodup hb).of_map
  have hD2self : lookupA (setKey s.orders_by_id oid { o with quantity := q }) oid
      = some { o with quantity := q } := lookupA_setKey_self _ _ _ _ hluk
  have hD2other : ∀ x, x ≠ oid →
      lookupA (setKey s.orders_by_id oid { o with quantity := q }) x
        = lookupA s.orders_by_id x :=
    fun x hx => lookupA_setKey_ne _ _ _ _ hx
  have hxo : ∀ pl ∈ s.bids_by_price, ∀ x ∈ pl.2, x.order_id = oid → x = o := by
    intro pl hpl x hx hxid
    have := h.bidReg pl hpl x hx
    rw [hxid, hluk] at this
    injection this with this
    exact this.symm
  have hxoa : ∀ pl ∈ s.asks_by_price, ∀ x ∈ pl.2, x.order_id = oid → x = o := by
    intro pl hpl x hx hxid
    have := h.askReg pl hpl x hx
    rw [hxid, hluk] at this
    injection this with this
    exact this.symm
  have hlnew : lookupA (setKey s.bids_by_price o.price
      (replaceFirst l o { o with quantity := q })) o.price
      = some (replaceFirst l o { o with quantity := q }) :=
    lookupA_setKey_self _ _ _ _ hb
  have hlother : ∀ p, p ≠ o.price →
      lookupA (setKey s.bids_by_price o.price
        (replaceFirst l o { o with quantity := q })) p
        = lookupA s.bids_by_price p :=
    fun p hp => lookupA_setKey_ne _ _ _ _ hp
  refine ⟨?_, ?_, ?_, ?_, ?_, ?_, ?_, ?_, ?_, ?_, ?_, ?_, ?_, ?_, ?_⟩
  · rw [keys_setKey]
    exact h.idKeys
  · rw [keys_setKey]
    exact h.bidKeys
  · exact h.askKeys
  · intro pr hpr
    rcases mem_setKey_cases h.idKeys hpr with rfl | ⟨hm, _⟩
    · exact hoid
    · exact h.idVal pr hm
  · intro pl hpl
    rcases mem_setKey_cases h.bidKeys hpl with rfl | ⟨hm, _⟩
    · constructor
      · intro he
        have he2 : replaceFirst l o { o with quantity := q } = [] := he
        have hlen := replaceFirst_length l o { o with quantity := q }
        rw [he2] at hlen
        exact hBne (List.length_eq_zero.1 hlen.symm)
      · intro x hx
        rcases mem_replaceFirst_cases hx with rfl | h1
        · exact ⟨rfl, ho⟩
        · exact (h.bidBuckets _ hBpair).2 x h1
    · exact h.bidBuckets pl hm
  · exact h.askBuckets
  · intro pl hpl x hx
    rcases mem_setKey_cases h.bidKeys hpl with rfl | ⟨hm, hne⟩
    · rcases mem_replaceFirst_cases_nodup hlNodup hx with rfl | ⟨h1, h2⟩
      · simpa [hoid] using hD2self
      · have hxid : x.order_id ≠ oid := fun hc => h2 (hxo _ hBpair x h1 hc)
        rw [hD2other _ hxid]
        exact h.bidReg _ hBpair x h1
    · have hxid : x.order_id ≠ oid := by
        intro hc
        have hxe : x = o := hxo pl hm x hx hc
        have := ((h.bidBuckets pl hm).2 x hx).1
        rw [hxe] at this
        exact hne (this ▸ rfl)
      rw [hD2other _ hxid]
      exact h.bidReg pl hm x hx
  · intro pl hpl x hx
    have hxid : x.order_id ≠ oid := by
      intro hc
      have hxe : x = o := hxoa pl hpl x hx hc
      have := ((h.askBuckets pl hpl).2 x hx).2
      rw [hxe, ho] at this
      exact absurd this (by decide)
    rw [hD2other _ hxid]
    exact h.askReg pl hpl x hx
  · intro pr hpr hside
    rcases mem_setKey_cases h.idKeys hpr with rfl | ⟨hm, hne⟩
    · exact ⟨replaceFirst l o { o with quantity := q }, hlnew,
        mem_replaceFirst_self hoin⟩
    · rcases h.bidMem pr hm hside with ⟨lb, hlb, hmem⟩
      have hprne : pr.2 ≠ o := by
        intro hc
        exact hne (by rw [← h.idVal pr hm, hc, hoid])
      by_cases hpp : Order.price pr.2 = o.price
      · rw [hpp, hb] at hlb
        injection hlb with hlb
        refine ⟨replaceFirst l o { o with quantity := q }, by rw [hpp]; exact hlnew, ?_⟩
        exact mem_replaceFirst_of_ne (hlb ▸ hmem) hprne
      · exact ⟨lb, by rw [hlother _ hpp]; exact hlb, hmem⟩
  · intro pr hpr hside
    rcases mem_setKey_cases h.idKeys hpr with rfl | ⟨hm, _⟩
    · rw [show Order.side { o with quantity := q } = o.side from rfl, ho] at hside
      exact absurd hside (by decide)
    · exact h.askMem pr hm hside
  · have hmap : (joinLadder (setKey s.bids_by_price o.price
        (replaceFirst l o { o with quantity := q }))).map Order.order_id
        = (joinLadder s.bids_by_price).map Order.order_id :=
      joinIds_setKey _ _ _ _ hb (replaceFirst_map_id l o _ rfl)
    rw [List.map_append, hmap, ← List.map_append]
    exact h.bucketIds
  · rintro p ⟨lb, hlb, hlbne⟩
    by_cases hpp : p = o.price
    · subst hpp
      exact h.bidHeapMem o.price ⟨l, hb, hBne⟩
    · rw [hlother _ hpp] at hlb
      exact h.bidHeapMem p ⟨lb, hlb, hlbne⟩
  · exact h.askHeapMem
  · exact h.bidHeapSorted
  · exact h.askHeapSorted

lemma WF.amend_ask (s : OptimizedOrderBook) (o : Order) (oid : Nat) (q : Int)
    (l : List Order) (h : WF s) (hluk : lookupA s.orders_by_id oid = some o)
    (ho : o.side = "ask") (hb : lookupA s.asks_by_price o.price = some l) :
    WF { s with
          orders_by_id := setKey s.orders_by_id oid { o with quantity := q },
          asks_by_price := setKey s.asks_by_price o.price
            (replaceFirst l o { o with quantity := q }) } := by
  have hoid : o.order_id = oid := h.idVal _ (mem_of_lookupA_some hluk)
  have hBpair : (o.price, l) ∈ s.asks_by_price := mem_of_lookupA_some hb
  have hBne : l ≠ [] := (h.askBuckets _ hBpair).1
  have hoin : o ∈ l := by
    rcases h.askMem _ (mem_of_lookupA_some hluk) ho with ⟨lb, hlb, hm⟩
    rw [hb] at hlb
    injection hlb with hlb
    exact hlb ▸ hm
  have hlNodup : l.Nodup := (h.ask_bucket_ids_nodup hb).of_map
  have hD2self : lookupA (setKey s.orders_by_id oid { o with quantity := q }) oid
      = some { o with quantity := q } := lookupA_setKey_self _ _ _ _ hluk
  have hD2other : ∀ x, x ≠ oid →
      lookupA (setKey s.orders_by_id oid { o with quantity := q }) x
        = lookupA s.orders_by_id x :=
    fun x hx => lookupA_setKey_ne _ _ _ _ hx
  have hxo : ∀ pl ∈ s.asks_by_price, ∀ x ∈ pl.2, x.order_id = oid → x = o := by
    intro pl hpl x hx hxid
    have := h.askReg pl hpl x hx
    rw [hxid, hluk] at this
    injection this with this
    exact this.symm
  have hxob : ∀ pl ∈ s.bids_by_price, ∀ x ∈ pl.2, x.order_id = oid → x = o := by
    intro pl hpl x hx hxid
    have := h.bidReg pl hpl x hx
    rw [hxid, hluk] at this
    injection this with this
    exact this.symm
  have hlnew : lookupA (setKey s.asks_by_price o.price
      (replaceFirst l o { o with quantity := q })) o.price
      = some (replaceFirst l o { o with quantity := q }) :=
    lookupA_setKey_self _ _ _ _ hb
  have hlother : ∀ p, p ≠ o.price →
      lookupA (setKey s.asks_by_price o.price
        (replaceFirst l o { o with quantity := q })) p
        = lookupA s.asks_by_price p :=
    fun p hp => lookupA_setKey_ne _ _ _ _ hp
  refine ⟨?_, ?_, ?_, ?_, ?_, ?_, ?_, ?_, ?_, ?_, ?_, ?_, ?_, ?_, ?_⟩
  · rw [keys_setKey]
    exact h.idKeys
  · exact h.bidKeys
  · rw [keys_setKey]
    exact h.askKeys
  · intro pr hpr
    rcases mem_setKey_cases h.idKeys hpr with rfl | ⟨hm, _⟩
    · exact hoid
    · exact h.idVal pr hm
  · exact h.bidBuckets
  · intro pl hpl
    rcases mem_setKey_cases h.askKeys hpl with rfl | ⟨hm, _⟩
    · constructor
      · intro he
        have he2 : replaceFirst l o { o with quantity := q } = [] := he
        have hlen := replaceFirst_length l o { o with quantity := q }
        rw [he2] at hlen
        exact hBne (List.length_eq_zero.1 hlen.symm)
      · intro x hx
        rcases mem_replaceFirst_cases hx with rfl | h1
        · exact ⟨rfl, ho⟩
        · exact (h.askBuckets _ hBpair).2 x h1
    · exact h.askBuckets pl hm
  · intro pl hpl x hx
    have hxid : x.order_id ≠ oid := by
      intro hc
      have hxe : x = o := hxob pl hpl x hx hc
      have := ((h.bidBuckets pl hpl).2 x hx).2
      rw [hxe, ho] at this
      exact absurd this (by decide)
    rw [hD2other _ hxid]
    exact h.bidReg pl hpl x hx
  · intro pl hpl x hx
    rcases mem_setKey_cases h.askKeys hpl with rfl | ⟨hm, hne⟩
    · rcases mem_replaceFirst_cases_nodup hlNodup hx with rfl | ⟨h1, h2⟩
      · simpa [hoid] using hD2self
      · have hxid : x.order_id ≠ oid := fun hc => h2 (hxo _ hBpair x h1 hc)
        rw [hD2other _ hxid]
        exact h.askReg _ hBpair x h1
    · have hxid : x.order_id ≠ oid := by
        intro hc
        have hxe : x = o := hxo pl hm x hx hc
        have := ((h.askBuckets pl hm).2 x hx).1
        rw [hxe] at this
        exact hne (this ▸ rfl)
      rw [hD2other _ hxid]
      exact h.askReg pl hm x hx
  · intro pr hpr hside
    rcases mem_setKey_cases h.idKeys hpr with rfl | ⟨hm, _⟩
    · rw [show Order.side { o with quantity := q } = o.side from rfl, ho] at hside
      exact absurd hside (by decide)
    · exact h.bidMem pr hm hside
  · intro pr hpr hside
    rcases mem_setKey_cases h.idKeys hpr with rfl | ⟨hm, hne⟩
    · exact ⟨replaceFirst l o { o with quantity := q }, hlnew,
        mem_replaceFirst_self hoin⟩
    · rcases h.askMem pr hm hside with ⟨lb, hlb, hmem⟩
      have hprne : pr.2 ≠ o := by
        intro hc
        exact hne (by rw [← h.idVal pr hm, hc, hoid])
      by_cases hpp : Order.price pr.2 = o.price
      · rw [hpp, hb] at hlb
        injection hlb with hlb
        refine ⟨replaceFirst l o { o with quantity := q }, by rw [hpp]; exact hlnew, ?_⟩
        exact mem_replaceFirst_of_ne (hlb ▸ hmem) hprne
      · exact ⟨lb, by rw [hlother _ hpp]; exact hlb, hmem⟩
  · have hmap : (joinLadder (setKey s.asks_by_price o.price
        (replaceFirst l o { o with quantity := q }))).map Order.order_id
        = (joinLadder s.asks_by_price).map Order.order_id :=
      joinIds_setKey _ _ _ _ hb (replaceFirst_map_id l o _ rfl)
    rw [List.map_append, hmap, ← List.map_append]
    exact h.bucketIds
  · exact h.bidHeapMem
  · rintro p ⟨lb, hlb, hlbne⟩
    by_cases hpp : p = o.price
    · subst hpp
      exact h.askHeapMem o.price ⟨l, hb, hBne⟩
    · rw [hlother _ hpp] at hlb
      exact h.askHeapMem p ⟨lb, hlb, hlbne⟩
  · exact h.bidHeapSorted
  · exact h.askHeapSorted

lemma WF.amend_invalid (s : OptimizedOrderBook) (o : Order) (oid : Nat) (q : Int)
    (h : WF s) (hluk : lookupA s.orders_by_id oid = some o)
    (hnb : o.side ≠ "bid") (hna : o.side ≠ "ask") :
    WF { s with
          orders_by_id := setKey s.orders_by_id oid { o with quantity := q } } := by
  have hoid : o.order_id = oid := h.idVal _ (mem_of_lookupA_some hluk)
  have hD2other : ∀ x, x ≠ oid →
      lookupA (setKey s.orders_by_id oid { o with quantity := q }) x
        = lookupA s.orders_by_id x :=
    fun x hx => lookupA_setKey_ne _ _ _ _ hx
  have hxob : ∀ pl ∈ s.bids_by_price, ∀ x ∈ pl.2, x.order_id ≠ oid := by
    intro pl hpl x hx hc
    have hr := h.bidReg pl hpl x hx
    rw [hc, hluk] at hr
    injection hr with hr
    have := ((h.bidBuckets pl hpl).2 x hx).2
    rw [← hr] at this
    exact hnb this
  have hxoa : ∀ pl ∈ s.asks_by_price, ∀ x ∈ pl.2, x.order_id ≠ oid := by
    intro pl hpl x hx hc
    have hr := h.askReg pl hpl x hx
    rw [hc, hluk] at hr
    injection hr with hr
    have := ((h.askBuckets pl hpl).2 x hx).2
    rw [← hr] at this
    exact hna this
  refine ⟨?_, ?_, ?_, ?_, ?_, ?_, ?_, ?_, ?_, ?_, ?_, ?_, ?_, ?_, ?_⟩
  · rw [keys_setKey]
    exact h.idKeys
  · exact h.bidKeys
  · exact h.askKeys
  · intro pr hpr
    rcases mem_setKey_cases h.idKeys hpr with rfl | ⟨hm, _⟩
    · exact hoid
    · exact h.idVal pr hm
  · exact h.bidBuckets
  · exact h.askBuckets
  · intro pl hpl x hx
    rw [hD2other _ (hxob pl hpl x hx)]
    exact h.bidReg pl hpl x hx
  · intro pl hpl x hx
    rw [hD2other _ (hxoa pl hpl x hx)]
    exact h.askReg pl hpl x hx
  · intro pr hpr hside
    rcases mem_setKey_cases h.idKeys hpr with rfl | ⟨hm, _⟩
    · exact absurd hside hnb
    · exact h.bidMem pr hm hside
  · intro pr hpr hside
    rcases mem_setKey_cases h.idKeys hpr with rfl | ⟨hm, _⟩
    · exact absurd hside hna
    · exact h.askMem pr hm hside
  · exact h.bucketIds
  · exact h.bidHeapMem
  · exact h.askHeapMem
  · exact h.bidHeapSorted
  · exact h.askHeapSorted

theorem WF.amend (s : OptimizedOrderBook) (oid : Nat) (q : Int) (h : WF s) :
    WF (s.amend_order oid q).1 := by
  cases hluk : lookupA s.orders_by_id oid with
  | none => simpa [OptimizedOrderBook.amend_order, hluk] using h
  | some o =>
    by_cases hbid : o.side = "bid"
    · have hna : o.side ≠ "ask" := by rw [hbid]; decide
      cases hb : lookupA s.bids_by_price o.price with
      | some l =>
        simpa [OptimizedOrderBook.amend_order, hluk, hbid, hna, hb] using
          WF.amend_bid s o oid q l h hluk hbid hb
      | none =>
        exfalso
        rcases h.bidMem _ (mem_of_lookupA_some hluk) hbid with ⟨lb, hlb, _⟩
        rw [hb] at hlb
        cases hlb
    · by_cases hask : o.side = "ask"
      · cases hb : lookupA s.asks_by_price o.price with
        | some l =>
          simpa [OptimizedOrderBook.amend_order, hluk, hbid, hask, hb] using
            WF.amend_ask s o oid q l h hluk hask hb
        | none =>
          exfalso
          rcases h.askMem _ (mem_of_lookupA_some hluk) hask with ⟨lb, hlb, _⟩
          rw [hb] at hlb
          cases hlb
      · simpa [OptimizedOrderBook.amend_order, hluk, hbid, hask] using
          WF.amend_invalid s o oid q h hluk hbid hask

lemma WF.delete_bid_erase (s : OptimizedOrderBook) (o : Order) (oid : Nat)
    (l : List Order) (h : WF s) (hluk : lookupA s.orders_by_id oid = some o)
    (ho : o.side = "bid") (hb : lookupA s.bids_by_price o.price = some l)
    (hl2 : l.erase o = []) :
    WF { s with
          orders_by_id := eraseKey s.orders_by_id oid,
          bids_by_price := eraseKey s.bids_by_price o.price } := by
  have hoid : o.order_id = oid := h.idVal _ (mem_of_lookupA_some hluk)
  have hD2other : ∀ x, x ≠ oid →
      lookupA (eraseKey s.orders_by_id oid) x = lookupA s.orders_by_id x :=
    fun x hx => lookupA_eraseKey_ne _ _ _ hx
  have hxo : ∀ pl ∈ s.bids_by_price, ∀ x ∈ pl.2, x.order_id = oid → x = o := by
    intro pl hpl x hx hxid
    have := h.bidReg pl hpl x hx
    rw [hxid, hluk] at this
    injection this with this
    exact this.symm
  have hxoa : ∀ pl ∈ s.asks_by_price, ∀ x ∈ pl.2, x.order_id ≠ oid := by
    intro pl hpl x hx hc
    have hr := h.askReg pl hpl x hx
    rw [hc, hluk] at hr
    injection hr with hr
    have := ((h.askBuckets pl hpl).2 x hx).2
    rw [← hr, ho] at this
    exact absurd this (by decide)
  refine ⟨?_, ?_, ?_, ?_, ?_, ?_, ?_, ?_, ?_, ?_, ?_, ?_, ?_, ?_, ?_⟩
  · exact (keys_eraseKey_sublist _ _).nodup h.idKeys
  · exact (keys_eraseKey_sublist _ _).nodup h.bidKeys
  · exact h.askKeys
  · intro pr hpr
    exact h.idVal pr (mem_eraseKey_cases h.idKeys hpr).1
  · intro pl hpl
    exact h.bidBuckets pl (mem_eraseKey_cases h.bidKeys hpl).1
  · exact h.askBuckets
  · intro pl hpl x hx
    rcases mem_eraseKey_cases h.bidKeys hpl with ⟨hm, hne⟩
    have hxid : x.order_id ≠ oid := by
      intro hc
      have hxe : x = o := hxo pl hm x hx hc
      have := ((h.bidBuckets pl hm).2 x hx).1
      rw [hxe] at this
      exact hne (this ▸ rfl)
    rw [hD2other _ hxid]
    exact h.bidReg pl hm x hx
  · intro pl hpl x hx
    rw [hD2other _ (hxoa pl hpl x hx)]
    exact h.askReg pl hpl x hx
  · intro pr hpr hside
    rcases mem_eraseKey_cases h.idKeys hpr with ⟨hm, hne⟩
    have hprne : pr.2 ≠ o := by
      intro hc
      exact hne (by rw [← h.idVal pr hm, hc, hoid])
    rcases h.bidMem pr hm hside with ⟨lb, hlb, hmem⟩
    by_cases hpp : Order.price pr.2 = o.price
    · exfalso
      rw [hpp, hb] at hlb
      injection hlb with hlb
      subst hlb
      have : pr.2 ∈ l.erase o := (List.mem_erase_of_ne hprne).2 hmem
      rw [hl2] at this
      simp at this
    · exact ⟨lb, by rw [lookupA_eraseKey_ne _ _ _ hpp]; exact hlb, hmem⟩
  · intro pr hpr hside
    exact h.askMem pr (mem_eraseKey_cases h.idKeys hpr).1 hside
  · have hs : (joinLadder (eraseKey s.bids_by_price o.price) ++
        joinLadder s.asks_by_price).Sublist
        (joinLadder s.bids_by_price ++ joinLadder s.asks_by_price) :=
      (joinLadder_eraseKey_sublist _ _).append (List.Sublist.refl _)
    exact (hs.map Order.order_id).nodup h.bucketIds
  · rintro p ⟨lb, hlb, hlbne⟩
    by_cases hpp : p = o.price
    · exfalso
      subst hpp
      rw [lookupA_eraseKey_self _ _ h.bidKeys] at hlb
      cases hlb
    · rw [lookupA_eraseKey_ne _ _ _ hpp] at hlb
      exact h.bidHeapMem p ⟨lb, hlb, hlbne⟩
  · exact h.askHeapMem
  · exact h.bidHeapSorted
  · exact h.askHeapSorted

lemma WF.delete_bid_set (s : OptimizedOrderBook) (o : Order) (oid : Nat)
    (l : List Order) (h : WF s) (hluk : lookupA s.orders_by_id oid = some o)
    (ho : o.side = "bid") (hb : lookupA s.bids_by_price o.price = some l)
    (hl2 : l.erase o ≠ []) :
    WF { s with
          orders_by_id := eraseKey s.orders_by_id oid,
          bids_by_price := setKey s.bids_by_price o.price (l.erase o) } := by
  have hoid : o.order_id = oid := h.idVal _ (mem_of_lookupA_some hluk)
  have hBpair : (o.price, l) ∈ s.bids_by_price := mem_of_lookupA_some hb
  have hBne : l ≠ [] := (h.bidBuckets _ hBpair).1
  have hlNodup : l.Nodup := (h.bid_bucket_ids_nodup hb).of_map
  have hD2other : ∀ x, x ≠ oid →
      lookupA (eraseKey s.orders_by_id oid) x = lookupA s.orders_by_id x :=
    fun x hx => lookupA_eraseKey_ne _ _ _ hx
  have hxo : ∀ pl ∈ s.bids_by_price, ∀ x ∈ pl.2, x.order_id = oid → x = o := by
    intro pl hpl x hx hxid
    have := h.bidReg pl hpl x hx
    rw [hxid, hluk] at this
    injection this with this
    exact this.symm
  have hxoa : ∀ pl ∈ s.asks_by_price, ∀ x ∈ pl.2, x.order_id ≠ oid := by
    intro pl hpl x hx hc
    have hr := h.askReg pl hpl x hx
    rw [hc, hluk] at hr
    injection hr with hr
    have := ((h.askBuckets pl hpl).2 x hx).2
    rw [← hr, ho] at this
    exact absurd this (by decide)
  have hlnew : lookupA (setKey s.bids_by_price o.price (l.erase o)) o.price
      = some (l.erase o) := lookupA_setKey_self _ _ _ _ hb
  have hlother : ∀ p, p ≠ o.price →
      lookupA (setKey s.bids_by_price o.price (l.erase o)) p
        = lookupA s.bids_by_price p :=
    fun p hp => lookupA_setKey_ne _ _ _ _ hp
  refine ⟨?_, ?_, ?_, ?_, ?_, ?_, ?_, ?_, ?_, ?_, ?_, ?_, ?_, ?_, ?_⟩
  · exact (keys_eraseKey_sublist _ _).nodup h.idKeys
  · rw [keys_setKey]
    exact h.bidKeys
  · exact h.askKeys
  · intro pr hpr
    exact h.idVal pr (mem_eraseKey_cases h.idKeys hpr).1
  · intro pl hpl
    rcases mem_setKey_cases h.bidKeys hpl with rfl | ⟨hm, _⟩
    · refine ⟨hl2, ?_⟩
      intro x hx
      exact (h.bidBuckets _ hBpair).2 x ((List.erase_sublist o l).subset hx)
    · exact h.bidBuckets pl hm
  · exact h.askBuckets
  · intro pl hpl x hx
    rcases mem_setKey_cases h.bidKeys hpl with rfl | ⟨hm, hne⟩
    · have hx2 : x ≠ o ∧ x ∈ l := (hlNodup.mem_erase_iff).1 hx
      have hxid : x.order_id ≠ oid := fun hc => hx2.1 (hxo _ hBpair x hx2.2 hc)
      rw [hD2other _ hxid]
      exact h.bidReg _ hBpair x hx2.2
    · have hxid : x.order_id ≠ oid := by
        intro hc
        have hxe : x = o := hxo pl hm x hx hc
        have := ((h.bidBuckets pl hm).2 x hx).1
        rw [hxe] at this
        exact hne (this ▸ rfl)
      rw [hD2other _ hxid]
      exact h.bidReg pl hm x hx
  · intro pl hpl x hx
    rw [hD2other _ (hxoa pl hpl x hx)]
    exact h.askReg pl hpl x hx
  · intro pr hpr hside
    rcases mem_eraseKey_cases h.idKeys hpr with ⟨hm, hne⟩
    have hprne : pr.2 ≠ o := by
      intro hc
      exact hne (by rw [← h.idVal pr hm, hc, hoid])
    rcases h.bidMem pr hm hside with ⟨lb, hlb, hmem⟩
    by_cases hpp : Order.price pr.2 = o.price
    · rw [hpp, hb] at hlb
      injection hlb with hlb
      subst hlb
      refine ⟨l.erase o, by rw [hpp]; exact hlnew, ?_⟩
      exact (List.mem_erase_of_ne hprne).2 hmem
    · exact ⟨lb, by rw [hlother _ hpp]; exact hlb, hmem⟩
  · intro pr hpr hside
    exact h.askMem pr (mem_eraseKey_cases h.idKeys hpr).1 hside
  · have hs : (joinLadder (setKey s.bids_by_price o.price (l.erase o)) ++
        joinLadder s.asks_by_price).Sublist
        (joinLadder s.bids_by_price ++ joinLadder s.asks_by_price) :=
      (joinLadder_setKey_sublist _ _ _ _ hb (List.erase_sublist o l)).append
        (List.Sublist.refl _)
    exact (hs.map Order.order_id).nodup h.bucketIds
  · rintro p ⟨lb, hlb, hlbne⟩
    by_cases hpp : p = o.price
    · subst hpp
      exact h.bidHeapMem o.price ⟨l, hb, hBne⟩
    · rw [hlother _ hpp] at hlb
      exact h.bidHeapMem p ⟨lb, hlb, hlbne⟩
  · exact h.askHeapMem
  · exact h.bidHeapSorted
  · exact h.askHeapSorted

lemma WF.delete_ask_erase (s : OptimizedOrderBook) (o : Order) (oid : Nat)
    (l : List Order) (h : WF s) (hluk : lookupA s.orders_by_id oid = some o)
    (ho : o.side = "ask") (hb : lookupA s.asks_by_price o.price = some l)
    (hl2 : l.erase o = []) :
    WF { s with
          orders_by_id := eraseKey s.orders_by_id oid,
          asks_by_price := eraseKey s.asks_by_price o.price } := by
  have hoid : o.order_id = oid := h.idVal _ (mem_of_lookupA_some hluk)
  have hD2other : ∀ x, x ≠ oid →
      lookupA (eraseKey s.orders_by_id oid) x = lookupA s.orders_by_id x :=
    fun x hx => lookupA_eraseKey_ne _ _ _ hx
  have hxo : ∀ pl ∈ s.asks_by_price, ∀ x ∈ pl.2, x.order_id = oid → x = o := by
    intro pl hpl x hx hxid
    have := h.askReg pl hpl x hx
    rw [hxid, hluk] at this
    injection this with this
    exact this.symm
  have hxob : ∀ pl ∈ s.bids_by_price, ∀ x ∈ pl.2, x.order_id ≠ oid := by
    intro pl hpl x hx hc
    have hr := h.bidReg pl hpl x hx
    rw [hc, hluk] at hr
    injection hr with hr
    have := ((h.bidBuckets pl hpl).2 x hx).2
    rw [← hr, ho] at this
    exact absurd this (by decide)
  refine ⟨?_, ?_, ?_, ?_, ?_, ?_, ?_, ?_, ?_, ?_, ?_, ?_, ?_, ?_, ?_⟩
  · exact (keys_eraseKey_sublist _ _).nodup h.idKeys
  · exact h.bidKeys
  · exact (keys_eraseKey_sublist _ _).nodup h.askKeys
  · intro pr hpr
    exact h.idVal pr (mem_eraseKey_cases h.idKeys hpr).1
  · exact h.bidBuckets
  · intro pl hpl
    exact h.askBuckets pl (mem_eraseKey_cases h.askKeys hpl).1
  · intro pl hpl x hx
    rw [hD2other _ (hxob pl hpl x hx)]
    exact h.bidReg pl hpl x hx
  · intro pl hpl x hx
    rcases mem_eraseKey_cases h.askKeys hpl with ⟨hm, hne⟩
    have hxid : x.order_id ≠ oid := by
      intro hc
      have hxe : x = o := hxo pl hm x hx hc
      have := ((h.askBuckets pl hm).2 x hx).1
      rw [hxe] at this
      exact hne (this ▸ rfl)
    rw [hD2other _ hxid]
    exact h.askReg pl hm x hx
  · intro pr hpr hside
    exact h.bidMem pr (mem_eraseKey_cases h.idKeys hpr).1 hside
  · intro pr hpr hside
    rcases mem_eraseKey_cases h.idKeys hpr with ⟨hm, hne⟩
    have hprne : pr.2 ≠ o := by
      intro hc
      exact hne (by rw [← h.idVal pr hm, hc, hoid])
    rcases h.askMem pr hm hside with ⟨lb, hlb, hmem⟩
    by_cases hpp : Order.price pr.2 = o.price
    · exfalso
      rw [hpp, hb] at hlb
      injection hlb with hlb
      subst hlb
      have : pr.2 ∈ l.erase o := (List.mem_erase_of_ne hprne).2 hmem
      rw [hl2] at this
      simp at this
    · exact ⟨lb, by rw [lookupA_eraseKey_ne _ _ _ hpp]; exact hlb, hmem⟩
  · have hs : (joinLadder s.bids_by_price ++
        joinLadder (eraseKey s.asks_by_price o.price)).Sublist
        (joinLadder s.bids_by_price ++ joinLadder s.asks_by_price) :=
      (List.Sublist.refl _).append (joinLadder_eraseKey_sublist _ _)
    exact (hs.map Order.order_id).nodup h.bucketIds
  · exact h.bidHeapMem
  · rintro p ⟨lb, hlb, hlbne⟩
    by_cases hpp : p = o.price
    · exfalso
      subst hpp
      rw [lookupA_eraseKey_self _ _ h.askKeys] at hlb
      cases hlb
    · rw [lookupA_eraseKey_ne _ _ _ hpp] at hlb
      exact h.askHeapMem p ⟨lb, hlb, hlbne⟩
  · exact h.bidHeapSorted
  · exact h.askHeapSorted

lemma WF.delete_ask_set (s : OptimizedOrderBook) (o : Order) (oid : Nat)
    (l : List Order) (h : WF s) (hluk : lookupA s.orders_by_id oid = some o)
    (ho : o.side = "ask") (hb : lookupA s.asks_by_price o.price = some l)
    (hl2 : l.erase o ≠ []) :
    WF { s with
          orders_by_id := eraseKey s.orders_by_id oid,
          asks_by_price := setKey s.asks_by_price o.price (l.erase o) } := by
  have hoid : o.order_id = oid := h.idVal _ (mem_of_lookupA_some hluk)
  have hBpair : (o.price, l) ∈ s.asks_by_price := mem_of_lookupA_some hb
  have hBne : l ≠ [] := (h.askBuckets _ hBpair).1
  have hlNodup : l.Nodup := (h.ask_bucket_ids_nodup hb).of_map
  have hD2other : ∀ x, x ≠ oid →
      lookupA (eraseKey s.orders_by_id oid) x = lookupA s.orders_by_id x :=
    fun x hx => lookupA_eraseKey_ne _ _ _ hx
  have hxo : ∀ pl ∈ s.asks_by_price, ∀ x ∈ pl.2, x.order_id = oid → x = o := by
    intro pl hpl x hx hxid
    have := h.askReg pl hpl x hx
    rw [hxid, hluk] at this
    injection this with this
    exact this.symm
  have hxob : ∀ pl ∈ s.bids_by_price, ∀ x ∈ pl.2, x.order_id ≠ oid := by
    intro pl hpl x hx hc
    have hr := h.bidReg pl hpl x hx
    rw [hc, hluk] at hr
    injection hr with hr
    have := ((h.bidBuckets pl hpl).2 x hx).2
    rw [← hr, ho] at this
    exact absurd this (by decide)
  have hlnew : lookupA (setKey s.asks_by_price o.price (l.erase o)) o.price
      = some (l.erase o) := lookupA_setKey_self _ _ _ _ hb
  have hlother : ∀ p, p ≠ o.price →
      lookupA (setKey s.asks_by_price o.price (l.erase o)) p
        = lookupA s.asks_by_price p :=
    fun p hp => lookupA_setKey_ne _ _ _ _ hp
  refine ⟨?_, ?_, ?_, ?_, ?_, ?_, ?_, ?_, ?_, ?_, ?_, ?_, ?_, ?_, ?_⟩
  · exact (keys_eraseKey_sublist _ _).nodup h.idKeys
  · exact h.bidKeys
  · rw [keys_setKey]
    exact h.askKeys
  · intro pr hpr
    exact h.idVal pr (mem_eraseKey_cases h.idKeys hpr).1
  · exact h.bidBuckets
  · intro pl hpl
    rcases mem_setKey_cases h.askKeys hpl with rfl | ⟨hm, _⟩
    · refine ⟨hl2, ?_⟩
      intro x hx
      exact (h.askBuckets _ hBpair).2 x ((List.erase_sublist o l).subset hx)
    · exact h.askBuckets pl hm
  · intro pl hpl x hx
    rw [hD2other _ (hxob pl hpl x hx)]
    exact h.bidReg pl hpl x hx
  · intro pl hpl x hx
    rcases mem_setKey_cases h.askKeys hpl with rfl | ⟨hm, hne⟩
    · have hx2 : x ≠ o ∧ x ∈ l := (hlNodup.mem_erase_iff).1 hx
      have hxid : x.order_id ≠ oid := fun hc => hx2.1 (hxo _ hBpair x hx2.2 hc)
      rw [hD2other _ hxid]
      exact h.askReg _ hBpair x hx2.2
    · have hxid : x.order_id ≠ oid := by
        intro hc
        have hxe : x = o := hxo pl hm x hx hc
        have := ((h.askBuckets pl hm).2 x hx).1
        rw [hxe] at this
        exact hne (this ▸ rfl)
      rw [hD2other _ hxid]
      exact h.askReg pl hm x hx
  · intro pr hpr hside
    exact h.bidMem pr (mem_eraseKey_cases h.idKeys hpr).1 hside
  · intro pr hpr hside
    rcases mem_eraseKey_cases h.idKeys hpr with ⟨hm, hne⟩
    have hprne : pr.2 ≠ o := by
      intro hc
      exact hne (by rw [← h.idVal pr hm, hc, hoid])
    rcases h.askMem pr hm hside with ⟨lb, hlb, hmem⟩
    by_cases hpp : Order.price pr.2 = o.price
    · rw [hpp, hb] at hlb
      injection hlb with hlb
      subst hlb
      refine ⟨l.erase o, by rw [hpp]; exact hlnew, ?_⟩
      exact (List.mem_erase_of_ne hprne).2 hmem
    · exact ⟨lb, by rw [hlother _ hpp]; exact hlb, hmem⟩
  · have hs : (joinLadder s.bids_by_price ++
        joinLadder (setKey s.asks_by_price o.price (l.erase o))).Sublist
        (joinLadder s.bids_by_price ++ joinLadder s.asks_by_price) :=
      (List.Sublist.refl _).append
        (joinLadder_setKey_sublist _ _ _ _ hb (List.erase_sublist o l))
    exact (hs.map Order.order_id).nodup h.bucketIds
  · exact h.bidHeapMem
  · rintro p ⟨lb, hlb, hlbne⟩
    by_cases hpp : p = o.price
    · subst hpp
      exact h.askHeapMem o.price ⟨l, hb, hBne⟩
    · rw [hlother _ hpp] at hlb
      exact h.askHeapMem p ⟨lb, hlb, hlbne⟩
  · exact h.bidHeapSorted
  · exact h.askHeapSorted

lemma WF.delete_invalid (s : OptimizedOrderBook) (o : Order) (oid : Nat)
    (h : WF s) (hluk : lookupA s.orders_by_id oid = some o)
    (hnb : o.side ≠ "bid") (hna : o.side ≠ "ask") :
    WF { s with orders_by_id := eraseKey s.orders_by_id oid } := by
  have hD2other : ∀ x, x ≠ oid →
      lookupA (eraseKey s.orders_by_id oid) x = lookupA s.orders_by_id x :=
    fun x hx => lookupA_eraseKey_ne _ _ _ hx
  have hxob : ∀ pl ∈ s.bids_by_price, ∀ x ∈ pl.2, x.order_id ≠ oid := by
    intro pl hpl x hx hc
    have hr := h.bidReg pl hpl x hx
    rw [hc, hluk] at hr
    injection hr with hr
    have := ((h.bidBuckets pl hpl).2 x hx).2
    rw [← hr] at this
    exact hnb this
  have hxoa : ∀ pl ∈ s.asks_by_price, ∀ x ∈ pl.2, x.order_id ≠ oid := by
    intro pl hpl x hx hc
    have hr := h.askReg pl hpl x hx
    rw [hc, hluk] at hr
    injection hr with hr
    have := ((h.askBuckets pl hpl).2 x hx).2
    rw [← hr] at this
    exact hna this
  refine ⟨?_, ?_, ?_, ?_, ?_, ?_, ?_, ?_, ?_, ?_, ?_, ?_, ?_, ?_, ?_⟩
  · exact (keys_eraseKey_sublist _ _).nodup h.idKeys
  · exact h.bidKeys
  · exact h.askKeys
  · intro pr hpr
    exact h.idVal pr (mem_eraseKey_cases h.idKeys hpr).1
  · exact h.bidBuckets
  · exact h.askBuckets
  · intro pl hpl x hx
    rw [hD2other _ (hxob pl hpl x hx)]
    exact h.bidReg pl hpl x hx
  · intro pl hpl x hx
    rw [hD2other _ (hxoa pl hpl x hx)]
    exact h.askReg pl hpl x hx
  · intro pr hpr hside
    exact h.bidMem pr (mem_eraseKey_cases h.idKeys hpr).1 hside
  · intro pr hpr hside
    exact h.askMem pr (mem_eraseKey_cases h.idKeys hpr).1 hside
  · exact h.bucketIds
  · exact h.bidHeapMem
  · exact h.askHeapMem
  · exact h.bidHeapSorted
  · exact h.askHeapSorted

theorem WF.delete (s : OptimizedOrderBook) (oid : Nat) (h : WF s) :
    WF (s.delete_order oid).1 := by
  cases hluk : lookupA s.orders_by_id oid with
  | none => simpa [OptimizedOrderBook.delete_order, hluk] using h
  | some o =>
    by_cases hbid : o.side = "bid"
    · have hna : o.side ≠ "ask" := by rw [hbid]; decide
      cases hb : lookupA s.bids_by_price o.price with
      | some l =>
        by_cases hl2 : l.erase o = []
        · simpa [OptimizedOrderBook.delete_order, hluk, hbid, hna, hb, hl2] using
            WF.delete_bid_erase s o oid l h hluk hbid hb hl2
        · simpa [OptimizedOrderBook.delete_order, hluk, hbid, hna, hb, hl2] using
            WF.delete_bid_set s o oid l h hluk hbid hb hl2
      | none =>
        exfalso
        rcases h.bidMem _ (mem_of_lookupA_some hluk) hbid with ⟨lb, hlb, _⟩
        rw [hb] at hlb
        cases hlb
    · by_cases hask : o.side = "ask"
      · cases hb : lookupA s.asks_by_price o.price with
        | some l =>
          by_cases hl2 : l.erase o = []
          · simpa [OptimizedOrderBook.delete_order, hluk, hbid, hask, hb, hl2] using
              WF.delete_ask_erase s o oid l h hluk hask hb hl2
          · simpa [OptimizedOrderBook.delete_order, hluk, hbid, hask, hb, hl2] using
              WF.delete_ask_set s o oid l h hluk hask hb hl2
        | none =>
          exfalso
          rcases h.askMem _ (mem_of_lookupA_some hluk) hask with ⟨lb, hlb, _⟩
          rw [hb] at hlb
          cases hlb
      · simpa [OptimizedOrderBook.delete_order, hluk, hbid, hask] using
          WF.delete_invalid s o oid h hluk hbid hask

theorem WF.bestBid (s : OptimizedOrderBook) (h : WF s) : WF s.get_best_bid.2 := by
  refine ⟨h.idKeys, h.bidKeys, h.askKeys, h.idVal, h.bidBuckets, h.askBuckets,
    h.bidReg, h.askReg, h.bidMem, h.askMem, h.bucketIds, ?_, h.askHeapMem, ?_,
    h.askHeapSorted⟩
  · rintro p ⟨lb, hlb, hlbne⟩
    exact drainLoop_mem_preserved _ _ _ ⟨lb, by simpa using hlb, hlbne⟩ _
      (h.bidHeapMem p ⟨lb, hlb, hlbne⟩)
  · exact drainLoop_sorted _ _ _ h.bidHeapSorted

theorem WF.bestAsk (s : OptimizedOrderBook) (h : WF s) : WF s.get_best_ask.2 := by
  refine ⟨h.idKeys, h.bidKeys, h.askKeys, h.idVal, h.bidBuckets, h.askBuckets,
    h.bidReg, h.askReg, h.bidMem, h.askMem, h.bucketIds, h.bidHeapMem, ?_,
    h.bidHeapSorted, ?_⟩
  · rintro p ⟨lb, hlb, hlbne⟩
    exact drainLoop_mem_preserved _ _ _ ⟨lb, by simpa using hlb, hlbne⟩ _
      (h.askHeapMem p ⟨lb, hlb, hlbne⟩)
  · exact drainLoop_sorted _ _ _ h.askHeapSorted

theorem reachable_wf {s : OptimizedOrderBook} (h : Reachable s) : WF s := by
  induction h with
  | base => exact WF.base
  | add s o _ ih => exact WF.add s o ih
  | amend s oid q _ ih => exact WF.amend s oid q ih
  | delete s oid _ ih => exact WF.delete s oid ih
  | bestBid s _ ih => exact WF.bestBid s ih
  | bestAsk s _ ih => exact WF.bestAsk s ih

/-! ### Claims C4 and C1 -/

lemma lookupA_of_mem_nodup {α β : Type} [DecidableEq α] {m : List (α × β)}
    {pl : α × β} (hnod : (m.map Prod.fst).Nodup) (h : pl ∈ m) :
    lookupA m pl.1 = some pl.2 := by
  induction m with
  | nil => simp at h
  | cons x m ih =>
    simp only [List.map_cons, List.nodup_cons] at hnod
    rcases List.mem_cons.1 h with h1 | h1
    · rw [h1, lookupA, if_pos rfl]
    · have hne : x.1 ≠ pl.1 := by
        intro hc
        exact hnod.1 (hc ▸ List.mem_map_of_mem Prod.fst h1)
      rw [lookupA, if_neg hne]
      exact ih hnod.2 h1

/-- Maximum of a list of integers, none for the empty list. -/
def maxInt? : List Int → Option Int
  | [] => none
  | x :: xs =>
    match maxInt? xs with
    | none => some x
    | some m => some (max x m)

/-- Minimum of a list of integers, none for the empty list. -/
def minInt? : List Int → Option Int
  | [] => none
  | x :: xs =>
    match minInt? xs with
    | none => some x
    | some m => some (min x m)

lemma maxInt?_eq_none_iff {L : List Int} : maxInt? L = none ↔ L = [] := by
  cases L with
  | nil => simp [maxInt?]
  | cons x xs =>
    simp only [maxInt?]
    cases maxInt? xs <;> simp

lemma minInt?_eq_none_iff {L : List Int} : minInt? L = none ↔ L = [] := by
  cases L with
  | nil => simp [minInt?]
  | cons x xs =>
    simp only [minInt?]
    cases minInt? xs <;> simp

lemma maxInt?_spec : ∀ {L : List Int} {m : Int}, maxInt? L = some m →
    m ∈ L ∧ ∀ y ∈ L, y ≤ m := by
  intro L
  induction L with
  | nil => intro m hm; simp [maxInt?] at hm
  | cons x xs ih =>
    intro m hm
    cases hx : maxInt? xs with
    | none =>
      have hxs : xs = [] := maxInt?_eq_none_iff.1 hx
      rw [maxInt?, hx] at hm
      injection hm with hm
      subst hm
      subst hxs
      simp
    | some k =>
      rw [maxInt?, hx] at hm
      injection hm with hm
      rcases ih hx with ⟨hk1, hk2⟩
      constructor
      · rcases le_total x k with hle | hle
        · rw [← hm, max_eq_right hle]
          exact List.mem_cons_of_mem _ hk1
        · rw [← hm, max_eq_left hle]
          exact List.mem_cons_self _ _
      · intro y hy
        rcases List.mem_cons.1 hy with h1 | h1
        · rw [h1, ← hm]
          exact le_max_left _ _
        · exact le_trans (hk2 y h1) (hm ▸ le_max_right x k)

lemma minInt?_spec : ∀ {L : List Int} {m : Int}, minInt? L = some m →
    m ∈ L ∧ ∀ y ∈ L, m ≤ y := by
  intro L
  induction L with
  | nil => intro m hm; simp [minInt?] at hm
  | cons x xs ih =>
    intro m hm
    cases hx : minInt? xs with
    | none =>
      have hxs : xs = [] := minInt?_eq_none_iff.1 hx
      rw [minInt?, hx] at hm
      injection hm with hm
      subst hm
      subst hxs
      simp
    | some k =>
      rw [minInt?, hx] at hm
      injection hm with hm
      rcases ih hx with ⟨hk1, hk2⟩
      constructor
      · rcases le_total x k with hle | hle
        · rw [← hm, min_eq_left hle]
          exact List.mem_cons_self _ _
        · rw [← hm, min_eq_right hle]
          exact List.mem_cons_of_mem _ hk1
      · intro y hy
        rcases List.mem_cons.1 hy with h1 | h1
        · rw [h1, ← hm]
          exact min_le_left _ _
        · exact le_trans (hm ▸ min_le_right x k) (hk2 y h1)

lemma maxInt?_eq_some_of {L : List Int} {m : Int} (hm : m ∈ L)
    (hub : ∀ y ∈ L, y ≤ m) : maxInt? L = some m := by
  cases hx : maxInt? L with
  | none =>
    rw [maxInt?_eq_none_iff.1 hx] at hm
    simp at hm
  | some k =>
    rcases maxInt?_spec hx with ⟨hk1, hk2⟩
    have : k = m := le_antisymm (hub k hk1) (hk2 m hm)
    rw [this]

lemma minInt?_eq_some_of {L : List Int} {m : Int} (hm : m ∈ L)
    (hub : ∀ y ∈ L, m ≤ y) : minInt? L = some m := by
  cases hx : minInt? L with
  | none =>
    rw [minInt?_eq_none_iff.1 hx] at hm
    simp at hm
  | some k =>
    rcases minInt?_spec hx with ⟨hk1, hk2⟩
    have : k = m := le_antisymm (hk2 m hm) (hub k hk1)
    rw [this]

/-- Direct enumeration of the bid ladder: the maximum price among the
levels with a non-empty bucket, and the first order of that bucket
(None when no level is live).  This is the specification `best(side)`
is compared against. -/
def bestBidSpec (s : OptimizedOrderBook) : Option Order :=
  match maxInt? ((s.bids_by_price.filter (fun pl => !pl.2.isEmpty)).map Prod.fst) with
  | none => none
  | some p => (lookupA s.bids_by_price p).bind List.head?

/-- Direct enumeration of the ask ladder: minimum live price, first
order of its bucket. -/
def bestAskSpec (s : OptimizedOrderBook) : Option Order :=
  match minInt? ((s.asks_by_price.filter (fun pl => !pl.2.isEmpty)).map Prod.fst) with
  | none => none
  | some p => (lookupA s.asks_by_price p).bind List.head?

lemma get_best_bid_eq_spec (s : OptimizedOrderBook) (hw : WF s) :
    s.get_best_bid.1 = bestBidSpec s := by
  have hgb : s.get_best_bid.1 =
      (OptimizedOrderBook.drainLoop s.bids_by_price (fun x => -x) s.bid_heap).1 := rfl
  rcases drainLoop_bid_spec s.bids_by_price s.bid_heap hw.bidHeapMem
      hw.bidHeapSorted with ⟨hnone, hres⟩ | ⟨p, l, hlk, hlne, hmax, hres⟩
  · have hfe : s.bids_by_price.filter (fun pl => !pl.2.isEmpty) = [] := by
      rcases hff : s.bids_by_price.filter (fun pl => !pl.2.isEmpty) with _ | ⟨pl, rest⟩
      · exact hff
      · exfalso
        have hplf : pl ∈ s.bids_by_price.filter (fun pl => !pl.2.isEmpty) := by
          rw [hff]
          exact List.mem_cons_self _ _
        have hpl : pl ∈ s.bids_by_price := List.mem_of_mem_filter hplf
        have hplne : pl.2 ≠ [] := by
          have := List.of_mem_filter hplf
          simpa using this
        exact hnone pl.1 ⟨pl.2, lookupA_of_mem_nodup hw.bidKeys hpl, hplne⟩
    rw [hgb, hres, bestBidSpec, hfe]
    rfl
  · have hpmem : p ∈ (s.bids_by_price.filter (fun pl => !pl.2.isEmpty)).map Prod.fst := by
      refine List.mem_map.2 ⟨(p, l), ?_, rfl⟩
      refine List.mem_filter.2 ⟨mem_of_lookupA_some hlk, by simpa using hlne⟩
    have hub : ∀ y ∈ (s.bids_by_price.filter (fun pl => !pl.2.isEmpty)).map Prod.fst,
        y ≤ p := by
      intro y hy
      rcases List.mem_map.1 hy with ⟨pl, hplf, rfl⟩
      have hpl : pl ∈ s.bids_by_price := List.mem_of_mem_filter hplf
      have hplne : pl.2 ≠ [] := by
        have := List.of_mem_filter hplf
        simpa using this
      exact hmax pl.1 ⟨pl.2, lookupA_of_mem_nodup hw.bidKeys hpl, hplne⟩
    rw [hgb, hres, bestBidSpec, maxInt?_eq_some_of hpmem hub]
    show l.head? = (lookupA s.bids_by_price p).bind List.head?
    rw [hlk]
    rfl

lemma get_best_ask_eq_spec (s : OptimizedOrderBook) (hw : WF s) :
    s.get_best_ask.1 = bestAskSpec s := by
  have hgb : s.get_best_ask.1 =
      (OptimizedOrderBook.drainLoop s.asks_by_price (fun x => x) s.ask_heap).1 := rfl
  rcases drainLoop_ask_spec s.asks_by_price s.ask_heap hw.askHeapMem
      hw.askHeapSorted with ⟨hnone, hres⟩ | ⟨p, l, hlk, hlne, hmin, hres⟩
  · have hfe : s.asks_by_price.filter (fun pl => !pl.2.isEmpty) = [] := by
      rcases hff : s.asks_by_price.filter (fun pl => !pl.2.isEmpty) with _ | ⟨pl, rest⟩
      · exact hff
      · exfalso
        have hplf : pl ∈ s.asks_by_price.filter (fun pl => !pl.2.isEmpty) := by
          rw [hff]
          exact List.mem_cons_self _ _
        have hpl : pl ∈ s.asks_by_price := List.mem_of_mem_filter hplf
        have hplne : pl.2 ≠ [] := by
          have := List.of_mem_filter hplf
          simpa using this
        exact hnone pl.1 ⟨pl.2, lookupA_of_mem_nodup hw.askKeys hpl, hplne⟩
    rw [hgb, hres, bestAskSpec, hfe]
    rfl
  · have hpmem : p ∈ (s.asks_by_price.filter (fun pl => !pl.2.isEmpty)).map Prod.fst := by
      refine List.mem_map.2 ⟨(p, l), ?_, rfl⟩
      refine List.mem_filter.2 ⟨mem_of_lookupA_some hlk, by simpa using hlne⟩
    have hub : ∀ y ∈ (s.asks_by_price.filter (fun pl => !pl.2.isEmpty)).map Prod.fst,
        p ≤ y := by
      intro y hy
      rcases List.mem_map.1 hy with ⟨pl, hplf, rfl⟩
      have hpl : pl ∈ s.asks_by_price := List.mem_of_mem_filter hplf
      have hplne : pl.2 ≠ [] := by
        have := List.of_mem_filter hplf
        simpa using this
      exact hmin pl.1 ⟨pl.2, lookupA_of_mem_nodup hw.askKeys hpl, hplne⟩
    rw [hgb, hres, bestAskSpec, minInt?_eq_some_of hpmem hub]
    show l.head? = (lookupA s.asks_by_price p).bind List.head?
    rw [hlk]
    rfl

/-- C1: on every reachable book state, `get_best_bid` returns exactly
the first (oldest) order of the bucket at the maximum live bid price
and `get_best_ask` the first order of the bucket at the minimum live
ask price, returning None exactly when no order is live on that side:
both agree with direct enumeration of the price ladder
(`bestBidSpec` / `bestAskSpec`), the drain loop popping only stale
heap prices. -/
theorem c1_best_agrees_with_ladder (s : OptimizedOrderBook) (h : Reachable s) :
    s.get_best_bid.1 = bestBidSpec s ∧ s.get_best_ask.1 = bestAskSpec s :=
  ⟨get_best_bid_eq_spec s (reachable_wf h), get_best_ask_eq_spec s (reachable_wf h)⟩

/-- Closed witness for C1: a book with two bids (the better one then
deleted, leaving a stale heap entry) and one ask. -/
theorem c1_best_agrees_with_ladder_witness :
    ((((OptimizedOrderBook.init.add_order ⟨1, 100, 5, "bid"⟩).1.add_order
        ⟨2, 101, 7, "bid"⟩).1.add_order ⟨3, 105, 2, "ask"⟩).1.delete_order
        2).1.get_best_bid.1 =
      bestBidSpec ((((OptimizedOrderBook.init.add_order
        ⟨1, 100, 5, "bid"⟩).1.add_order ⟨2, 101, 7, "bid"⟩).1.add_order
        ⟨3, 105, 2, "ask"⟩).1.delete_order 2).1 ∧
    ((((OptimizedOrderBook.init.add_order ⟨1, 100, 5, "bid"⟩).1.add_order
        ⟨2, 101, 7, "bid"⟩).1.add_order ⟨3, 105, 2, "ask"⟩).1.delete_order
        2).1.get_best_ask.1 =
      bestAskSpec ((((OptimizedOrderBook.init.add_order
        ⟨1, 100, 5, "bid"⟩).1.add_order ⟨2, 101, 7, "bid"⟩).1.add_order
        ⟨3, 105, 2, "ask"⟩).1.delete_order 2).1 :=
  c1_best_agrees_with_ladder _
    (Reachable.delete _ _ (Reachable.add _ _ (Reachable.add _ _
      (Reachable.add _ _ Reachable.base))))

/-- C4: on every reachable book state, every price key present in a
price ladder maps to a non-empty bucket whose orders all rest at
exactly that price; the invariant is preserved by every public
operation (adds create a bucket only together with its first order,
deletes remove the key when the last order at the price goes). -/
theorem c4_ladder_nonempty (s : OptimizedOrderBook) (h : Reachable s) :
    (∀ pl ∈ s.bids_by_price, pl.2 ≠ ([] : List Order) ∧
        ∀ o ∈ pl.2, Order.price o = pl.1) ∧
    (∀ pl ∈ s.asks_by_price, pl.2 ≠ ([] : List Order) ∧
        ∀ o ∈ pl.2, Order.price o = pl.1) := by
  have hw := reachable_wf h
  constructor
  · intro pl hpl
    exact ⟨(hw.bidBuckets pl hpl).1, fun o ho => ((hw.bidBuckets pl hpl).2 o ho).1⟩
  · intro pl hpl
    exact ⟨(hw.askBuckets pl hpl).1, fun o ho => ((hw.askBuckets pl hpl).2 o ho).1⟩

/-- Closed witness for C4: a book built by two adds and a delete. -/
theorem c4_ladder_nonempty_witness :
    (∀ pl ∈ ((((OptimizedOrderBook.init.add_order ⟨1, 100, 5, "bid"⟩).1.add_order
        ⟨2, 100, 7, "bid"⟩).1.delete_order 1).1).bids_by_price,
        pl.2 ≠ ([] : List Order) ∧ ∀ o ∈ pl.2, Order.price o = pl.1) ∧
    (∀ pl ∈ ((((OptimizedOrderBook.init.add_order ⟨1, 100, 5, "bid"⟩).1.add_order
        ⟨2, 100, 7, "bid"⟩).1.delete_order 1).1).asks_by_price,
        pl.2 ≠ ([] : List Order) ∧ ∀ o ∈ pl.2, Order.price o = pl.1) :=
  c4_ladder_nonempty _
    (Reachable.delete _ _ (Reachable.add _ _ (Reachable.add _ _ Reachable.base)))

/-! ### Claim C5: FIFO at a price level -/

lemma erase_get_eq_eraseIdx {os : List Order}
    (hnodup : (os.map Order.order_id).Nodup) :
    ∀ i (hi : i < os.length), os.erase (os.get ⟨i, hi⟩) = os.eraseIdx i := by
  induction os with
  | nil => intro i hi; simp at hi
  | cons x xs ih =>
    intro i hi
    simp only [List.map_cons, List.nodup_cons] at hnodup
    cases i with
    | zero => simp [List.erase_cons_head]
    | succ j =>
      have hj : j < xs.length := by simpa using hi
      have hget : (x :: xs).get ⟨j + 1, hi⟩ = xs.get ⟨j, hj⟩ := rfl
      have hne : x ≠ xs.get ⟨j, hj⟩ := by
        intro hc
        apply hnodup.1
        rw [hc]
        exact List.mem_map_of_mem Order.order_id (xs.get_mem _ _)
      rw [hget, List.eraseIdx_cons_succ, List.erase_cons_tail]
      · rw [ih hnodup.2 j hj]
      · simpa using hne

lemma addFold_bid (os : List Order) (p : Int) :
    ∀ s : OptimizedOrderBook,
      (∀ o ∈ os, o.price = p ∧ o.side = "bid") →
      (∀ o ∈ os, lookupA s.orders_by_id o.order_id = none) →
      (os.map Order.order_id).Nodup →
      (os.foldl (fun t o => (t.add_order o).1) s).orders_by_id
          = s.orders_by_id ++ os.map (fun o => (o.order_id, o)) ∧
      (∀ pp, pp ≠ p →
        lookupA (os.foldl (fun t o => (t.add_order o).1) s).bids_by_price pp
          = lookupA s.bids_by_price pp) ∧
      (lookupA (os.foldl (fun t o => (t.add_order o).1) s).bids_by_price p
          = match lookupA s.bids_by_price p with
            | some l => some (l ++ os)
            | none => if os.isEmpty then none else some os) ∧
      (os.foldl (fun t o => (t.add_order o).1) s).asks_by_price = s.asks_by_price ∧
      ((s.bids_by_price.map Prod.fst).Nodup →
        ((os.foldl (fun t o => (t.add_order o).1) s).bids_by_price.map Prod.fst).Nodup) := by
  induction os with
  | nil =>
    intro s _ _ _
    refine ⟨by simp, fun pp _ => rfl, ?_, rfl, fun hk => hk⟩
    cases hx : lookupA s.bids_by_price p <;> simp [hx]
  | cons o os ih =>
    intro s hos hfresh hnodup
    have hop : o.price = p := (hos o (List.mem_cons_self _ _)).1
    have hob : o.side = "bid" := (hos o (List.mem_cons_self _ _)).2
    have hof : lookupA s.orders_by_id o.order_id = none :=
      hfresh o (List.mem_cons_self _ _)
    simp only [List.map_cons, List.nodup_cons] at hnodup
    have hfold : (o :: os).foldl (fun t o => (t.add_order o).1) s
        = os.foldl (fun t o => (t.add_order o).1) (s.add_order o).1 := rfl
    cases hb : lookupA s.bids_by_price o.price with
    | some l =>
      have hstep : (s.add_order o).1 = { s with
          orders_by_id := s.orders_by_id ++ [(o.order_id, o)],
          bids_by_price := setKey s.bids_by_price o.price (l ++ [o]) } := by
        simp [OptimizedOrderBook.add_order, hof, hob, hb]
      have hfresh2 : ∀ x ∈ os, lookupA ((s.add_order o).1).orders_by_id x.order_id
          = none := by
        intro x hx
        rw [hstep]
        have hxf : lookupA s.orders_by_id x.order_id = none :=
          hfresh x (List.mem_cons_of_mem _ hx)
        rw [lookupA_append_none _ hxf, lookupA_singleton, if_neg]
        intro hc
        exact hnodup.1 (hc ▸ List.mem_map_of_mem Order.order_id hx)
      rcases ih (s.add_order o).1 (fun x hx => hos x (List.mem_cons_of_mem _ hx))
          hfresh2 hnodup.2 with ⟨ih1, ih2, ih3, ih4, ih5⟩
      refine ⟨?_, ?_, ?_, ?_, ?_⟩
      · rw [hfold, ih1, hstep]
        simp
      · intro pp hpp
        rw [hfold, ih2 pp hpp, hstep]
        simp only []
        rw [hop] at hb ⊢
        exact lookupA_setKey_ne _ _ _ _ hpp
      · rw [hfold, ih3, hstep]
        simp only []
        rw [hop] at hb ⊢
        rw [lookupA_setKey_self _ _ _ _ hb, hb]
        simp
      · rw [hfold, ih4, hstep]
      · intro hk
        rw [hfold]
        apply ih5
        rw [hstep]
        simp only []
        rw [keys_setKey]
        exact hk
    | none =>
      have hstep : (s.add_order o).1 = { s with
          orders_by_id := s.orders_by_id ++ [(o.order_id, o)],
          bids_by_price := s.bids_by_price ++ [(o.price, [o])],
          bid_heap := heapPush s.bid_heap (-o.price) } := by
        simp [OptimizedOrderBook.add_order, hof, hob, hb]
      have hfresh2 : ∀ x ∈ os, lookupA ((s.add_order o).1).orders_by_id x.order_id
          = none := by
        intro x hx
        rw [hstep]
        have hxf : lookupA s.orders_by_id x.order_id = none :=
          hfresh x (List.mem_cons_of_mem _ hx)
        rw [lookupA_append_none _ hxf, lookupA_singleton, if_neg]
        intro hc
        exact hnodup.1 (hc ▸ List.mem_map_of_mem Order.order_id hx)
      rcases ih (s.add_order o).1 (fun x hx => hos x (List.mem_cons_of_mem _ hx))
          hfresh2 hnodup.2 with ⟨ih1, ih2, ih3, ih4, ih5⟩
      refine ⟨?_, ?_, ?_, ?_, ?_⟩
      · rw [hfold, ih1, hstep]
        simp
      · intro pp hpp
        rw [hfold, ih2 pp hpp, hstep]
        simp only []
        rw [hop] at hb ⊢
        rw [lookupA_append, lookupA_singleton, if_neg (Ne.symm hpp)]
        cases hx : lookupA s.bids_by_price pp <;> rfl
      · rw [hfold, ih3, hstep]
        simp only []
        rw [hop] at hb ⊢
        have hlk : lookupA (s.bids_by_price ++ [(p, [o])]) p = some [o] := by
          rw [lookupA_append_none _ hb, lookupA_singleton, if_pos rfl]
        rw [hlk, hb]
        simp
      · rw [hfold, ih4, hstep]
      · intro hk
        rw [hfold]
        apply ih5
        rw [hstep]
        simp only []
        rw [List.map_append]
        simp [List.nodup_append, hk, lookupA_eq_none_iff.1 hb]

lemma addFold_ask (os : List Order) (p : Int) :
    ∀ s : OptimizedOrderBook,
      (∀ o ∈ os, o.price = p ∧ o.side = "ask") →
      (∀ o ∈ os, lookupA s.orders_by_id o.order_id = none) →
      (os.map Order.order_id).Nodup →
      (os.foldl (fun t o => (t.add_order o).1) s).orders_by_id
          = s.orders_by_id ++ os.map (fun o => (o.order_id, o)) ∧
      (∀ pp, pp ≠ p →
        lookupA (os.foldl (fun t o => (t.add_order o).1) s).asks_by_price pp
          = lookupA s.asks_by_price pp) ∧
      (lookupA (os.foldl (fun t o => (t.add_order o).1) s).asks_by_price p
          = match lookupA s.asks_by_price p with
            | some l => some (l ++ os)
            | none => if os.isEmpty then none else some os) ∧
      (os.foldl (fun t o => (t.add_order o).1) s).bids_by_price = s.bids_by_price ∧
      ((s.asks_by_price.map Prod.fst).Nodup →
        ((os.foldl (fun t o => (t.add_order o).1) s).asks_by_price.map Prod.fst).Nodup) := by
  induction os with
  | nil =>
    intro s _ _ _
    refine ⟨by simp, fun pp _ => rfl, ?_, rfl, fun hk => hk⟩
    cases hx : lookupA s.asks_by_price p <;> simp [hx]
  | cons o os ih =>
    intro s hos hfresh hnodup
    have hop : o.price = p := (hos o (List.mem_cons_self _ _)).1
    have hoa : o.side = "ask" := (hos o (List.mem_cons_self _ _)).2
    have hof : lookupA s.orders_by_id o.order_id = none :=
      hfresh o (List.mem_cons_self _ _)
    simp only [List.map_cons, List.nodup_cons] at hnodup
    have hfold : (o :: os).foldl (fun t o => (t.add_order o).1) s
        = os.foldl (fun t o => (t.add_order o).1) (s.add_order o).1 := rfl
    cases hb : lookupA s.asks_by_price o.price with
    | some l =>
      have hstep : (s.add_order o).1 = { s with
          orders_by_id := s.orders_by_id ++ [(o.order_id, o)],
          asks_by_price := setKey s.asks_by_price o.price (l ++ [o]) } := by
        simp [OptimizedOrderBook.add_order, hof, hoa, hb]
      have hfresh2 : ∀ x ∈ os, lookupA ((s.add_order o).1).orders_by_id x.order_id
          = none := by
        intro x hx
        rw [hstep]
        have hxf : lookupA s.orders_by_id x.order_id = none :=
          hfresh x (List.mem_cons_of_mem _ hx)
        rw [lookupA_append_none _ hxf, lookupA_singleton, if_neg]
        intro hc
        exact hnodup.1 (hc ▸ List.mem_map_of_mem Order.order_id hx)
      rcases ih (s.add_order o).1 (fun x hx => hos x (List.mem_cons_of_mem _ hx))
          hfresh2 hnodup.2 with ⟨ih1, ih2, ih3, ih4, ih5⟩
      refine ⟨?_, ?_, ?_, ?_, ?_⟩
      · rw [hfold, ih1, hstep]
        simp
      · intro pp hpp
        rw [hfold, ih2 pp hpp, hstep]
        simp only []
        rw [hop] at hb ⊢
        exact lookupA_setKey_ne _ _ _ _ hpp
      · rw [hfold, ih3, hstep]
        simp only []
        rw [hop] at hb ⊢
        rw [lookupA_setKey_self _ _ _ _ hb, hb]
        simp
      · rw [hfold, ih4, hstep]
      · intro hk
        rw [hfold]
        apply ih5
        rw [hstep]
        simp only []
        rw [keys_setKey]
        exact hk
    | none =>
      have hstep : (s.add_order o).1 = { s with
          orders_by_id := s.orders_by_id ++ [(o.order_id, o)],
          asks_by_price := s.asks_by_price ++ [(o.price, [o])],
          ask_heap := heapPush s.ask_heap o.price } := by
        simp [OptimizedOrderBook.add_order, hof, hoa, hb]
      have hfresh2 : ∀ x ∈ os, lookupA ((s.add_order o).1).orders_by_id x.order_id
          = none := by
        intro x hx
        rw [hstep]
        have hxf : lookupA s.orders_by_id x.order_id = none :=
          hfresh x (List.mem_cons_of_mem _ hx)
        rw [lookupA_append_none _ hxf, lookupA_singleton, if_neg]
        intro hc
        exact hnodup.1 (hc ▸ List.mem_map_of_mem Order.order_id hx)
      rcases ih (s.add_order o).1 (fun x hx => hos x (List.mem_cons_of_mem _ hx))
          hfresh2 hnodup.2 with ⟨ih1, ih2, ih3, ih4, ih5⟩
      refine ⟨?_, ?_, ?_, ?_, ?_⟩
      · rw [hfold, ih1, hstep]
        simp
      · intro pp hpp
        rw [hfold, ih2 pp hpp, hstep]
        simp only []
        rw [hop] at hb ⊢
        rw [lookupA_append, lookupA_singleton, if_neg (Ne.symm hpp)]
        cases hx : lookupA s.asks_by_price pp <;> rfl
      · rw [hfold, ih3, hstep]
        simp only []
        rw [hop] at hb ⊢
        have hlk : lookupA (s.asks_by_price ++ [(p, [o])]) p = some [o] := by
          rw [lookupA_append_none _ hb, lookupA_singleton, if_pos rfl]
        rw [hlk, hb]
        simp
      · rw [hfold, ih4, hstep]
      · intro hk
        rw [hfold]
        apply ih5
        rw [hstep]
        simp only []
        rw [List.map_append]
        simp [List.nodup_append, hk, lookupA_eq_none_iff.1 hb]

lemma get_orders_bid_eq_bucket (t : OptimizedOrderBook) (p : Int) :
    t.get_orders_at_price p (some "bid")
      = OptimizedOrderBook.bucketList t.bids_by_price p := by
  rw [OptimizedOrderBook.get_orders_at_price, if_pos (Or.inr rfl), if_neg (by simp)]
  simp

lemma get_orders_ask_eq_bucket (t : OptimizedOrderBook) (p : Int) :
    t.get_orders_at_price p (some "ask")
      = OptimizedOrderBook.bucketList t.asks_by_price p := by
  rw [OptimizedOrderBook.get_orders_at_price, if_neg (by simp), if_pos (Or.inr rfl)]
  simp

lemma c5_fifo_bid (s : OptimizedOrderBook) (os : List Order) (p : Int)
    (hos : ∀ o ∈ os, o.price = p ∧ o.side = "bid")
    (hfresh : ∀ o ∈ os, lookupA s.orders_by_id o.order_id = none)
    (hnodup : (os.map Order.order_id).Nodup)
    (hkeys : (s.bids_by_price.map Prod.fst).Nodup)
    (hempty : lookupA s.bids_by_price p = none) :
    (os.foldl (fun t o => (t.add_order o).1) s).get_orders_at_price p (some "bid")
        = os ∧
    ∀ i (hi : i < os.length),
      (((os.foldl (fun t o => (t.add_order o).1) s).delete_order
          os[i].order_id).1).get_orders_at_price p (some "bid")
        = os.eraseIdx i := by
  rcases addFold_bid os p s hos hfresh hnodup with ⟨hD, hOther, hAt, hAsk, hKeys2⟩
  have hAtnone : os = [] →
      lookupA (os.foldl (fun t o => (t.add_order o).1) s).bids_by_price p = none := by
    intro h
    subst h
    rw [hAt, hempty]
    rfl
  have hAtsome : os ≠ [] →
      lookupA (os.foldl (fun t o => (t.add_order o).1) s).bids_by_price p
        = some os := by
    intro h
    rw [hAt, hempty]
    cases os with
    | nil => exact absurd rfl h
    | cons a as => rfl
  constructor
  · rw [get_orders_bid_eq_bucket, OptimizedOrderBook.bucketList]
    by_cases hn : os = []
    · rw [hAtnone hn, hn]
    · rw [hAtsome hn]
  · intro i hi
    have hosne : os ≠ [] := by
      intro hc
      rw [hc] at hi
      simp at hi
    have hoimem : os[i] ∈ os := os.get_mem _ _
    have hob : Order.side os[i] = "bid" := (hos _ hoimem).2
    have hoipr : Order.price os[i] = p := (hos _ hoimem).1
    have hlk2 : lookupA (os.foldl (fun t o => (t.add_order o).1) s).orders_by_id
        os[i].order_id = some os[i] := by
      rw [hD, lookupA_append_none _ (hfresh _ hoimem)]
      have hkeq : (os.map (fun o => (o.order_id, o))).map Prod.fst
          = os.map Order.order_id := by
        simp [List.map_map]
      exact lookupA_of_mem_nodup (by rw [hkeq]; exact hnodup)
        (List.mem_map_of_mem _ hoimem)
    have hAt2 : lookupA (os.foldl (fun t o => (t.add_order o).1) s).bids_by_price p
        = some os := hAtsome hosne
    have hlad : lookupA (os.foldl (fun t o => (t.add_order o).1) s).bids_by_price
        (Order.price os[i]) = some os := by
      rw [hoipr]
      exact hAt2
    have herase : os.erase os[i] = os.eraseIdx i :=
      erase_get_eq_eraseIdx hnodup i hi
    by_cases hl2 : os.eraseIdx i = []
    · have hstep : ((os.foldl (fun t o => (t.add_order o).1) s).delete_order
          os[i].order_id).1
          = { os.foldl (fun t o => (t.add_order o).1) s with
              orders_by_id := eraseKey
                (os.foldl (fun t o => (t.add_order o).1) s).orders_by_id
                os[i].order_id,
              bids_by_price := eraseKey
                (os.foldl (fun t o => (t.add_order o).1) s).bids_by_price
                (Order.price os[i]) } := by
        simp [OptimizedOrderBook.delete_order, hlk2, hob, hlad, herase, hl2]
      rw [hstep, get_orders_bid_eq_bucket]
      simp only []
      rw [OptimizedOrderBook.bucketList, hoipr,
        lookupA_eraseKey_self _ _ (hKeys2 hkeys), hl2]
    · have hstep : ((os.foldl (fun t o => (t.add_order o).1) s).delete_order
          os[i].order_id).1
          = { os.foldl (fun t o => (t.add_order o).1) s with
              orders_by_id := eraseKey
                (os.foldl (fun t o => (t.add_order o).1) s).orders_by_id
                os[i].order_id,
              bids_by_price := setKey
                (os.foldl (fun t o => (t.add_order o).1) s).bids_by_price
                (Order.price os[i]) (os.eraseIdx i) } := by
        simp [OptimizedOrderBook.delete_order, hlk2, hob, hlad, herase, hl2]
      rw [hstep, get_orders_bid_eq_bucket]
      simp only []
      rw [OptimizedOrderBook.bucketList, hoipr, lookupA_setKey_self _ _ _ _ hAt2]

lemma c5_fifo_ask (s : OptimizedOrderBook) (os : List Order) (p : Int)
    (hos : ∀ o ∈ os, o.price = p ∧ o.side = "ask")
    (hfresh : ∀ o ∈ os, lookupA s.orders_by_id o.order_id = none)
    (hnodup : (os.map Order.order_id).Nodup)
    (hkeys : (s.asks_by_price.map Prod.fst).Nodup)
    (hempty : lookupA s.asks_by_price p = none) :
    (os.foldl (fun t o => (t.add_order o).1) s).get_orders_at_price p (some "ask")
        = os ∧
    ∀ i (hi : i < os.length),
      (((os.foldl (fun t o => (t.add_order o).1) s).delete_order
          os[i].order_id).1).get_orders_at_price p (some "ask")
        = os.eraseIdx i := by
  rcases addFold_ask os p s hos hfresh hnodup with ⟨hD, hOther, hAt, hAsk, hKeys2⟩
  have hAtnone : os = [] →
      lookupA (os.foldl (fun t o => (t.add_order o).1) s).asks_by_price p = none := by
    intro h
    subst h
    rw [hAt, hempty]
    rfl
  have hAtsome : os ≠ [] →
      lookupA (os.foldl (fun t o => (t.add_order o).1) s).asks_by_price p
        = some os := by
    intro h
    rw [hAt, hempty]
    cases os with
    | nil => exact absurd rfl h
    | cons a as => rfl
  constructor
  · rw [get_orders_ask_eq_bucket, OptimizedOrderBook.bucketList]
    by_cases hn : os = []
    · rw [hAtnone hn, hn]
    · rw [hAtsome hn]
  · intro i hi
    have hosne : os ≠ [] := by
      intro hc
      rw [hc] at hi
      simp at hi
    have hoimem : os[i] ∈ os := os.get_mem _ _
    have hob : Order.side os[i] = "ask" := (hos _ hoimem).2
    have hoipr : Order.price os[i] = p := (hos _ hoimem).1
    have hlk2 : lookupA (os.foldl (fun t o => (t.add_order o).1) s).orders_by_id
        os[i].order_id = some os[i] := by
      rw [hD, lookupA_append_none _ (hfresh _ hoimem)]
      have hkeq : (os.map (fun o => (o.order_id, o))).map Prod.fst
          = os.map Order.order_id := by
        simp [List.map_map]
      exact lookupA_of_mem_nodup (by rw [hkeq]; exact hnodup)
        (List.mem_map_of_mem _ hoimem)
    have hAt2 : lookupA (os.foldl (fun t o => (t.add_order o).1) s).asks_by_price p
        = some os := hAtsome hosne
    have hlad : lookupA (os.foldl (fun t o => (t.add_order o).1) s).asks_by_price
        (Order.price os[i]) = some os := by
      rw [hoipr]
      exact hAt2
    have herase : os.erase os[i] = os.eraseIdx i :=
      erase_get_eq_eraseIdx hnodup i hi
    by_cases hl2 : os.eraseIdx i = []
    · have hstep : ((os.foldl (fun t o => (t.add_order o).1) s).delete_order
          os[i].order_id).1
          = { os.foldl (fun t o => (t.add_order o).1) s with
              orders_by_id := eraseKey
                (os.foldl (fun t o => (t.add_order o).1) s).orders_by_id
                os[i].order_id,
              asks_by_price := eraseKey
                (os.foldl (fun t o => (t.add_order o).1) s).asks_by_price
                (Order.price os[i]) } := by
        simp [OptimizedOrderBook.delete_order, hlk2, hob, hlad, herase, hl2]
      rw [hstep, get_orders_ask_eq_bucket]
      simp only []
      rw [OptimizedOrderBook.bucketList, hoipr,
        lookupA_eraseKey_self _ _ (hKeys2 hkeys), hl2]
    · have hstep : ((os.foldl (fun t o => (t.add_order o).1) s).delete_order
          os[i].order_id).1
          = { os.foldl (fun t o => (t.add_order o).1) s with
              orders_by_id := eraseKey
                (os.foldl (fun t o => (t.add_order o).1) s).orders_by_id
                os[i].order_id,
              asks_by_price := setKey
                (os.foldl (fun t o => (t.add_order o).1) s).asks_by_price
                (Order.price os[i]) (os.eraseIdx i) } := by
        simp [OptimizedOrderBook.delete_order, hlk2, hob, hlad, herase, hl2]
      rw [hstep, get_orders_ask_eq_bucket]
      simp only []
      rw [OptimizedOrderBook.bucketList, hoipr, lookupA_setKey_self _ _ _ _ hAt2]

/-- C5: orders added at the same price and side are returned by
`get_orders_at_price` in exactly arrival order, and after deleting any
one of them the query returns the remaining orders in their original
relative order (the deleted index removed from the sequence). -/
theorem c5_fifo_at_price (s : OptimizedOrderBook) (os : List Order) (p : Int)
    (sd : String) (hsd : sd = "bid" ∨ sd = "ask")
    (hos : ∀ o ∈ os, o.price = p ∧ o.side = sd)
    (hfresh : ∀ o ∈ os, lookupA s.orders_by_id o.order_id = none)
    (hnodup : (os.map Order.order_id).Nodup)
    (hkeys : ((if sd = "bid" then s.bids_by_price else s.asks_by_price).map
        Prod.fst).Nodup)
    (hempty : lookupA (if sd = "bid" then s.bids_by_price else s.asks_by_price) p
        = none) :
    (os.foldl (fun t o => (t.add_order o).1) s).get_orders_at_price p (some sd)
        = os ∧
    ∀ i (hi : i < os.length),
      (((os.foldl (fun t o => (t.add_order o).1) s).delete_order
          os[i].order_id).1).get_orders_at_price p (some sd)
        = os.eraseIdx i := by
  rcases hsd with rfl | rfl
  · rw [if_pos rfl] at hkeys hempty
    exact c5_fifo_bid s os p hos hfresh hnodup hkeys hempty
  · rw [if_neg (by decide)] at hkeys hempty
    exact c5_fifo_ask s os p hos hfresh hnodup hkeys hempty

/-- Closed witness for C5: three bids at price 50 added to the empty
book; the query returns them in arrival order and deleting any one of
the three leaves the others in order. -/
theorem c5_fifo_at_price_witness :
    (∀ o ∈ ([⟨1, 50, 5, "bid"⟩, ⟨2, 50, 6, "bid"⟩, ⟨3, 50, 7, "bid"⟩] :
        List Order), o.price = 50 ∧ o.side = "bid") ∧
    ((([⟨1, 50, 5, "bid"⟩, ⟨2, 50, 6, "bid"⟩, ⟨3, 50, 7, "bid"⟩] :
        List Order).foldl (fun t o => (t.add_order o).1)
        OptimizedOrderBook.init).get_orders_at_price 50 (some "bid")
      = [⟨1, 50, 5, "bid"⟩, ⟨2, 50, 6, "bid"⟩, ⟨3, 50, 7, "bid"⟩] ∧
    ∀ i (hi : i < ([⟨1, 50, 5, "bid"⟩, ⟨2, 50, 6, "bid"⟩, ⟨3, 50, 7, "bid"⟩] :
        List Order).length),
      ((((([⟨1, 50, 5, "bid"⟩, ⟨2, 50, 6, "bid"⟩, ⟨3, 50, 7, "bid"⟩] :
          List Order)).foldl (fun t o => (t.add_order o).1)
          OptimizedOrderBook.init).delete_order
          (([⟨1, 50, 5, "bid"⟩, ⟨2, 50, 6, "bid"⟩, ⟨3, 50, 7, "bid"⟩] :
          List Order)[i]).order_id).1).get_orders_at_price 50 (some "bid")
        = ([⟨1, 50, 5, "bid"⟩, ⟨2, 50, 6, "bid"⟩, ⟨3, 50, 7, "bid"⟩] :
          List Order).eraseIdx i) :=
  ⟨by decide,
    c5_fifo_at_price OptimizedOrderBook.init
      [⟨1, 50, 5, "bid"⟩, ⟨2, 50, 6, "bid"⟩, ⟨3, 50, 7, "bid"⟩] 50 "bid"
      (Or.inl rfl) (by decide) (by decide) (by decide) (by decide) (by decide)⟩

/-! ### Claim C8: add/lookup round trip and amend visibility -/

lemma replaceFirst_eq_map {l : List Order} {o o2 : Order} (hnd : l.Nodup) :
    replaceFirst l o o2 = l.map (fun x => if x = o then o2 else x) := by
  induction l with
  | nil => rfl
  | cons y ys ih =>
    rw [List.nodup_cons] at hnd
    by_cases hy : y = o
    · rw [replaceFirst, if_pos hy, List.map_cons, if_pos hy]
      have : ∀ x ∈ ys, x ≠ o := by
        intro x hx hc
        exact hnd.1 ((hc.trans hy.symm) ▸ hx)
      have hmap : ys.map (fun x => if x = o then o2 else x) = ys := by
        apply List.map_congr_left ?_ |>.trans ys.map_id
        intro x hx
        rw [if_neg (this x hx)]
        rfl
      rw [hmap]
    · rw [replaceFirst, if_neg hy, List.map_cons, if_neg hy, ih hnd.2]

lemma map_subst_id {l : List Order} {o o2 : Order} (h : ∀ x ∈ l, x ≠ o) :
    l.map (fun x => if x = o then o2 else x) = l := by
  induction l with
  | nil => rfl
  | cons y ys ih =>
    rw [List.map_cons, if_neg (h y (List.mem_cons_self _ _))]
    rw [ih (fun x hx => h x (List.mem_cons_of_mem _ hx))]

lemma c8_amend_bid (s : OptimizedOrderBook) (o : Order) (oid : Nat) (q : Int)
    (hw : WF s) (hluk : lookupA s.orders_by_id oid = some o) (ho : o.side = "bid") :
    (s.amend_order oid q).2 = true ∧
    (s.amend_order oid q).1.lookup_order oid = some { o with quantity := q } ∧
    (∀ pp sd2, (s.amend_order oid q).1.get_orders_at_price pp sd2
      = (s.get_orders_at_price pp sd2).map
          (fun x => if x = o then { o with quantity := q } else x)) ∧
    { o with quantity := q } ∈
      (s.amend_order oid q).1.get_orders_at_price o.price (some o.side) ∧
    (s.amend_order oid q).1.bids_by_price.map Prod.fst
        = s.bids_by_price.map Prod.fst ∧
    (s.amend_order oid q).1.asks_by_price.map Prod.fst
        = s.asks_by_price.map Prod.fst ∧
    (s.amend_order oid q).1.bid_heap = s.bid_heap ∧
    (s.amend_order oid q).1.ask_heap = s.ask_heap := by
  have hna : o.side ≠ "ask" := by rw [ho]; decide
  rcases hw.bidMem _ (mem_of_lookupA_some hluk) ho with ⟨l, hb, hoin⟩
  have hlNodup : l.Nodup := (hw.bid_bucket_ids_nodup hb).of_map
  have hstep : (s.amend_order oid q).1 = { s with
      orders_by_id := setKey s.orders_by_id oid { o with quantity := q },
      bids_by_price := setKey s.bids_by_price o.price
        (replaceFirst l o { o with quantity := q }) } := by
    simp [OptimizedOrderBook.amend_order, hluk, ho, hna, hb]
  have hBB : ∀ pp, OptimizedOrderBook.bucketList
      (setKey s.bids_by_price o.price (replaceFirst l o { o with quantity := q })) pp
      = (OptimizedOrderBook.bucketList s.bids_by_price pp).map
          (fun x => if x = o then { o with quantity := q } else x) := by
    intro pp
    by_cases hpp : pp = o.price
    · subst hpp
      rw [OptimizedOrderBook.bucketList, OptimizedOrderBook.bucketList,
        lookupA_setKey_self _ _ _ _ hb, hb]
      exact replaceFirst_eq_map hlNodup
    · rw [OptimizedOrderBook.bucketList, OptimizedOrderBook.bucketList,
        lookupA_setKey_ne _ _ _ _ hpp]
      cases hx : lookupA s.bids_by_price pp with
      | none => rfl
      | some lb =>
        rw [map_subst_id]
        intro x hx2 hc
        have hpx := ((hw.bidBuckets _ (mem_of_lookupA_some hx)).2 x hx2).1
        rw [hc] at hpx
        exact hpp hpx.symm
  have hAA : ∀ pp, OptimizedOrderBook.bucketList s.asks_by_price pp
      = (OptimizedOrderBook.bucketList s.asks_by_price pp).map
          (fun x => if x = o then { o with quantity := q } else x) := by
    intro pp
    rw [OptimizedOrderBook.bucketList]
    cases hx : lookupA s.asks_by_price pp with
    | none => rfl
    | some lb =>
      rw [map_subst_id]
      intro x hx2 hc
      have hsx := ((hw.askBuckets _ (mem_of_lookupA_some hx)).2 x hx2).2
      rw [hc, ho] at hsx
      exact absurd hsx (by decide)
  refine ⟨by simp [OptimizedOrderBook.amend_order, hluk], ?_, ?_, ?_, ?_, ?_, ?_, ?_⟩
  · rw [hstep]
    exact lookupA_setKey_self _ _ _ _ hluk
  · intro pp sd2
    rw [hstep]
    by_cases c1 : sd2 = none ∨ sd2 = some "bid" <;>
      by_cases c2 : sd2 = none ∨ sd2 = some "ask" <;>
        simp [OptimizedOrderBook.get_orders_at_price, c1, c2, hBB, ← hAA]
  · have hgo2 : (s.amend_order oid q).1.get_orders_at_price o.price (some o.side)
        = OptimizedOrderBook.bucketList
            ((s.amend_order oid q).1.bids_by_price) o.price := by
      rw [ho]
      exact get_orders_bid_eq_bucket _ _
    rw [hgo2, hstep]
    simp only []
    rw [OptimizedOrderBook.bucketList, lookupA_setKey_self _ _ _ _ hb]
    exact mem_replaceFirst_self hoin
  · rw [hstep]
    simp only []
    rw [keys_setKey]
  · rw [hstep]
  · rw [hstep]
  · rw [hstep]

lemma c8_amend_ask (s : OptimizedOrderBook) (o : Order) (oid : Nat) (q : Int)
    (hw : WF s) (hluk : lookupA s.orders_by_id oid = some o) (ho : o.side = "ask") :
    (s.amend_order oid q).2 = true ∧
    (s.amend_order oid q).1.lookup_order oid = some { o with quantity := q } ∧
    (∀ pp sd2, (s.amend_order oid q).1.get_orders_at_price pp sd2
      = (s.get_orders_at_price pp sd2).map
          (fun x => if x = o then { o with quantity := q } else x)) ∧
    { o with quantity := q } ∈
      (s.amend_order oid q).1.get_orders_at_price o.price (some o.side) ∧
    (s.amend_order oid q).1.asks_by_price.map Prod.fst
        = s.asks_by_price.map Prod.fst ∧
    (s.amend_order oid q).1.bids_by_price.map Prod.fst
        = s.bids_by_price.map Prod.fst ∧
    (s.amend_order oid q).1.ask_heap = s.ask_heap ∧
    (s.amend_order oid q).1.bid_heap = s.bid_heap := by
  have hna : o.side ≠ "bid" := by rw [ho]; decide
  rcases hw.askMem _ (mem_of_lookupA_some hluk) ho with ⟨l, hb, hoin⟩
  have hlNodup : l.Nodup := (hw.ask_bucket_ids_nodup hb).of_map
  have hstep : (s.amend_order oid q).1 = { s with
      orders_by_id := setKey s.orders_by_id oid { o with quantity := q },
      asks_by_price := setKey s.asks_by_price o.price
        (replaceFirst l o { o with quantity := q }) } := by
    simp [OptimizedOrderBook.amend_order, hluk, ho, hna, hb]
  have hBB : ∀ pp, OptimizedOrderBook.bucketList
      (setKey s.asks_by_price o.price (replaceFirst l o { o with quantity := q })) pp
      = (OptimizedOrderBook.bucketList s.asks_by_price pp).map
          (fun x => if x = o then { o with quantity := q } else x) := by
    intro pp
    by_cases hpp : pp = o.price
    · subst hpp
      rw [OptimizedOrderBook.bucketList, OptimizedOrderBook.bucketList,
        lookupA_setKey_self _ _ _ _ hb, hb]
      exact replaceFirst_eq_map hlNodup
    · rw [OptimizedOrderBook.bucketList, OptimizedOrderBook.bucketList,
        lookupA_setKey_ne _ _ _ _ hpp]
      cases hx : lookupA s.asks_by_price pp with
      | none => rfl
      | some lb =>
        rw [map_subst_id]
        intro x hx2 hc
        have hpx := ((hw.askBuckets _ (mem_of_lookupA_some hx)).2 x hx2).1
        rw [hc] at hpx
        exact hpp hpx.symm
  have hAA : ∀ pp, OptimizedOrderBook.bucketList s.bids_by_price pp
      = (OptimizedOrderBook.bucketList s.bids_by_price pp).map
          (fun x => if x = o then { o with quantity := q } else x) := by
    intro pp
    rw [OptimizedOrderBook.bucketList]
    cases hx : lookupA s.bids_by_price pp with
    | none => rfl
    | some lb =>
      rw [map_subst_id]
      intro x hx2 hc
      have hsx := ((hw.bidBuckets _ (mem_of_lookupA_some hx)).2 x hx2).2
      rw [hc, ho] at hsx
      exact absurd hsx (by decide)
  refine ⟨by simp [OptimizedOrderBook.amend_order, hluk], ?_, ?_, ?_, ?_, ?_, ?_, ?_⟩
  · rw [hstep]
    exact lookupA_setKey_self _ _ _ _ hluk
  · intro pp sd2
    rw [hstep]
    by_cases c1 : sd2 = none ∨ sd2 = some "ask" <;>
      by_cases c2 : sd2 = none ∨ sd2 = some "bid" <;>
        simp [OptimizedOrderBook.get_orders_at_price, c1, c2, hBB, ← hAA]
  · have hgo2 : (s.amend_order oid q).1.get_orders_at_price o.price (some o.side)
        = OptimizedOrderBook.bucketList
            ((s.amend_order oid q).1.asks_by_price) o.price := by
      rw [ho]
      exact get_orders_ask_eq_bucket _ _
    rw [hgo2, hstep]
    simp only []
    rw [OptimizedOrderBook.bucketList, lookupA_setKey_self _ _ _ _ hb]
    exact mem_replaceFirst_self hoin
  · rw [hstep]
    simp only []
    rw [keys_setKey]
  · rw [hstep]
  · rw [hstep]
  · rw [hstep]

lemma add_lookup_some (s : OptimizedOrderBook) (o : Order)
    (hfresh : lookupA s.orders_by_id o.order_id = none)
    (hside : o.side = "bid" ∨ o.side = "ask") :
    (s.add_order o).1.lookup_order o.order_id = some o := by
  have hors : (s.add_order o).1.orders_by_id
      = s.orders_by_id ++ [(o.order_id, o)] := by
    rcases hside with hb | hb
    · cases hx : lookupA s.bids_by_price o.price <;>
        simp [OptimizedOrderBook.add_order, hfresh, hb, hx]
    · have hnb : o.side ≠ "bid" := by rw [hb]; decide
      cases hx : lookupA s.asks_by_price o.price <;>
        simp [OptimizedOrderBook.add_order, hfresh, hb, hnb, hx]
  rw [OptimizedOrderBook.lookup_order, hors, lookupA_append_none _ hfresh,
    lookupA_singleton, if_pos rfl]

/-- Counterexample to C8 as stated: the claim quantifies over every
book state and every present identifier, but the invalid-side add bug
(claim C2) reaches a state holding an order with side "buy"; amending
it succeeds and is visible through lookup, yet `get_orders_at_price`
at the order's price shows nothing, not the amended order. -/
theorem c8_counterexample :
    ((OptimizedOrderBook.init.add_order ⟨1, 100, 5, "buy"⟩).1.amend_order 1 7).2
        = true ∧
    (((OptimizedOrderBook.init.add_order ⟨1, 100, 5, "buy"⟩).1.amend_order
        1 7).1.lookup_order 1 = some ⟨1, 100, 7, "buy"⟩) ∧
    (((OptimizedOrderBook.init.add_order ⟨1, 100, 5, "buy"⟩).1.amend_order
        1 7).1.get_orders_at_price 100 none = []) :=
  ⟨rfl, rfl, rfl⟩

/-- C8 (amended to orders whose side is valid, i.e. orders that were
added successfully): on a reachable book, add of a fresh valid order
followed by lookup returns the order unchanged; amend of a present
valid-side identifier returns True, lookup shows the new quantity with
all other attributes unchanged, every `get_orders_at_price` view is the
old view with just that order's quantity replaced (so bucket order is
preserved and the amended order is visible at its price), and the
ladders' key sets and both heaps are unchanged. -/
theorem c8_roundtrip_and_amend (s : OptimizedOrderBook) (h : Reachable s) :
    (∀ o : Order, lookupA s.orders_by_id o.order_id = none →
      (o.side = "bid" ∨ o.side = "ask") →
      (s.add_order o).1.lookup_order o.order_id = some o) ∧
    (∀ oid q (o : Order), lookupA s.orders_by_id oid = some o →
      (o.side = "bid" ∨ o.side = "ask") →
      (s.amend_order oid q).2 = true ∧
      (s.amend_order oid q).1.lookup_order oid = some { o with quantity := q } ∧
      (∀ pp sd2, (s.amend_order oid q).1.get_orders_at_price pp sd2
        = (s.get_orders_at_price pp sd2).map
            (fun x => if x = o then { o with quantity := q } else x)) ∧
      { o with quantity := q } ∈
        (s.amend_order oid q).1.get_orders_at_price o.price (some o.side) ∧
      (s.amend_order oid q).1.bids_by_price.map Prod.fst
          = s.bids_by_price.map Prod.fst ∧
      (s.amend_order oid q).1.asks_by_price.map Prod.fst
          = s.asks_by_price.map Prod.fst ∧
      (s.amend_order oid q).1.bid_heap = s.bid_heap ∧
      (s.amend_order oid q).1.ask_heap = s.ask_heap) := by
  have hw := reachable_wf h
  refine ⟨fun o hf hs => add_lookup_some s o hf hs, ?_⟩
  intro oid q o hluk hside
  rcases hside with ho | ho
  · exact c8_amend_bid s o oid q hw hluk ho
  · rcases c8_amend_ask s o oid q hw hluk ho with ⟨a1, a2, a3, a4, a6, a5, a8, a7⟩
    exact ⟨a1, a2, a3, a4, a5, a6, a7, a8⟩

/-- Closed witness for the amended C8: the book holding the single bid
order 1. -/
theorem c8_roundtrip_and_amend_witness :
    (∀ o : Order, lookupA ((OptimizedOrderBook.init.add_order
        ⟨1, 100, 5, "bid"⟩).1).orders_by_id o.order_id = none →
      (o.side = "bid" ∨ o.side = "ask") →
      (((OptimizedOrderBook.init.add_order ⟨1, 100, 5, "bid"⟩).1).add_order
          o).1.lookup_order o.order_id = some o) ∧
    (∀ oid q (o : Order), lookupA ((OptimizedOrderBook.init.add_order
        ⟨1, 100, 5, "bid"⟩).1).orders_by_id oid = some o →
      (o.side = "bid" ∨ o.side = "ask") →
      (((OptimizedOrderBook.init.add_order ⟨1, 100, 5, "bid"⟩).1).amend_order
          oid q).2 = true ∧
      (((OptimizedOrderBook.init.add_order ⟨1, 100, 5, "bid"⟩).1).amend_order
          oid q).1.lookup_order oid = some { o with quantity := q } ∧
      (∀ pp sd2, (((OptimizedOrderBook.init.add_order
          ⟨1, 100, 5, "bid"⟩).1).amend_order oid q).1.get_orders_at_price pp sd2
        = (((OptimizedOrderBook.init.add_order
            ⟨1, 100, 5, "bid"⟩).1).get_orders_at_price pp sd2).map
            (fun x => if x = o then { o with quantity := q } else x)) ∧
      { o with quantity := q } ∈
        (((OptimizedOrderBook.init.add_order ⟨1, 100, 5, "bid"⟩).1).amend_order
            oid q).1.get_orders_at_price o.price (some o.side) ∧
      (((OptimizedOrderBook.init.add_order ⟨1, 100, 5, "bid"⟩).1).amend_order
          oid q).1.bids_by_price.map Prod.fst
        = ((OptimizedOrderBook.init.add_order
            ⟨1, 100, 5, "bid"⟩).1).bids_by_price.map Prod.fst ∧
      (((OptimizedOrderBook.init.add_order ⟨1, 100, 5, "bid"⟩).1).amend_order
          oid q).1.asks_by_price.map Prod.fst
        = ((OptimizedOrderBook.init.add_order
            ⟨1, 100, 5, "bid"⟩).1).asks_by_price.map Prod.fst ∧
      (((OptimizedOrderBook.init.add_order ⟨1, 100, 5, "bid"⟩).1).amend_order
          oid q).1.bid_heap
        = ((OptimizedOrderBook.init.add_order ⟨1, 100, 5, "bid"⟩).1).bid_heap ∧
      (((OptimizedOrderBook.init.add_order ⟨1, 100, 5, "bid"⟩).1).amend_order
          oid q).1.ask_heap
        = ((OptimizedOrderBook.init.add_order ⟨1, 100, 5, "bid"⟩).1).ask_heap) :=
  c8_roundtrip_and_amend _ (Reachable.add _ _ Reachable.base)

/-! ### Claim C3: stable-sort machinery for the naive book -/

lemma sortK_sorted (k : Order → Int) (l : List Order) :
    (sortK k l).Sorted (fun a b => k a ≤ k b) := by
  have h1 : IsTotal Order (fun a b => k a ≤ k b) := ⟨fun a b => le_total _ _⟩
  have h2 : IsTrans Order (fun a b => k a ≤ k b) :=
    ⟨fun a b c hab hbc => le_trans hab hbc⟩
  exact List.sorted_insertionSort _ l

lemma sortK_of_sorted {k : Order → Int} {l : List Order}
    (h : l.Sorted (fun a b => k a ≤ k b)) : sortK k l = l :=
  List.Sorted.insertionSort_eq h

lemma sortK_perm (k : Order → Int) (l : List Order) : List.Perm (sortK k l) l :=
  List.perm_insertionSort _ l

lemma sortK_idem (k : Order → Int) (l : List Order) :
    sortK k (sortK k l) = sortK k l :=
  sortK_of_sorted (sortK_sorted k l)

lemma sortK_const {k : Order → Int} {l : List Order} {c : Int}
    (h : ∀ x ∈ l, k x = c) : sortK k l = l := by
  apply sortK_of_sorted
  induction l with
  | nil => exact List.sorted_nil
  | cons y ys ih =>
    rw [List.sorted_cons]
    refine ⟨?_, ih (fun x hx => h x (List.mem_cons_of_mem _ hx))⟩
    intro b hb
    rw [h y (List.mem_cons_self _ _), h b (List.mem_cons_of_mem _ hb)]

lemma sortK_cons (k : Order → Int) (x : Order) (xs : List Order) :
    sortK k (x :: xs) = List.orderedInsert (fun a b => k a ≤ k b) x (sortK k xs) := rfl

lemma oi_pos {k : Order → Int} {x y : Order} {ys : List Order} (h : k x ≤ k y) :
    List.orderedInsert (fun a b => k a ≤ k b) x (y :: ys) = x :: y :: ys := by
  simp only [List.orderedInsert, if_pos h]

lemma oi_neg {k : Order → Int} {x y : Order} {ys : List Order} (h : ¬ k x ≤ k y) :
    List.orderedInsert (fun a b => k a ≤ k b) x (y :: ys)
      = y :: List.orderedInsert (fun a b => k a ≤ k b) x ys := by
  simp only [List.orderedInsert, if_neg h]

lemma filter_orderedInsert (k : Order → Int) (q : Order → Bool) (x : Order) :
    ∀ m : List Order, m.Sorted (fun a b => k a ≤ k b) →
      ((q x = true →
        (List.orderedInsert (fun a b => k a ≤ k b) x m).filter q
          = List.orderedInsert (fun a b => k a ≤ k b) x (m.filter q)) ∧
       (q x = false →
        (List.orderedInsert (fun a b => k a ≤ k b) x m).filter q = m.filter q)) := by
  intro m
  induction m with
  | nil =>
    intro _
    constructor
    · intro hq
      simp [List.orderedInsert, List.filter, hq]
    · intro hq
      simp [List.orderedInsert, List.filter, hq]
  | cons y ys ih =>
    intro hs
    constructor
    · intro hq
      by_cases hxy : k x ≤ k y
      · rw [oi_pos hxy, List.filter_cons, if_pos hq]
        cases hf : (y :: ys).filter q with
        | nil => simp [List.orderedInsert]
        | cons z zs =>
          have hz : z ∈ (y :: ys).filter q := by
            rw [hf]
            exact List.mem_cons_self _ _
          have hzm : z ∈ y :: ys := List.mem_of_mem_filter hz
          have hxz : k x ≤ k z := by
            rcases List.mem_cons.1 hzm with h1 | h1
            · rw [h1]
              exact hxy
            · exact le_trans hxy (List.rel_of_sorted_cons hs _ h1)
          rw [oi_pos hxz]
      · rw [oi_neg hxy, List.filter_cons, List.filter_cons]
        cases hqy : q y with
        | true =>
          rw [if_pos rfl, if_pos rfl]
          rw [(ih hs.of_cons).1 hq, oi_neg hxy]
        | false =>
          simp only [Bool.false_eq_true, if_false]
          exact (ih hs.of_cons).1 hq
    · intro hq
      by_cases hxy : k x ≤ k y
      · rw [oi_pos hxy, List.filter_cons, if_neg (by simp [hq])]
      · rw [oi_neg hxy, List.filter_cons, List.filter_cons]
        cases hqy : q y with
        | true =>
          rw [if_pos rfl, if_pos rfl]
          rw [(ih hs.of_cons).2 hq]
        | false =>
          simp only [Bool.false_eq_true, if_false]
          exact (ih hs.of_cons).2 hq

lemma sortK_filter (k : Order → Int) (q : Order → Bool) (l : List Order) :
    sortK k (l.filter q) = (sortK k l).filter q := by
  induction l with
  | nil => rfl
  | cons x xs ih =>
    rw [List.filter_cons]
    cases hq : q x with
    | true =>
      rw [if_pos rfl]
      rw [sortK_cons, sortK_cons, ih]
      exact ((filter_orderedInsert k q x (sortK k xs) (sortK_sorted k xs)).1 hq).symm
    | false =>
      simp only [Bool.false_eq_true, if_false]
      rw [ih, sortK_cons]
      exact ((filter_orderedInsert k q x (sortK k xs) (sortK_sorted k xs)).2 hq).symm

lemma sortK_map (k : Order → Int) (f : Order → Order) (hf : ∀ x, k (f x) = k x)
    (l : List Order) : sortK k (l.map f) = (sortK k l).map f := by
  refine (List.map_insertionSort _ _ f l ?_).symm
  intro a _ b _
  rw [hf a, hf b]

/-- Insertion of a latecomer: the element goes after every element with
key less than or equal to its own, the position Python's stable sort
gives to a freshly appended element. -/
def insertLastK (k : Order → Int) (o : Order) : List Order → List Order
  | [] => [o]
  | y :: ys => if k y ≤ k o then y :: insertLastK k o ys else o :: y :: ys

lemma oi_insertLastK_comm (k : Order → Int) (x o : Order) :
    ∀ m : List Order,
      List.orderedInsert (fun a b => k a ≤ k b) x (insertLastK k o m)
        = insertLastK k o (List.orderedInsert (fun a b => k a ≤ k b) x m) := by
  intro m
  induction m with
  | nil =>
    by_cases h : k x ≤ k o <;>
      simp [insertLastK, List.orderedInsert, h]
  | cons y ys ih =>
    by_cases hyo : k y ≤ k o
    · rw [insertLastK, if_pos hyo]
      by_cases hxy : k x ≤ k y
      · have hxo : k x ≤ k o := le_trans hxy hyo
        rw [oi_pos hxy, oi_pos hxy, insertLastK, if_pos hxo, insertLastK, if_pos hyo]
      · rw [oi_neg hxy, oi_neg hxy, insertLastK, if_pos hyo, ih]
    · by_cases hxy : k x ≤ k y
      · by_cases hxo : k x ≤ k o
        · rw [insertLastK, if_neg hyo, oi_pos hxo, oi_pos hxy, insertLastK,
            if_pos hxo, insertLastK, if_neg hyo]
        · rw [insertLastK, if_neg hyo, oi_neg hxo, oi_pos hxy,
            insertLastK, if_neg hxo]
      · have hxo : ¬ k x ≤ k o := fun hc =>
          hxy (le_trans hc (le_of_lt (lt_of_not_le hyo)))
        rw [insertLastK, if_neg hyo, oi_neg hxo, oi_neg hxy,
          insertLastK, if_neg hyo]

lemma sortK_append_singleton (k : Order → Int) (l : List Order) (o : Order) :
    sortK k (l ++ [o]) = insertLastK k o (sortK k l) := by
  induction l with
  | nil => rfl
  | cons x xs ih =>
    rw [List.cons_append, sortK_cons, ih, sortK_cons, oi_insertLastK_comm]

lemma sortK_head_eq_filter (k : Order → Int) (l : List Order) (m : Int)
    (hmem : ∃ x ∈ l, k x = m) (hlb : ∀ x ∈ l, m ≤ k x) :
    (sortK k l).head? = (l.filter (fun o => decide (k o = m))).head? := by
  rcases hmem with ⟨w, hw, hwk⟩
  cases hsl : sortK k l with
  | nil =>
    exfalso
    have hperm := sortK_perm k l
    rw [hsl] at hperm
    rw [hperm.symm.eq_nil] at hw
    simp at hw
  | cons z rest =>
    have hzl : z ∈ l := (sortK_perm k l).subset (by rw [hsl]; exact List.mem_cons_self _ _)
    have hz1 : m ≤ k z := hlb z hzl
    have hz2 : k z ≤ m := by
      have hws : w ∈ sortK k l := ((sortK_perm k l).mem_iff).2 hw
      rw [hsl] at hws
      rcases List.mem_cons.1 hws with h1 | h1
      · rw [← h1, hwk]
      · have hsorted := sortK_sorted k l
        rw [hsl] at hsorted
        have := List.rel_of_sorted_cons hsorted _ h1
        omega
    have hzm : k z = m := le_antisymm hz2 hz1
    have hconst : ∀ x ∈ l.filter (fun o => decide (k o = m)), k x = m := by
      intro x hx
      have := List.of_mem_filter hx
      simpa using this
    have hfc : l.filter (fun o => decide (k o = m))
        = (sortK k l).filter (fun o => decide (k o = m)) :=
      (sortK_const hconst).symm.trans (sortK_filter k _ l)
    rw [hfc, hsl, List.filter_cons, if_pos (by simpa using hzm)]
    simp

/-! ### First-match and filter kit relating the two books -/

/-- Pointwise view of a quantity amendment: replace the quantity of the
order carrying the amended id, keep every other order. -/
def substQ (oid : Nat) (q : Int) (x : Order) : Order :=
  if x.order_id = oid then { x with quantity := q } else x

lemma substQ_order_id (oid : Nat) (q : Int) (x : Order) :
    (substQ oid q x).order_id = x.order_id := by
  unfold substQ
  split <;> rfl

lemma substQ_price (oid : Nat) (q : Int) (x : Order) :
    (substQ oid q x).price = x.price := by
  unfold substQ
  split <;> rfl

lemma substQ_side (oid : Nat) (q : Int) (x : Order) :
    (substQ oid q x).side = x.side := by
  unfold substQ
  split <;> rfl

lemma findById_eq_none {l : List Order} {oid : Nat} :
    findById l oid = none ↔ ∀ x ∈ l, x.order_id ≠ oid := by
  induction l with
  | nil => simp [findById]
  | cons x xs ih =>
    by_cases hx : x.order_id = oid
    · simp [findById, hx]
    · simp [findById, hx, ih]

lemma findById_some {l : List Order} {oid : Nat} {o : Order}
    (h : findById l oid = some o) : o ∈ l ∧ o.order_id = oid := by
  induction l with
  | nil => simp [findById] at h
  | cons x xs ih =>
    by_cases hx : x.order_id = oid
    · rw [findById, if_pos hx] at h
      injection h with h
      subst h
      exact ⟨List.mem_cons_self _ _, hx⟩
    · rw [findById, if_neg hx] at h
      rcases ih h with ⟨h1, h2⟩
      exact ⟨List.mem_cons_of_mem _ h1, h2⟩

lemma findById_of_mem {l : List Order} {oid : Nat} {o : Order}
    (hnd : (l.map Order.order_id).Nodup) (ho : o ∈ l) (hoid : o.order_id = oid) :
    findById l oid = some o := by
  induction l with
  | nil => simp at ho
  | cons x xs ih =>
    rw [List.map_cons, List.nodup_cons] at hnd
    rcases List.mem_cons.1 ho with h1 | h1
    · subst h1
      rw [findById, if_pos hoid]
    · have hx : x.order_id ≠ oid := by
        intro hc
        exact hnd.1 (by rw [hc, ← hoid]; exact List.mem_map_of_mem _ h1)
      rw [findById, if_neg hx]
      exact ih hnd.2 h1

lemma findById_append_some {l1 l2 : List Order} {oid : Nat} {o : Order}
    (h : findById l1 oid = some o) : findById (l1 ++ l2) oid = some o := by
  induction l1 with
  | nil => simp [findById] at h
  | cons x xs ih =>
    by_cases hx : x.order_id = oid
    · rw [findById, if_pos hx] at h
      rw [List.cons_append, findById, if_pos hx]
      exact h
    · rw [findById, if_neg hx] at h
      rw [List.cons_append, findById, if_neg hx]
      exact ih h

lemma findById_append_none {l1 l2 : List Order} {oid : Nat}
    (h : findById l1 oid = none) : findById (l1 ++ l2) oid = findById l2 oid := by
  induction l1 with
  | nil => rfl
  | cons x xs ih =>
    by_cases hx : x.order_id = oid
    · rw [findById, if_pos hx] at h
      cases h
    · rw [findById, if_neg hx] at h
      rw [List.cons_append, findById, if_neg hx]
      exact ih h

lemma findById_perm {l l2 : List Order} {oid : Nat} (hp : List.Perm l l2)
    (hnd : (l.map Order.order_id).Nodup) :
    findById l oid = findById l2 oid := by
  cases hf : findById l oid with
  | none =>
    rw [findById_eq_none] at hf
    symm
    rw [findById_eq_none]
    intro x hx
    exact hf x (hp.symm.subset hx)
  | some o =>
    rcases findById_some hf with ⟨h1, h2⟩
    exact (findById_of_mem (((hp.map Order.order_id).nodup_iff).1 hnd)
      (hp.subset h1) h2).symm

lemma filterPrice_eq_filter (l : List Order) (p : Int) :
    filterPrice l p = l.filter (fun x => decide (x.price = p)) := by
  induction l with
  | nil => rfl
  | cons x xs ih =>
    by_cases hx : x.price = p <;> simp [filterPrice, hx, ih]

lemma filterPrice_append (l1 l2 : List Order) (p : Int) :
    filterPrice (l1 ++ l2) p = filterPrice l1 p ++ filterPrice l2 p := by
  induction l1 with
  | nil => rfl
  | cons x xs ih =>
    by_cases hx : x.price = p <;> simp [filterPrice, hx, ih]

lemma mem_filterPrice {l : List Order} {p : Int} {x : Order} :
    x ∈ filterPrice l p ↔ x ∈ l ∧ x.price = p := by
  rw [filterPrice_eq_filter, List.mem_filter]
  simp

lemma filterPrice_sublist (l : List Order) (p : Int) :
    (filterPrice l p).Sublist l := by
  rw [filterPrice_eq_filter]
  exact List.filter_sublist l

lemma filterPrice_sortK (k : Order → Int) (A : List Order) (p c : Int)
    (hk : ∀ x : Order, x.price = p → k x = c) :
    filterPrice (sortK k A) p = filterPrice A p := by
  rw [filterPrice_eq_filter, filterPrice_eq_filter, ← sortK_filter]
  have hc : ∀ x ∈ A.filter (fun x => decide (x.price = p)), k x = c := by
    intro x hx
    rw [List.mem_filter] at hx
    exact hk x (by simpa using hx.2)
  rw [sortK_const hc]

lemma map_substQ_id {l : List Order} {oid : Nat} {q : Int}
    (h : ∀ x ∈ l, x.order_id ≠ oid) : l.map (substQ oid q) = l := by
  induction l with
  | nil => rfl
  | cons x xs ih =>
    rw [List.map_cons, ih (fun y hy => h y (List.mem_cons_of_mem _ hy))]
    rw [substQ, if_neg (h x (List.mem_cons_self _ _))]

lemma updateQtyFirst_eq_map {l : List Order} {oid : Nat} {q : Int}
    (hnd : (l.map Order.order_id).Nodup) :
    updateQtyFirst l oid q = l.map (substQ oid q) := by
  induction l with
  | nil => rfl
  | cons x xs ih =>
    rw [List.map_cons, List.nodup_cons] at hnd
    by_cases hx : x.order_id = oid
    · have hys : ∀ y ∈ xs, y.order_id ≠ oid := by
        intro y hy hc
        exact hnd.1 (by rw [hx, ← hc]; exact List.mem_map_of_mem _ hy)
      rw [updateQtyFirst, if_pos hx, List.map_cons, substQ, if_pos hx,
        map_substQ_id hys]
    · rw [updateQtyFirst, if_neg hx, List.map_cons, substQ, if_neg hx, ih hnd.2]

lemma removeFirstById_eq_filter {l : List Order} {oid : Nat}
    (hnd : (l.map Order.order_id).Nodup) :
    removeFirstById l oid = l.filter (fun x => !(decide (x.order_id = oid))) := by
  induction l with
  | nil => rfl
  | cons x xs ih =>
    rw [List.map_cons, List.nodup_cons] at hnd
    by_cases hx : x.order_id = oid
    · have hxs : ∀ a ∈ xs, a.order_id ≠ oid := by
        intro a ha hc
        exact hnd.1 (by rw [hx, ← hc]; exact List.mem_map_of_mem _ ha)
      rw [removeFirstById, if_pos hx, List.filter_cons_of_neg (by simp [hx])]
      symm
      rw [List.filter_eq_self]
      intro a ha
      simp [hxs a ha]
    · rw [removeFirstById, if_neg hx, List.filter_cons_of_pos (by simp [hx]),
        ih hnd.2]

lemma erase_eq_removeFirstById {l : List Order} {o : Order} {oid : Nat}
    (hnd : (l.map Order.order_id).Nodup) (ho : o ∈ l) (hoid : o.order_id = oid) :
    l.erase o = removeFirstById l oid := by
  induction l with
  | nil => rfl
  | cons x xs ih =>
    rw [List.map_cons, List.nodup_cons] at hnd
    by_cases hx : x = o
    · subst hx
      rw [List.erase_cons_head, removeFirstById, if_pos hoid]
    · have ho2 : o ∈ xs := by
        rcases List.mem_cons.1 ho with h1 | h1
        · exact absurd h1.symm hx
        · exact h1
      have hid2 : x.order_id ≠ oid := by
        intro hc
        exact hnd.1 (by rw [hc, ← hoid]; exact List.mem_map_of_mem _ ho2)
      rw [List.erase_cons_tail (by simp [hx]), removeFirstById, if_neg hid2,
        ih hnd.2 ho2]

lemma findById_filter_ne {l : List Order} {oid x : Nat} (hne : x ≠ oid) :
    findById (l.filter (fun y => !(decide (y.order_id = oid)))) x
      = findById l x := by
  induction l with
  | nil => rfl
  | cons y ys ih =>
    by_cases hy : y.order_id = oid
    · rw [List.filter_cons_of_neg (by simp [hy])]
      rw [ih, findById, if_neg (fun hc => hne (hy.symm.trans hc).symm)]
    · rw [List.filter_cons_of_pos (by simp [hy])]
      simp only [findById, ih]

/-! ### Operation traces over both books -/

/-- One call of the public API of either book, with its arguments. -/
inductive Op
  | add (o : Order)
  | amend (oid : Nat) (q : Int)
  | delete (oid : Nat)
  | lookup (oid : Nat)
  | ordersAt (p : Int) (side : Option String)
  | bestBid
  | bestAsk
  | bestBidAsk
deriving DecidableEq

/-- Observable outcome of one call: the error raised by an add (none on
success), the boolean of amend and delete, the optional order of
lookup_order and of the best-price getters, the sequence returned by
get_orders_at_price, or the pair of get_best_bid_ask. -/
inductive Obs
  | err (e : Option AddErr)
  | ans (b : Bool)
  | ord (x : Option Order)
  | seq (l : List Order)
  | pair (x y : Option Order)
deriving DecidableEq

/-- One step of the optimized book: the successor state and the
observation of the call. -/
def optStep (s : OptimizedOrderBook) : Op → OptimizedOrderBook × Obs
  | Op.add o => ((s.add_order o).1, Obs.err (s.add_order o).2)
  | Op.amend oid q => ((s.amend_order oid q).1, Obs.ans (s.amend_order oid q).2)
  | Op.delete oid => ((s.delete_order oid).1, Obs.ans (s.delete_order oid).2)
  | Op.lookup oid => (s, Obs.ord (s.lookup_order oid))
  | Op.ordersAt p sd => (s, Obs.seq (s.get_orders_at_price p sd))
  | Op.bestBid => (s.get_best_bid.2, Obs.ord s.get_best_bid.1)
  | Op.bestAsk => (s.get_best_ask.2, Obs.ord s.get_best_ask.1)
  | Op.bestBidAsk =>
      (s.get_best_bid_ask.2,
        Obs.pair s.get_best_bid_ask.1.1 s.get_best_bid_ask.1.2)

/-- One step of the naive book. -/
def naiveStep (n : NaiveOrderBook) : Op → NaiveOrderBook × Obs
  | Op.add o => ((n.add_order o).1, Obs.err (n.add_order o).2)
  | Op.amend oid q => ((n.amend_order oid q).1, Obs.ans (n.amend_order oid q).2)
  | Op.delete oid => ((n.delete_order oid).1, Obs.ans (n.delete_order oid).2)
  | Op.lookup oid => (n, Obs.ord (n.lookup_order oid))
  | Op.ordersAt p sd => (n, Obs.seq (n.get_orders_at_price p sd))
  | Op.bestBid => (n, Obs.ord n.get_best_bid)
  | Op.bestAsk => (n, Obs.ord n.get_best_ask)
  | Op.bestBidAsk => (n, Obs.pair n.get_best_bid_ask.1 n.get_best_bid_ask.2)

/-- Observation trace of the optimized book over a list of calls. -/
def optRun (s : OptimizedOrderBook) : List Op → List Obs
  | [] => []
  | op :: ops => (optStep s op).2 :: optRun (optStep s op).1 ops

/-- Observation trace of the naive book over a list of calls. -/
def naiveRun (n : NaiveOrderBook) : List Op → List Obs
  | [] => []
  | op :: ops => (naiveStep n op).2 :: naiveRun (naiveStep n op).1 ops

/-- Live-id bookkeeping of a trace: an add registers its identifier, a
delete frees it, every other call leaves the set unchanged. -/
def idsAfter (ids : List Nat) : Op → List Nat
  | Op.add o => ids ++ [o.order_id]
  | Op.delete oid => ids.erase oid
  | _ => ids

/-- Legality of one call: an add must carry an unused identifier and a
recognized side; every other call is unrestricted. -/
def legal1 (ids : List Nat) : Op → Bool
  | Op.add o =>
      !(decide (o.order_id ∈ ids)) &&
        (decide (o.side = "bid") || decide (o.side = "ask"))
  | _ => true

/-- Legality of a whole trace: every add presents a fresh identifier and
a valid side at its point of the trace. -/
def legalB (ids : List Nat) : List Op → Bool
  | [] => true
  | op :: ops => legal1 ids op && legalB (idsAfter ids op) ops

/-- Simulation relation between the two books, indexed by the live
orders of each side in arrival order (`A` the bids, `B` the asks): the
naive lists are the stable sorts of the arrival lists, the identity
index realizes first-match lookup over the concatenated arrival lists,
each ladder bucket is the arrival-ordered slice of its side at its
price, every live order carries its side's tag, the live ids are
unique, and the optimized state satisfies the well-formedness
invariant. -/
structure SimRel (n : NaiveOrderBook) (s : OptimizedOrderBook)
    (A B : List Order) : Prop where
  wf : WF s
  nb : n.bids = sortK kb A
  na : n.asks = sortK ka B
  hid : ∀ x, lookupA s.orders_by_id x = findById (A ++ B) x
  hbb : ∀ p, OptimizedOrderBook.bucketList s.bids_by_price p = filterPrice A p
  hab : ∀ p, OptimizedOrderBook.bucketList s.asks_by_price p = filterPrice B p
  sideA : ∀ o ∈ A, o.side = "bid"
  sideB : ∀ o ∈ B, o.side = "ask"
  nod : ((A ++ B).map Order.order_id).Nodup

lemma bucketList_of_lookup {ladder : List (Int × List Order)} {p : Int}
    {l : List Order} (h : lookupA ladder p = some l) :
    OptimizedOrderBook.bucketList ladder p = l := by
  unfold OptimizedOrderBook.bucketList
  rw [h]

lemma bucketList_of_none {ladder : List (Int × List Order)} {p : Int}
    (h : lookupA ladder p = none) :
    OptimizedOrderBook.bucketList ladder p = [] := by
  unfold OptimizedOrderBook.bucketList
  rw [h]

lemma bucketList_eq_some {ladder : List (Int × List Order)} {p : Int}
    (h : OptimizedOrderBook.bucketList ladder p ≠ []) :
    lookupA ladder p = some (OptimizedOrderBook.bucketList ladder p) := by
  cases hl : lookupA ladder p with
  | none =>
    exfalso
    apply h
    exact bucketList_of_none hl
  | some l =>
    rw [bucketList_of_lookup hl]

lemma LiveP_iff_bucketList {ladder : List (Int × List Order)} {p : Int} :
    LiveP ladder p ↔ OptimizedOrderBook.bucketList ladder p ≠ [] := by
  constructor
  · rintro ⟨l, hl, hne⟩
    rw [bucketList_of_lookup hl]
    exact hne
  · intro h
    exact ⟨_, bucketList_eq_some h, h⟩

lemma SimRel.ndA {n : NaiveOrderBook} {s : OptimizedOrderBook} {A B : List Order}
    (h : SimRel n s A B) : (A.map Order.order_id).Nodup := by
  have := h.nod
  rw [List.map_append, List.nodup_append] at this
  exact this.1

lemma SimRel.ndB {n : NaiveOrderBook} {s : OptimizedOrderBook} {A B : List Order}
    (h : SimRel n s A B) : (B.map Order.order_id).Nodup := by
  have := h.nod
  rw [List.map_append, List.nodup_append] at this
  exact this.2.1

lemma simRel_init : SimRel NaiveOrderBook.init OptimizedOrderBook.init [] [] := by
  refine ⟨WF.base, rfl, rfl, ?_, ?_, ?_, ?_, ?_, ?_⟩
  · intro x
    rfl
  · intro p
    rfl
  · intro p
    rfl
  · intro o ho
    simp at ho
  · intro o ho
    simp at ho
  · simp

lemma sim_lookup {n : NaiveOrderBook} {s : OptimizedOrderBook} {A B : List Order}
    (h : SimRel n s A B) (oid : Nat) :
    n.lookup_order oid = s.lookup_order oid := by
  unfold NaiveOrderBook.lookup_order OptimizedOrderBook.lookup_order
  rw [h.hid, h.nb, h.na]
  have hndA2 : ((sortK kb A).map Order.order_id).Nodup :=
    (((sortK_perm kb A).map Order.order_id).nodup_iff).2 h.ndA
  have hndB2 : ((sortK ka B).map Order.order_id).Nodup :=
    (((sortK_perm ka B).map Order.order_id).nodup_iff).2 h.ndB
  rw [findById_perm (sortK_perm kb A) hndA2, findById_perm (sortK_perm ka B) hndB2]
  cases hA : findById A oid with
  | some o => rw [findById_append_some hA]
  | none => rw [findById_append_none hA]

lemma sim_ordersAt {n : NaiveOrderBook} {s : OptimizedOrderBook} {A B : List Order}
    (h : SimRel n s A B) (p : Int) (sd : Option String) :
    n.get_orders_at_price p sd = s.get_orders_at_price p sd := by
  unfold NaiveOrderBook.get_orders_at_price OptimizedOrderBook.get_orders_at_price
  rw [h.nb, h.na, h.hbb, h.hab]
  rw [filterPrice_sortK kb A p (-p) (fun x hx => by simp [kb, hx]),
    filterPrice_sortK ka B p p (fun x hx => by simp [ka, hx])]

lemma sim_bestBid {n : NaiveOrderBook} {s : OptimizedOrderBook} {A B : List Order}
    (h : SimRel n s A B) :
    n.get_best_bid = s.get_best_bid.1 ∧ SimRel n s.get_best_bid.2 A B := by
  constructor
  · rcases drainLoop_bid_spec s.bids_by_price s.bid_heap h.wf.bidHeapMem
        h.wf.bidHeapSorted with ⟨hnolive, hres⟩ | ⟨p, l, hl, hlne, hmax, hres⟩
    · have hA : A = [] := by
        cases hAc : A with
        | nil => rfl
        | cons a as =>
          exfalso
          apply hnolive a.price
          rw [LiveP_iff_bucketList, h.hbb]
          intro hc
          have ha : a ∈ filterPrice A a.price :=
            mem_filterPrice.2 ⟨by rw [hAc]; exact List.mem_cons_self _ _, rfl⟩
          rw [hAc] at ha hc
          rw [hc] at ha
          simp at ha
      have h1 : n.get_best_bid = none := by
        rw [NaiveOrderBook.get_best_bid, h.nb, hA]
        rfl
      have h2 : s.get_best_bid.1 = none := by
        rw [OptimizedOrderBook.get_best_bid]
        exact hres
      rw [h1, h2]
    · have hfp : filterPrice A p = l := by
        rw [← h.hbb]
        exact bucketList_of_lookup hl
      have hmem : ∃ x ∈ A, kb x = -p := by
        cases hlc : l with
        | nil => exact absurd hlc hlne
        | cons o l2 =>
          have ho : o ∈ filterPrice A p := by
            rw [hfp, hlc]
            exact List.mem_cons_self _ _
          rcases mem_filterPrice.1 ho with ⟨hoA, hop⟩
          exact ⟨o, hoA, by simp [kb, hop]⟩
      have hlbnd : ∀ x ∈ A, -p ≤ kb x := by
        intro x hx
        have hlive : LiveP s.bids_by_price x.price := by
          rw [LiveP_iff_bucketList, h.hbb]
          intro hc
          have hm : x ∈ filterPrice A x.price := mem_filterPrice.2 ⟨hx, rfl⟩
          rw [hc] at hm
          simp at hm
        have := hmax x.price hlive
        unfold kb
        omega
      have hfilt : A.filter (fun o => decide (kb o = -p)) = filterPrice A p := by
        rw [filterPrice_eq_filter]
        apply List.filter_congr
        intro x hx
        exact decide_eq_decide.mpr (by unfold kb; omega)
      have h1 : n.get_best_bid = l.head? := by
        rw [NaiveOrderBook.get_best_bid, h.nb,
          sortK_head_eq_filter kb A (-p) hmem hlbnd, hfilt, hfp]
      have h2 : s.get_best_bid.1 = l.head? := by
        rw [OptimizedOrderBook.get_best_bid]
        exact hres
      rw [h1, h2]
  · exact ⟨WF.bestBid s h.wf, h.nb, h.na, h.hid, h.hbb, h.hab,
      h.sideA, h.sideB, h.nod⟩

lemma sim_bestAsk {n : NaiveOrderBook} {s : OptimizedOrderBook} {A B : List Order}
    (h : SimRel n s A B) :
    n.get_best_ask = s.get_best_ask.1 ∧ SimRel n s.get_best_ask.2 A B := by
  constructor
  · rcases drainLoop_ask_spec s.asks_by_price s.ask_heap h.wf.askHeapMem
        h.wf.askHeapSorted with ⟨hnolive, hres⟩ | ⟨p, l, hl, hlne, hmin, hres⟩
    · have hB : B = [] := by
        cases hBc : B with
        | nil => rfl
        | cons a as =>
          exfalso
          apply hnolive a.price
          rw [LiveP_iff_bucketList, h.hab]
          intro hc
          have ha : a ∈ filterPrice B a.price :=
            mem_filterPrice.2 ⟨by rw [hBc]; exact List.mem_cons_self _ _, rfl⟩
          rw [hBc] at ha hc
          rw [hc] at ha
          simp at ha
      have h1 : n.get_best_ask = none := by
        rw [NaiveOrderBook.get_best_ask, h.na, hB]
        rfl
      have h2 : s.get_best_ask.1 = none := by
        rw [OptimizedOrderBook.get_best_ask]
        exact hres
      rw [h1, h2]
    · have hfp : filterPrice B p = l := by
        rw [← h.hab]
        exact bucketList_of_lookup hl
      have hmem : ∃ x ∈ B, ka x = p := by
        cases hlc : l with
        | nil => exact absurd hlc hlne
        | cons o l2 =>
          have ho : o ∈ filterPrice B p := by
            rw [hfp, hlc]
            exact List.mem_cons_self _ _
          rcases mem_filterPrice.1 ho with ⟨hoB, hop⟩
          exact ⟨o, hoB, by simp [ka, hop]⟩
      have hlbnd : ∀ x ∈ B, p ≤ ka x := by
        intro x hx
        have hlive : LiveP s.asks_by_price x.price := by
          rw [LiveP_iff_bucketList, h.hab]
          intro hc
          have hm : x ∈ filterPrice B x.price := mem_filterPrice.2 ⟨hx, rfl⟩
          rw [hc] at hm
          simp at hm
        have := hmin x.price hlive
        unfold ka
        omega
      have hfilt : B.filter (fun o => decide (ka o = p)) = filterPrice B p := by
        rw [filterPrice_eq_filter]
        apply List.filter_congr
        intro x hx
        exact decide_eq_decide.mpr (by unfold ka; omega)
      have h1 : n.get_best_ask = l.head? := by
        rw [NaiveOrderBook.get_best_ask, h.na,
          sortK_head_eq_filter ka B p hmem hlbnd, hfilt, hfp]
      have h2 : s.get_best_ask.1 = l.head? := by
        rw [OptimizedOrderBook.get_best_ask]
        exact hres
      rw [h1, h2]
  · exact ⟨WF.bestAsk s h.wf, h.nb, h.na, h.hid, h.hbb, h.hab,
      h.sideA, h.sideB, h.nod⟩

lemma sim_add_bid {n : NaiveOrderBook} {s : OptimizedOrderBook} {A B : List Order}
    (h : SimRel n s A B) (o : Order) (hside : o.side = "bid")
    (hfresh : findById (A ++ B) o.order_id = none) :
    (n.add_order o).2 = none ∧ (s.add_order o).2 = none ∧
      SimRel (n.add_order o).1 (s.add_order o).1 (A ++ [o]) B := by
  have hlook : lookupA s.orders_by_id o.order_id = none := by
    rw [h.hid]
    exact hfresh
  have hfreshAB : ∀ x ∈ A ++ B, x.order_id ≠ o.order_id := findById_eq_none.1 hfresh
  have hn : n.add_order o = ({ n with bids := sortK kb (n.bids ++ [o]) }, none) := by
    rw [NaiveOrderBook.add_order, if_pos hside]
  have hnb : sortK kb (n.bids ++ [o]) = sortK kb (A ++ [o]) := by
    rw [h.nb, sortK_append_singleton, sortK_append_singleton, sortK_idem]
  have hid2 : ∀ x, lookupA (s.orders_by_id ++ [(o.order_id, o)]) x
      = findById ((A ++ [o]) ++ B) x := by
    intro x
    by_cases hx : x = o.order_id
    · subst hx
      rw [lookupA_append_none _ hlook, lookupA_singleton, if_pos rfl]
      have hA : findById A o.order_id = none := by
        rw [findById_eq_none]
        intro y hy
        exact hfreshAB y (List.mem_append_left _ hy)
      rw [List.append_assoc, findById_append_none hA, List.singleton_append]
      rw [findById, if_pos rfl]
    · cases hA : findById A x with
      | some u =>
        have hm : lookupA s.orders_by_id x = some u := by
          rw [h.hid]
          exact findById_append_some hA
        rw [lookupA_append_some _ hm]
        rw [findById_append_some (findById_append_some hA)]
      | none =>
        have hm : lookupA s.orders_by_id x = findById B x := by
          rw [h.hid]
          exact findById_append_none hA
        have hAo : findById (A ++ [o]) x = none := by
          rw [findById_append_none hA, findById, if_neg (fun hc => hx hc.symm)]
          rfl
        rw [findById_append_none hAo]
        cases hB : findById B x with
        | some v =>
          have hv : lookupA s.orders_by_id x = some v := by rw [hm, hB]
          rw [lookupA_append_some _ hv]
        | none =>
          have hno : lookupA s.orders_by_id x = none := by rw [hm, hB]
          rw [lookupA_append_none _ hno, lookupA_singleton,
            if_neg (fun hc => hx hc.symm)]
  have hsideA2 : ∀ x ∈ A ++ [o], x.side = "bid" := by
    intro x hx
    rcases List.mem_append.1 hx with h1 | h1
    · exact h.sideA x h1
    · rw [List.mem_singleton.1 h1]
      exact hside
  have hnod2 : (((A ++ [o]) ++ B).map Order.order_id).Nodup := by
    have hperm : List.Perm ((A ++ [o]) ++ B) ((A ++ B) ++ [o]) := by
      rw [List.append_assoc, List.append_assoc]
      exact List.Perm.append_left A List.perm_append_comm
    refine ((hperm.map Order.order_id).nodup_iff).2 ?_
    rw [List.map_append, List.nodup_append]
    refine ⟨h.nod, List.nodup_singleton _, ?_⟩
    intro x hx
    rcases List.mem_map.1 hx with ⟨y, hy, hxy⟩
    simp only [List.map_cons, List.map_nil, List.mem_singleton]
    intro hc
    exact hfreshAB y hy (by rw [hxy, hc])
  cases hL : lookupA s.bids_by_price o.price with
  | some l =>
    have hs : s.add_order o
        = ({ s with
              orders_by_id := s.orders_by_id ++ [(o.order_id, o)],
              bids_by_price := setKey s.bids_by_price o.price (l ++ [o]) },
            none) := by
      simp [OptimizedOrderBook.add_order, hlook, hside, hL]
    refine ⟨by rw [hn], by rw [hs], ?_⟩
    rw [hn, hs]
    refine ⟨WF.add_bid_present s o l h.wf hlook hside hL, hnb, h.na, hid2,
      ?_, h.hab, hsideA2, h.sideB, hnod2⟩
    intro p
    by_cases hp : p = o.price
    · subst hp
      rw [bucketList_of_lookup (lookupA_setKey_self _ _ _ _ hL), filterPrice_append]
      have h1 : filterPrice A o.price = l := by
        rw [← h.hbb, bucketList_of_lookup hL]
      rw [h1]
      simp [filterPrice]
    · have h2 : OptimizedOrderBook.bucketList
          (setKey s.bids_by_price o.price (l ++ [o])) p
          = OptimizedOrderBook.bucketList s.bids_by_price p := by
        unfold OptimizedOrderBook.bucketList
        rw [lookupA_setKey_ne _ _ _ _ hp]
      have h3 : filterPrice [o] p = [] := by
        rw [filterPrice, if_neg (fun hc => hp hc.symm)]
        rfl
      rw [h2, h.hbb, filterPrice_append, h3, List.append_nil]
  | none =>
    have hs : s.add_order o
        = ({ s with
              orders_by_id := s.orders_by_id ++ [(o.order_id, o)],
              bids_by_price := s.bids_by_price ++ [(o.price, [o])],
              bid_heap := heapPush s.bid_heap (-o.price) }, none) := by
      simp [OptimizedOrderBook.add_order, hlook, hside, hL]
    refine ⟨by rw [hn], by rw [hs], ?_⟩
    rw [hn, hs]
    refine ⟨WF.add_bid_absent s o h.wf hlook hside hL, hnb, h.na, hid2,
      ?_, h.hab, hsideA2, h.sideB, hnod2⟩
    intro p
    by_cases hp : p = o.price
    · subst hp
      have h1 : lookupA (s.bids_by_price ++ [(o.price, [o])]) o.price
          = some [o] := by
        rw [lookupA_append_none _ hL, lookupA_singleton, if_pos rfl]
      rw [bucketList_of_lookup h1, filterPrice_append]
      have h2 : filterPrice A o.price = [] := by
        rw [← h.hbb, bucketList_of_none hL]
      rw [h2]
      simp [filterPrice]
    · have h2 : OptimizedOrderBook.bucketList
          (s.bids_by_price ++ [(o.price, [o])]) p
          = OptimizedOrderBook.bucketList s.bids_by_price p := by
        cases hLp : lookupA s.bids_by_price p with
        | some l2 =>
          rw [bucketList_of_lookup (lookupA_append_some _ hLp),
            bucketList_of_lookup hLp]
        | none =>
          have hnone : lookupA (s.bids_by_price ++ [(o.price, [o])]) p = none := by
            rw [lookupA_append_none _ hLp, lookupA_singleton,
              if_neg (fun hc => hp hc.symm)]
          rw [bucketList_of_none hnone, bucketList_of_none hLp]
      have h3 : filterPrice [o] p = [] := by
        rw [filterPrice, if_neg (fun hc => hp hc.symm)]
        rfl
      rw [h2, h.hbb, filterPrice_append, h3, List.append_nil]

lemma sim_add_ask {n : NaiveOrderBook} {s : OptimizedOrderBook} {A B : List Order}
    (h : SimRel n s A B) (o : Order) (hside : o.side = "ask")
    (hfresh : findById (A ++ B) o.order_id = none) :
    (n.add_order o).2 = none ∧ (s.add_order o).2 = none ∧
      SimRel (n.add_order o).1 (s.add_order o).1 A (B ++ [o]) := by
  have hnotbid : ¬ o.side = "bid" := by
    rw [hside]
    decide
  have hlook : lookupA s.orders_by_id o.order_id = none := by
    rw [h.hid]
    exact hfresh
  have hfreshAB : ∀ x ∈ A ++ B, x.order_id ≠ o.order_id := findById_eq_none.1 hfresh
  have hn : n.add_order o = ({ n with asks := sortK ka (n.asks ++ [o]) }, none) := by
    rw [NaiveOrderBook.add_order, if_neg hnotbid, if_pos hside]
  have hna : sortK ka (n.asks ++ [o]) = sortK ka (B ++ [o]) := by
    rw [h.na, sortK_append_singleton, sortK_append_singleton, sortK_idem]
  have hid2 : ∀ x, lookupA (s.orders_by_id ++ [(o.order_id, o)]) x
      = findById (A ++ (B ++ [o])) x := by
    intro x
    by_cases hx : x = o.order_id
    · subst hx
      rw [lookupA_append_none _ hlook, lookupA_singleton, if_pos rfl]
      have hA : findById A o.order_id = none := by
        rw [findById_eq_none]
        intro y hy
        exact hfreshAB y (List.mem_append_left _ hy)
      have hB : findById B o.order_id = none := by
        rw [findById_eq_none]
        intro y hy
        exact hfreshAB y (List.mem_append_right _ hy)
      rw [findById_append_none hA, findById_append_none hB]
      rw [findById, if_pos rfl]
    · cases hA : findById A x with
      | some u =>
        have hm : lookupA s.orders_by_id x = some u := by
          rw [h.hid]
          exact findById_append_some hA
        rw [lookupA_append_some _ hm]
        rw [findById_append_some hA]
      | none =>
        have hm : lookupA s.orders_by_id x = findById B x := by
          rw [h.hid]
          exact findById_append_none hA
        rw [findById_append_none hA]
        cases hB : findById B x with
        | some v =>
          have hv : lookupA s.orders_by_id x = some v := by rw [hm, hB]
          rw [lookupA_append_some _ hv, findById_append_some hB]
        | none =>
          have hno : lookupA s.orders_by_id x = none := by rw [hm, hB]
          rw [lookupA_append_none _ hno, findById_append_none hB, lookupA_singleton,
            if_neg (fun hc => hx hc.symm), findById,
            if_neg (fun hc => hx hc.symm)]
          rfl
  have hsideB2 : ∀ x ∈ B ++ [o], x.side = "ask" := by
    intro x hx
    rcases List.mem_append.1 hx with h1 | h1
    · exact h.sideB x h1
    · rw [List.mem_singleton.1 h1]
      exact hside
  have hnod2 : ((A ++ (B ++ [o])).map Order.order_id).Nodup := by
    rw [← List.append_assoc, List.map_append, List.nodup_append]
    refine ⟨h.nod, List.nodup_singleton _, ?_⟩
    intro x hx
    rcases List.mem_map.1 hx with ⟨y, hy, hxy⟩
    simp only [List.map_cons, List.map_nil, List.mem_singleton]
    intro hc
    exact hfreshAB y hy (by rw [hxy, hc])
  cases hL : lookupA s.asks_by_price o.price with
  | some l =>
    have hs : s.add_order o
        = ({ s with
              orders_by_id := s.orders_by_id ++ [(o.order_id, o)],
              asks_by_price := setKey s.asks_by_price o.price (l ++ [o]) },
            none) := by
      simp [OptimizedOrderBook.add_order, hlook, hside, hnotbid, hL]
    refine ⟨by rw [hn], by rw [hs], ?_⟩
    rw [hn, hs]
    refine ⟨WF.add_ask_present s o l h.wf hlook hside hL, h.nb, hna, hid2,
      h.hbb, ?_, h.sideA, hsideB2, hnod2⟩
    intro p
    by_cases hp : p = o.price
    · subst hp
      rw [bucketList_of_lookup (lookupA_setKey_self _ _ _ _ hL), filterPrice_append]
      have h1 : filterPrice B o.price = l := by
        rw [← h.hab, bucketList_of_lookup hL]
      rw [h1]
      simp [filterPrice]
    · have h2 : OptimizedOrderBook.bucketList
          (setKey s.asks_by_price o.price (l ++ [o])) p
          = OptimizedOrderBook.bucketList s.asks_by_price p := by
        unfold OptimizedOrderBook.bucketList
        rw [lookupA_setKey_ne _ _ _ _ hp]
      have h3 : filterPrice [o] p = [] := by
        rw [filterPrice, if_neg (fun hc => hp hc.symm)]
        rfl
      rw [h2, h.hab, filterPrice_append, h3, List.append_nil]
  | none =>
    have hs : s.add_order o
        = ({ s with
              orders_by_id := s.orders_by_id ++ [(o.order_id, o)],
              asks_by_price := s.asks_by_price ++ [(o.price, [o])],
              ask_heap := heapPush s.ask_heap o.price }, none) := by
      simp [OptimizedOrderBook.add_order, hlook, hside, hnotbid, hL]
    refine ⟨by rw [hn], by rw [hs], ?_⟩
    rw [hn, hs]
    refine ⟨WF.add_ask_absent s o h.wf hlook hside hL, h.nb, hna, hid2,
      h.hbb, ?_, h.sideA, hsideB2, hnod2⟩
    intro p
    by_cases hp : p = o.price
    · subst hp
      have h1 : lookupA (s.asks_by_price ++ [(o.price, [o])]) o.price
          = some [o] := by
        rw [lookupA_append_none _ hL, lookupA_singleton, if_pos rfl]
      rw [bucketList_of_lookup h1, filterPrice_append]
      have h2 : filterPrice B o.price = [] := by
        rw [← h.hab, bucketList_of_none hL]
      rw [h2]
      simp [filterPrice]
    · have h2 : OptimizedOrderBook.bucketList
          (s.asks_by_price ++ [(o.price, [o])]) p
          = OptimizedOrderBook.bucketList s.asks_by_price p := by
        cases hLp : lookupA s.asks_by_price p with
        | some l2 =>
          rw [bucketList_of_lookup (lookupA_append_some _ hLp),
            bucketList_of_lookup hLp]
        | none =>
          have hnone : lookupA (s.asks_by_price ++ [(o.price, [o])]) p = none := by
            rw [lookupA_append_none _ hLp, lookupA_singleton,
              if_neg (fun hc => hp hc.symm)]
          rw [bucketList_of_none hnone, bucketList_of_none hLp]
      have h3 : filterPrice [o] p = [] := by
        rw [filterPrice, if_neg (fun hc => hp hc.symm)]
        rfl
      rw [h2, h.hab, filterPrice_append, h3, List.append_nil]

lemma nodup_id_unique {l : List Order} (hnd : (l.map Order.order_id).Nodup)
    {x y : Order} (hx : x ∈ l) (hy : y ∈ l) (hxy : x.order_id = y.order_id) :
    x = y :=
  List.inj_on_of_nodup_map hnd hx hy hxy

lemma findById_map (f : Order → Order) (hf : ∀ x, (f x).order_id = x.order_id)
    (l : List Order) (x : Nat) :
    findById (l.map f) x = (findById l x).map f := by
  induction l with
  | nil => rfl
  | cons y ys ih =>
    by_cases hy : y.order_id = x
    · rw [List.map_cons, findById, if_pos (by rw [hf]; exact hy), findById,
        if_pos hy]
      rfl
    · rw [List.map_cons, findById, if_neg (by rw [hf]; exact hy), findById,
        if_neg hy, ih]

lemma filterPrice_map_substQ (l : List Order) (oid : Nat) (q : Int) (p : Int) :
    filterPrice (l.map (substQ oid q)) p
      = (filterPrice l p).map (substQ oid q) := by
  induction l with
  | nil => rfl
  | cons x xs ih =>
    by_cases hx : x.price = p
    · rw [List.map_cons, filterPrice, if_pos (by rw [substQ_price]; exact hx),
        filterPrice, if_pos hx, List.map_cons, ih]
    · rw [List.map_cons, filterPrice, if_neg (by rw [substQ_price]; exact hx),
        filterPrice, if_neg hx, ih]

lemma filterPrice_filter (l : List Order) (q2 : Order → Bool) (p : Int) :
    filterPrice (l.filter q2) p = (filterPrice l p).filter q2 := by
  induction l with
  | nil => rfl
  | cons x xs ih =>
    cases hq : q2 x with
    | true =>
      rw [List.filter_cons_of_pos (by simp [hq])]
      by_cases hx : x.price = p
      · rw [filterPrice, if_pos hx, filterPrice, if_pos hx,
          List.filter_cons_of_pos (by simp [hq]), ih]
      · rw [filterPrice, if_neg hx, filterPrice, if_neg hx, ih]
    | false =>
      rw [List.filter_cons_of_neg (by simp [hq])]
      by_cases hx : x.price = p
      · rw [filterPrice, if_pos hx, List.filter_cons_of_neg (by simp [hq]), ih]
      · rw [filterPrice, if_neg hx, ih]

lemma sim_amend_bid {n : NaiveOrderBook} {s : OptimizedOrderBook} {A B : List Order}
    (h : SimRel n s A B) {oid : Nat} (q : Int) {o : Order}
    (hA : findById A oid = some o) :
    (n.amend_order oid q).2 = true ∧ (s.amend_order oid q).2 = true ∧
      SimRel (n.amend_order oid q).1 (s.amend_order oid q).1
        (A.map (substQ oid q)) B := by
  rcases findById_some hA with ⟨hoA, hoid⟩
  have hside : o.side = "bid" := h.sideA o hoA
  have hnask : o.side ≠ "ask" := by
    rw [hside]
    decide
  have hlid : lookupA s.orders_by_id oid = some o := by
    rw [h.hid]
    exact findById_append_some hA
  have hbne : OptimizedOrderBook.bucketList s.bids_by_price o.price ≠ [] := by
    rw [h.hbb]
    intro hc
    have hm : o ∈ filterPrice A o.price := mem_filterPrice.2 ⟨hoA, rfl⟩
    rw [hc] at hm
    simp at hm
  have hLb : lookupA s.bids_by_price o.price = some (filterPrice A o.price) := by
    have hx := bucketList_eq_some hbne
    rw [h.hbb] at hx
    exact hx
  have hnd2 : ((sortK kb A).map Order.order_id).Nodup :=
    (((sortK_perm kb A).map Order.order_id).nodup_iff).2 h.ndA
  have hfb : findById n.bids oid = some o := by
    rw [h.nb, findById_perm (sortK_perm kb A) hnd2]
    exact hA
  have hn : n.amend_order oid q
      = ({ n with bids := sortK kb (updateQtyFirst n.bids oid q) }, true) := by
    rw [NaiveOrderBook.amend_order, if_pos (by rw [hfb]; rfl)]
  have hsubk : ∀ x : Order, kb (substQ oid q x) = kb x := by
    intro x
    unfold kb
    rw [substQ_price]
  have hnb2 : sortK kb (updateQtyFirst n.bids oid q)
      = sortK kb (A.map (substQ oid q)) := by
    rw [h.nb, updateQtyFirst_eq_map hnd2, ← sortK_map kb (substQ oid q) hsubk A,
      sortK_idem]
  have hlnd : ((filterPrice A o.price).map Order.order_id).Nodup :=
    ((filterPrice_sublist A o.price).map Order.order_id).nodup h.ndA
  have hrepl : replaceFirst (filterPrice A o.price) o { o with quantity := q }
      = (filterPrice A o.price).map (substQ oid q) := by
    rw [replaceFirst_eq_map hlnd.of_map]
    apply List.map_congr_left
    intro x hxm
    by_cases hx : x = o
    · rw [if_pos hx, substQ, if_pos (by rw [hx, hoid]), hx]
    · have hcne : x.order_id ≠ oid := fun hc =>
        hx (nodup_id_unique h.ndA (mem_filterPrice.1 hxm).1 hoA (by rw [hc, hoid]))
      rw [if_neg hx, substQ, if_neg hcne]
  have hs : s.amend_order oid q
      = ({ s with
            orders_by_id := setKey s.orders_by_id oid { o with quantity := q },
            bids_by_price := setKey s.bids_by_price o.price
              (replaceFirst (filterPrice A o.price) o { o with quantity := q }) },
          true) := by
    simp [OptimizedOrderBook.amend_order, hlid, hside, hnask, hLb]
  refine ⟨by rw [hn], by rw [hs], ?_⟩
  rw [hn, hs]
  refine ⟨WF.amend_bid s o oid q (filterPrice A o.price) h.wf hlid hside hLb,
    hnb2, h.na, ?_, ?_, h.hab, ?_, h.sideB, ?_⟩
  · intro x
    by_cases hx : x = oid
    · subst hx
      rw [lookupA_setKey_self _ _ _ _ hlid]
      have h2 : findById (A.map (substQ x q)) x
          = some { o with quantity := q } := by
        rw [findById_map (substQ x q) (substQ_order_id x q) A x, hA]
        simp [substQ, hoid]
      rw [findById_append_some h2]
    · rw [lookupA_setKey_ne _ _ _ _ hx, h.hid]
      cases hAx : findById A x with
      | some u =>
        rcases findById_some hAx with ⟨huA, huid⟩
        have h1 : findById (A.map (substQ oid q)) x = some u := by
          rw [findById_map (substQ oid q) (substQ_order_id oid q) A x, hAx]
          simp [substQ, huid, hx]
        rw [findById_append_some hAx, findById_append_some h1]
      | none =>
        have h1 : findById (A.map (substQ oid q)) x = none := by
          rw [findById_map (substQ oid q) (substQ_order_id oid q) A x, hAx]
          rfl
        rw [findById_append_none hAx, findById_append_none h1]
  · intro p
    by_cases hp : p = o.price
    · subst hp
      rw [bucketList_of_lookup (lookupA_setKey_self _ _ _ _ hLb), hrepl,
        filterPrice_map_substQ A oid q o.price]
    · have h2 : OptimizedOrderBook.bucketList (setKey s.bids_by_price o.price
          (replaceFirst (filterPrice A o.price) o { o with quantity := q })) p
          = OptimizedOrderBook.bucketList s.bids_by_price p := by
        unfold OptimizedOrderBook.bucketList
        rw [lookupA_setKey_ne _ _ _ _ hp]
      have hnooid : ∀ x ∈ filterPrice A p, x.order_id ≠ oid := by
        intro x hxm hc
        rcases mem_filterPrice.1 hxm with ⟨hxA, hxp⟩
        have hxo : x = o := nodup_id_unique h.ndA hxA hoA (by rw [hc, hoid])
        rw [hxo] at hxp
        exact hp hxp.symm
      rw [h2, h.hbb, filterPrice_map_substQ A oid q p, map_substQ_id hnooid]
  · intro x hx
    rcases List.mem_map.1 hx with ⟨y, hy, hxy⟩
    rw [← hxy, substQ_side]
    exact h.sideA y hy
  · have hids : (A.map (substQ oid q)).map Order.order_id
        = A.map Order.order_id := by
      rw [List.map_map]
      apply List.map_congr_left
      intro y hy
      exact substQ_order_id oid q y
    rw [List.map_append, hids, ← List.map_append]
    exact h.nod

lemma sim_amend_ask {n : NaiveOrderBook} {s : OptimizedOrderBook} {A B : List Order}
    (h : SimRel n s A B) {oid : Nat} (q : Int) {o : Order}
    (hA : findById A oid = none) (hB : findById B oid = some o) :
    (n.amend_order oid q).2 = true ∧ (s.amend_order oid q).2 = true ∧
      SimRel (n.amend_order oid q).1 (s.amend_order oid q).1
        A (B.map (substQ oid q)) := by
  rcases findById_some hB with ⟨hoB, hoid⟩
  have hside : o.side = "ask" := h.sideB o hoB
  have hnbid : o.side ≠ "bid" := by
    rw [hside]
    decide
  have hlid : lookupA s.orders_by_id oid = some o := by
    rw [h.hid, findById_append_none hA]
    exact hB
  have hbne : OptimizedOrderBook.bucketList s.asks_by_price o.price ≠ [] := by
    rw [h.hab]
    intro hc
    have hm : o ∈ filterPrice B o.price := mem_filterPrice.2 ⟨hoB, rfl⟩
    rw [hc] at hm
    simp at hm
  have hLa : lookupA s.asks_by_price o.price = some (filterPrice B o.price) := by
    have hx := bucketList_eq_some hbne
    rw [h.hab] at hx
    exact hx
  have hndb2 : ((sortK kb A).map Order.order_id).Nodup :=
    (((sortK_perm kb A).map Order.order_id).nodup_iff).2 h.ndA
  have hnda2 : ((sortK ka B).map Order.order_id).Nodup :=
    (((sortK_perm ka B).map Order.order_id).nodup_iff).2 h.ndB
  have hfbn : findById n.bids oid = none := by
    rw [h.nb, findById_perm (sortK_perm kb A) hndb2]
    exact hA
  have hfa : findById n.asks oid = some o := by
    rw [h.na, findById_perm (sortK_perm ka B) hnda2]
    exact hB
  have hn : n.amend_order oid q
      = ({ n with asks := sortK ka (updateQtyFirst n.asks oid q) }, true) := by
    rw [NaiveOrderBook.amend_order, if_neg (by rw [hfbn]; simp),
      if_pos (by rw [hfa]; rfl)]
  have hsubk : ∀ x : Order, ka (substQ oid q x) = ka x := by
    intro x
    unfold ka
    rw [substQ_price]
  have hna2 : sortK ka (updateQtyFirst n.asks oid q)
      = sortK ka (B.map (substQ oid q)) := by
    rw [h.na, updateQtyFirst_eq_map hnda2, ← sortK_map ka (substQ oid q) hsubk B,
      sortK_idem]
  have hlnd : ((filterPrice B o.price).map Order.order_id).Nodup :=
    ((filterPrice_sublist B o.price).map Order.order_id).nodup h.ndB
  have hrepl : replaceFirst (filterPrice B o.price) o { o with quantity := q }
      = (filterPrice B o.price).map (substQ oid q) := by
    rw [replaceFirst_eq_map hlnd.of_map]
    apply List.map_congr_left
    intro x hxm
    by_cases hx : x = o
    · rw [if_pos hx, substQ, if_pos (by rw [hx, hoid]), hx]
    · have hcne : x.order_id ≠ oid := fun hc =>
        hx (nodup_id_unique h.ndB (mem_filterPrice.1 hxm).1 hoB (by rw [hc, hoid]))
      rw [if_neg hx, substQ, if_neg hcne]
  have hs : s.amend_order oid q
      = ({ s with
            orders_by_id := setKey s.orders_by_id oid { o with quantity := q },
            asks_by_price := setKey s.asks_by_price o.price
              (replaceFirst (filterPrice B o.price) o { o with quantity := q }) },
          true) := by
    simp [OptimizedOrderBook.amend_order, hlid, hside, hnbid, hLa]
  refine ⟨by rw [hn], by rw [hs], ?_⟩
  rw [hn, hs]
  refine ⟨WF.amend_ask s o oid q (filterPrice B o.price) h.wf hlid hside hLa,
    h.nb, hna2, ?_, h.hbb, ?_, h.sideA, ?_, ?_⟩
  · intro x
    by_cases hx : x = oid
    · subst hx
      rw [lookupA_setKey_self _ _ _ _ hlid, findById_append_none hA]
      have h2 : findById (B.map (substQ x q)) x
          = some { o with quantity := q } := by
        rw [findById_map (substQ x q) (substQ_order_id x q) B x, hB]
        simp [substQ, hoid]
      rw [h2]
    · rw [lookupA_setKey_ne _ _ _ _ hx, h.hid]
      cases hAx : findById A x with
      | some u =>
        rw [findById_append_some hAx, findById_append_some hAx]
      | none =>
        rw [findById_append_none hAx, findById_append_none hAx,
          findById_map (substQ oid q) (substQ_order_id oid q) B x]
        cases hBx : findById B x with
        | some u =>
          rcases findById_some hBx with ⟨huB, huid⟩
          simp [substQ, huid, hx]
        | none => rfl
  · intro p
    by_cases hp : p = o.price
    · subst hp
      rw [bucketList_of_lookup (lookupA_setKey_self _ _ _ _ hLa), hrepl,
        filterPrice_map_substQ B oid q o.price]
    · have h2 : OptimizedOrderBook.bucketList (setKey s.asks_by_price o.price
          (replaceFirst (filterPrice B o.price) o { o with quantity := q })) p
          = OptimizedOrderBook.bucketList s.asks_by_price p := by
        unfold OptimizedOrderBook.bucketList
        rw [lookupA_setKey_ne _ _ _ _ hp]
      have hnooid : ∀ x ∈ filterPrice B p, x.order_id ≠ oid := by
        intro x hxm hc
        rcases mem_filterPrice.1 hxm with ⟨hxB, hxp⟩
        have hxo : x = o := nodup_id_unique h.ndB hxB hoB (by rw [hc, hoid])
        rw [hxo] at hxp
        exact hp hxp.symm
      rw [h2, h.hab, filterPrice_map_substQ B oid q p, map_substQ_id hnooid]
  · intro x hx
    rcases List.mem_map.1 hx with ⟨y, hy, hxy⟩
    rw [← hxy, substQ_side]
    exact h.sideB y hy
  · have hids : (B.map (substQ oid q)).map Order.order_id
        = B.map Order.order_id := by
      rw [List.map_map]
      apply List.map_congr_left
      intro y hy
      exact substQ_order_id oid q y
    rw [List.map_append, hids, ← List.map_append]
    exact h.nod

lemma sim_amend_none {n : NaiveOrderBook} {s : OptimizedOrderBook} {A B : List Order}
    (h : SimRel n s A B) (oid : Nat) (q : Int)
    (hAB : findById (A ++ B) oid = none) :
    n.amend_order oid q = (n, false) ∧ s.amend_order oid q = (s, false) := by
  have hA : findById A oid = none := by
    rw [findById_eq_none] at hAB ⊢
    intro x hx
    exact hAB x (List.mem_append_left _ hx)
  have hB : findById B oid = none := by
    rw [findById_eq_none] at hAB ⊢
    intro x hx
    exact hAB x (List.mem_append_right _ hx)
  have hnbids : findById n.bids oid = none := by
    rw [h.nb, findById_perm (sortK_perm kb A)
      ((((sortK_perm kb A).map Order.order_id).nodup_iff).2 h.ndA)]
    exact hA
  have hnasks : findById n.asks oid = none := by
    rw [h.na, findById_perm (sortK_perm ka B)
      ((((sortK_perm ka B).map Order.order_id).nodup_iff).2 h.ndB)]
    exact hB
  have hlid : lookupA s.orders_by_id oid = none := by
    rw [h.hid]
    exact hAB
  constructor
  · rw [NaiveOrderBook.amend_order, if_neg (by rw [hnbids]; simp),
      if_neg (by rw [hnasks]; simp)]
  · simp [OptimizedOrderBook.amend_order, hlid]

lemma sim_delete_bid {n : NaiveOrderBook} {s : OptimizedOrderBook} {A B : List Order}
    (h : SimRel n s A B) {oid : Nat} {o : Order}
    (hA : findById A oid = some o) :
    (n.delete_order oid).2 = true ∧ (s.delete_order oid).2 = true ∧
      SimRel (n.delete_order oid).1 (s.delete_order oid).1
        (A.filter (fun y => !(decide (y.order_id = oid)))) B := by
  rcases findById_some hA with ⟨hoA, hoid⟩
  have hside : o.side = "bid" := h.sideA o hoA
  have hnask : o.side ≠ "ask" := by
    rw [hside]
    decide
  have hlid : lookupA s.orders_by_id oid = some o := by
    rw [h.hid]
    exact findById_append_some hA
  have hbne : OptimizedOrderBook.bucketList s.bids_by_price o.price ≠ [] := by
    rw [h.hbb]
    intro hc
    have hm : o ∈ filterPrice A o.price := mem_filterPrice.2 ⟨hoA, rfl⟩
    rw [hc] at hm
    simp at hm
  have hLb : lookupA s.bids_by_price o.price = some (filterPrice A o.price) := by
    have hx := bucketList_eq_some hbne
    rw [h.hbb] at hx
    exact hx
  have hnd2 : ((sortK kb A).map Order.order_id).Nodup :=
    (((sortK_perm kb A).map Order.order_id).nodup_iff).2 h.ndA
  have hfb : findById n.bids oid = some o := by
    rw [h.nb, findById_perm (sortK_perm kb A) hnd2]
    exact hA
  have hn : n.delete_order oid
      = ({ n with bids := sortK kb (removeFirstById n.bids oid) }, true) := by
    rw [NaiveOrderBook.delete_order, if_pos (by rw [hfb]; rfl)]
  have hnb2 : sortK kb (removeFirstById n.bids oid)
      = sortK kb (A.filter (fun y => !(decide (y.order_id = oid)))) := by
    rw [h.nb, removeFirstById_eq_filter hnd2, ← sortK_filter, sortK_idem]
  have hoin : o ∈ filterPrice A o.price := mem_filterPrice.2 ⟨hoA, rfl⟩
  have hlnd : ((filterPrice A o.price).map Order.order_id).Nodup :=
    ((filterPrice_sublist A o.price).map Order.order_id).nodup h.ndA
  have hle : (filterPrice A o.price).erase o
      = (filterPrice A o.price).filter (fun y => !(decide (y.order_id = oid))) := by
    rw [erase_eq_removeFirstById hlnd hoin hoid, removeFirstById_eq_filter hlnd]
  have hfA2 : ∀ p, filterPrice (A.filter (fun y => !(decide (y.order_id = oid)))) p
      = (filterPrice A p).filter (fun y => !(decide (y.order_id = oid))) :=
    fun p => filterPrice_filter A _ p
  have hother : ∀ p, p ≠ o.price →
      (filterPrice A p).filter (fun y => !(decide (y.order_id = oid)))
        = filterPrice A p := by
    intro p hp
    apply List.filter_eq_self.2
    intro a ha
    rcases mem_filterPrice.1 ha with ⟨haA, hap⟩
    have hane : a.order_id ≠ oid := by
      intro hc
      have hao : a = o := nodup_id_unique h.ndA haA hoA (by rw [hc, hoid])
      rw [hao] at hap
      exact hp hap.symm
    simp [hane]
  have hBn : findById B oid = none := by
    rw [findById_eq_none]
    intro y hy hc
    have hoy : o = y := nodup_id_unique h.nod (List.mem_append_left _ hoA)
      (List.mem_append_right _ hy) (by rw [hoid, hc])
    have hsy := h.sideB y hy
    rw [← hoy, hside] at hsy
    exact absurd hsy (by decide)
  have hid2 : ∀ x, lookupA (eraseKey s.orders_by_id oid) x
      = findById ((A.filter (fun y => !(decide (y.order_id = oid)))) ++ B) x := by
    intro x
    by_cases hx : x = oid
    · subst hx
      rw [lookupA_eraseKey_self _ _ h.wf.idKeys]
      have hA2 : findById (A.filter (fun y => !(decide (y.order_id = x)))) x
          = none := by
        rw [findById_eq_none]
        intro y hy
        have hmf := List.of_mem_filter hy
        simp at hmf
        exact hmf
      rw [findById_append_none hA2, hBn]
    · rw [lookupA_eraseKey_ne _ _ _ hx, h.hid]
      cases hAx : findById A x with
      | some u =>
        have h1 : findById (A.filter (fun y => !(decide (y.order_id = oid)))) x
            = some u := by
          rw [findById_filter_ne hx, hAx]
        rw [findById_append_some hAx, findById_append_some h1]
      | none =>
        have h1 : findById (A.filter (fun y => !(decide (y.order_id = oid)))) x
            = none := by
          rw [findById_filter_ne hx, hAx]
        rw [findById_append_none hAx, findById_append_none h1]
  have hsub : ((A.filter (fun y => !(decide (y.order_id = oid)))) ++ B).Sublist
      (A ++ B) := (List.filter_sublist A).append (List.Sublist.refl B)
  have hnod2 := (hsub.map Order.order_id).nodup h.nod
  have hsideA2 : ∀ x ∈ A.filter (fun y => !(decide (y.order_id = oid))),
      x.side = "bid" := by
    intro x hx
    exact h.sideA x (List.mem_of_mem_filter hx)
  by_cases hl2 : (filterPrice A o.price).erase o = []
  · have hs : s.delete_order oid
        = ({ s with
              orders_by_id := eraseKey s.orders_by_id oid,
              bids_by_price := eraseKey s.bids_by_price o.price }, true) := by
      simp [OptimizedOrderBook.delete_order, hlid, hside, hnask, hLb, hl2]
    refine ⟨by rw [hn], by rw [hs], ?_⟩
    rw [hn, hs]
    refine ⟨WF.delete_bid_erase s o oid (filterPrice A o.price) h.wf hlid hside
      hLb hl2, hnb2, h.na, hid2, ?_, h.hab, hsideA2, h.sideB, hnod2⟩
    intro p
    rw [hfA2 p]
    by_cases hp : p = o.price
    · subst hp
      rw [bucketList_of_none (lookupA_eraseKey_self _ _ h.wf.bidKeys), ← hle, hl2]
    · have h2 : OptimizedOrderBook.bucketList (eraseKey s.bids_by_price o.price) p
          = OptimizedOrderBook.bucketList s.bids_by_price p := by
        unfold OptimizedOrderBook.bucketList
        rw [lookupA_eraseKey_ne _ _ _ hp]
      rw [h2, h.hbb, hother p hp]
  · have hs : s.delete_order oid
        = ({ s with
              orders_by_id := eraseKey s.orders_by_id oid,
              bids_by_price := setKey s.bids_by_price o.price
                ((filterPrice A o.price).erase o) }, true) := by
      simp [OptimizedOrderBook.delete_order, hlid, hside, hnask, hLb, hl2]
    refine ⟨by rw [hn], by rw [hs], ?_⟩
    rw [hn, hs]
    refine ⟨WF.delete_bid_set s o oid (filterPrice A o.price) h.wf hlid hside
      hLb hl2, hnb2, h.na, hid2, ?_, h.hab, hsideA2, h.sideB, hnod2⟩
    intro p
    rw [hfA2 p]
    by_cases hp : p = o.price
    · subst hp
      rw [bucketList_of_lookup (lookupA_setKey_self _ _ _ _ hLb), hle]
    · have h2 : OptimizedOrderBook.bucketList (setKey s.bids_by_price o.price
          ((filterPrice A o.price).erase o)) p
          = OptimizedOrderBook.bucketList s.bids_by_price p := by
        unfold OptimizedOrderBook.bucketList
        rw [lookupA_setKey_ne _ _ _ _ hp]
      rw [h2, h.hbb, hother p hp]

lemma sim_delete_ask {n : NaiveOrderBook} {s : OptimizedOrderBook} {A B : List Order}
    (h : SimRel n s A B) {oid : Nat} {o : Order}
    (hA : findById A oid = none) (hB : findById B oid = some o) :
    (n.delete_order oid).2 = true ∧ (s.delete_order oid).2 = true ∧
      SimRel (n.delete_order oid).1 (s.delete_order oid).1
        A (B.filter (fun y => !(decide (y.order_id = oid)))) := by
  rcases findById_some hB with ⟨hoB, hoid⟩
  have hside : o.side = "ask" := h.sideB o hoB
  have hnbid : o.side ≠ "bid" := by
    rw [hside]
    decide
  have hlid : lookupA s.orders_by_id oid = some o := by
    rw [h.hid, findById_append_none hA]
    exact hB
  have hbne : OptimizedOrderBook.bucketList s.asks_by_price o.price ≠ [] := by
    rw [h.hab]
    intro hc
    have hm : o ∈ filterPrice B o.price := mem_filterPrice.2 ⟨hoB, rfl⟩
    rw [hc] at hm
    simp at hm
  have hLa : lookupA s.asks_by_price o.price = some (filterPrice B o.price) := by
    have hx := bucketList_eq_some hbne
    rw [h.hab] at hx
    exact hx
  have hndb2 : ((sortK kb A).map Order.order_id).Nodup :=
    (((sortK_perm kb A).map Order.order_id).nodup_iff).2 h.ndA
  have hnda2 : ((sortK ka B).map Order.order_id).Nodup :=
    (((sortK_perm ka B).map Order.order_id).nodup_iff).2 h.ndB
  have hfbn : findById n.bids oid = none := by
    rw [h.nb, findById_perm (sortK_perm kb A) hndb2]
    exact hA
  have hfa : findById n.asks oid = some o := by
    rw [h.na, findById_perm (sortK_perm ka B) hnda2]
    exact hB
  have hn : n.delete_order oid
      = ({ n with asks := sortK ka (removeFirstById n.asks oid) }, true) := by
    rw [NaiveOrderBook.delete_order, if_neg (by rw [hfbn]; simp),
      if_pos (by rw [hfa]; rfl)]
  have hna2 : sortK ka (removeFirstById n.asks oid)
      = sortK ka (B.filter (fun y => !(decide (y.order_id = oid)))) := by
    rw [h.na, removeFirstById_eq_filter hnda2, ← sortK_filter, sortK_idem]
  have hoin : o ∈ filterPrice B o.price := mem_filterPrice.2 ⟨hoB, rfl⟩
  have hlnd : ((filterPrice B o.price).map Order.order_id).Nodup :=
    ((filterPrice_sublist B o.price).map Order.order_id).nodup h.ndB
  have hle : (filterPrice B o.price).erase o
      = (filterPrice B o.price).filter (fun y => !(decide (y.order_id = oid))) := by
    rw [erase_eq_removeFirstById hlnd hoin hoid, removeFirstById_eq_filter hlnd]
  have hfB2 : ∀ p, filterPrice (B.filter (fun y => !(decide (y.order_id = oid)))) p
      = (filterPrice B p).filter (fun y => !(decide (y.order_id = oid))) :=
    fun p => filterPrice_filter B _ p
  have hother : ∀ p, p ≠ o.price →
      (filterPrice B p).filter (fun y => !(decide (y.order_id = oid)))
        = filterPrice B p := by
    intro p hp
    apply List.filter_eq_self.2
    intro a ha
    rcases mem_filterPrice.1 ha with ⟨haB, hap⟩
    have hane : a.order_id ≠ oid := by
      intro hc
      have hao : a = o := nodup_id_unique h.ndB haB hoB (by rw [hc, hoid])
      rw [hao] at hap
      exact hp hap.symm
    simp [hane]
  have hid2 : ∀ x, lookupA (eraseKey s.orders_by_id oid) x
      = findById (A ++ (B.filter (fun y => !(decide (y.order_id = oid))))) x := by
    intro x
    by_cases hx : x = oid
    · subst hx
      rw [lookupA_eraseKey_self _ _ h.wf.idKeys, findById_append_none hA]
      have hB2 : findById (B.filter (fun y => !(decide (y.order_id = x)))) x
          = none := by
        rw [findById_eq_none]
        intro y hy
        have hmf := List.of_mem_filter hy
        simp at hmf
        exact hmf
      rw [hB2]
    · rw [lookupA_eraseKey_ne _ _ _ hx, h.hid]
      cases hAx : findById A x with
      | some u =>
        rw [findById_append_some hAx, findById_append_some hAx]
      | none =>
        rw [findById_append_none hAx, findById_append_none hAx,
          findById_filter_ne hx]
  have hsub : (A ++ (B.filter (fun y => !(decide (y.order_id = oid))))).Sublist
      (A ++ B) := (List.Sublist.refl A).append (List.filter_sublist B)
  have hnod2 := (hsub.map Order.order_id).nodup h.nod
  have hsideB2 : ∀ x ∈ B.filter (fun y => !(decide (y.order_id = oid))),
      x.side = "ask" := by
    intro x hx
    exact h.sideB x (List.mem_of_mem_filter hx)
  by_cases hl2 : (filterPrice B o.price).erase o = []
  · have hs : s.delete_order oid
        = ({ s with
              orders_by_id := eraseKey s.orders_by_id oid,
              asks_by_price := eraseKey s.asks_by_price o.price }, true) := by
      simp [OptimizedOrderBook.delete_order, hlid, hside, hnbid, hLa, hl2]
    refine ⟨by rw [hn], by rw [hs], ?_⟩
    rw [hn, hs]
    refine ⟨WF.delete_ask_erase s o oid (filterPrice B o.price) h.wf hlid hside
      hLa hl2, h.nb, hna2, hid2, h.hbb, ?_, h.sideA, hsideB2, hnod2⟩
    intro p
    rw [hfB2 p]
    by_cases hp : p = o.price
    · subst hp
      rw [bucketList_of_none (lookupA_eraseKey_self _ _ h.wf.askKeys), ← hle, hl2]
    · have h2 : OptimizedOrderBook.bucketList (eraseKey s.asks_by_price o.price) p
          = OptimizedOrderBook.bucketList s.asks_by_price p := by
        unfold OptimizedOrderBook.bucketList
        rw [lookupA_eraseKey_ne _ _ _ hp]
      rw [h2, h.hab, hother p hp]
  · have hs : s.delete_order oid
        = ({ s with
              orders_by_id := eraseKey s.orders_by_id oid,
              asks_by_price := setKey s.asks_by_price o.price
                ((filterPrice B o.price).erase o) }, true) := by
      simp [OptimizedOrderBook.delete_order, hlid, hside, hnbid, hLa, hl2]
    refine ⟨by rw [hn], by rw [hs], ?_⟩
    rw [hn, hs]
    refine ⟨WF.delete_ask_set s o oid (filterPrice B o.price) h.wf hlid hside
      hLa hl2, h.nb, hna2, hid2, h.hbb, ?_, h.sideA, hsideB2, hnod2⟩
    intro p
    rw [hfB2 p]
    by_cases hp : p = o.price
    · subst hp
      rw [bucketList_of_lookup (lookupA_setKey_self _ _ _ _ hLa), hle]
    · have h2 : OptimizedOrderBook.bucketList (setKey s.asks_by_price o.price
          ((filterPrice B o.price).erase o)) p
          = OptimizedOrderBook.bucketList s.asks_by_price p := by
        unfold OptimizedOrderBook.bucketList
        rw [lookupA_setKey_ne _ _ _ _ hp]
      rw [h2, h.hab, hother p hp]

lemma sim_delete_none {n : NaiveOrderBook} {s : OptimizedOrderBook} {A B : List Order}
    (h : SimRel n s A B) (oid : Nat)
    (hAB : findById (A ++ B) oid = none) :
    n.delete_order oid = (n, false) ∧ s.delete_order oid = (s, false) := by
  have hA : findById A oid = none := by
    rw [findById_eq_none] at hAB ⊢
    intro x hx
    exact hAB x (List.mem_append_left _ hx)
  have hB : findById B oid = none := by
    rw [findById_eq_none] at hAB ⊢
    intro x hx
    exact hAB x (List.mem_append_right _ hx)
  have hnbids : findById n.bids oid = none := by
    rw [h.nb, findById_perm (sortK_perm kb A)
      ((((sortK_perm kb A).map Order.order_id).nodup_iff).2 h.ndA)]
    exact hA
  have hnasks : findById n.asks oid = none := by
    rw [h.na, findById_perm (sortK_perm ka B)
      ((((sortK_perm ka B).map Order.order_id).nodup_iff).2 h.ndB)]
    exact hB
  have hlid : lookupA s.orders_by_id oid = none := by
    rw [h.hid]
    exact hAB
  constructor
  · rw [NaiveOrderBook.delete_order, if_neg (by rw [hnbids]; simp),
      if_neg (by rw [hnasks]; simp)]
  · simp [OptimizedOrderBook.delete_order, hlid]

lemma simStep {n : NaiveOrderBook} {s : OptimizedOrderBook} {A B : List Order}
    {ids : List Nat} (op : Op) (h : SimRel n s A B) (hnd : ids.Nodup)
    (hmem : ∀ i, i ∈ ids ↔ i ∈ (A ++ B).map Order.order_id)
    (hop : legal1 ids op = true) :
    (naiveStep n op).2 = (optStep s op).2 ∧
    ∃ A2 B2, SimRel (naiveStep n op).1 (optStep s op).1 A2 B2 ∧
      (idsAfter ids op).Nodup ∧
      (∀ i, i ∈ idsAfter ids op ↔ i ∈ (A2 ++ B2).map Order.order_id) := by
  cases op with
  | add o =>
    simp only [legal1, Bool.and_eq_true, Bool.or_eq_true, Bool.not_eq_true',
      decide_eq_false_iff_not, decide_eq_true_eq] at hop
    rcases hop with ⟨hfree, hsides⟩
    have hfresh : findById (A ++ B) o.order_id = none := by
      rw [findById_eq_none]
      intro x hx hc
      exact hfree ((hmem o.order_id).2
        (by rw [← hc]; exact List.mem_map_of_mem _ hx))
    have hnd2 : (ids ++ [o.order_id]).Nodup := by
      rw [List.nodup_append]
      refine ⟨hnd, List.nodup_singleton _, ?_⟩
      intro x hx
      simp only [List.mem_singleton]
      intro hceq
      exact hfree (hceq ▸ hx)
    rcases hsides with hbid | hask
    · rcases sim_add_bid h o hbid hfresh with ⟨h1, h2, h3⟩
      refine ⟨?_, A ++ [o], B, h3, hnd2, ?_⟩
      · simp only [naiveStep, optStep]
        rw [h1, h2]
      · intro i
        have hm := hmem i
        simp only [List.map_append, List.mem_append] at hm
        show i ∈ ids ++ [o.order_id] ↔ _
        simp only [List.mem_append, List.mem_singleton, List.map_append,
          List.map_cons, List.map_nil, List.mem_cons, List.not_mem_nil,
          or_false, hm]
        tauto
    · rcases sim_add_ask h o hask hfresh with ⟨h1, h2, h3⟩
      refine ⟨?_, A, B ++ [o], h3, hnd2, ?_⟩
      · simp only [naiveStep, optStep]
        rw [h1, h2]
      · intro i
        have hm := hmem i
        simp only [List.map_append, List.mem_append] at hm
        show i ∈ ids ++ [o.order_id] ↔ _
        simp only [List.mem_append, List.mem_singleton, List.map_append,
          List.map_cons, List.map_nil, List.mem_cons, List.not_mem_nil,
          or_false, hm]
        tauto
  | amend oid q =>
    cases hAx : findById A oid with
    | some o =>
      rcases sim_amend_bid h q hAx with ⟨h1, h2, h3⟩
      refine ⟨?_, A.map (substQ oid q), B, h3, hnd, ?_⟩
      · simp only [naiveStep, optStep]
        rw [h1, h2]
      · have hids : (A.map (substQ oid q)).map Order.order_id
            = A.map Order.order_id := by
          rw [List.map_map]
          apply List.map_congr_left
          intro y hy
          exact substQ_order_id oid q y
        intro i
        show i ∈ ids ↔ _
        rw [hmem i, List.map_append, List.map_append, hids]
    | none =>
      cases hBx : findById B oid with
      | some o =>
        rcases sim_amend_ask h q hAx hBx with ⟨h1, h2, h3⟩
        refine ⟨?_, A, B.map (substQ oid q), h3, hnd, ?_⟩
        · simp only [naiveStep, optStep]
          rw [h1, h2]
        · have hids : (B.map (substQ oid q)).map Order.order_id
              = B.map Order.order_id := by
            rw [List.map_map]
            apply List.map_congr_left
            intro y hy
            exact substQ_order_id oid q y
          intro i
          show i ∈ ids ↔ _
          rw [hmem i, List.map_append, List.map_append, hids]
      | none =>
        have hABn : findById (A ++ B) oid = none := by
          rw [findById_append_none hAx]
          exact hBx
        rcases sim_amend_none h oid q hABn with ⟨h1, h2⟩
        refine ⟨?_, A, B, ?_, hnd, fun i => hmem i⟩
        · simp only [naiveStep, optStep]
          rw [h1, h2]
        · simp only [naiveStep, optStep]
          rw [h1, h2]
          exact h
  | delete oid =>
    cases hAx : findById A oid with
    | some o =>
      rcases sim_delete_bid h hAx with ⟨h1, h2, h3⟩
      rcases findById_some hAx with ⟨hoA, hoid⟩
      have hBn : ∀ y ∈ B, y.order_id ≠ oid := by
        intro y hy hc
        have hoy : o = y := nodup_id_unique h.nod (List.mem_append_left _ hoA)
          (List.mem_append_right _ hy) (by rw [hoid, hc])
        have hsy := h.sideB y hy
        rw [← hoy, h.sideA o hoA] at hsy
        exact absurd hsy (by decide)
      refine ⟨?_, A.filter (fun y => !(decide (y.order_id = oid))), B, h3,
        hnd.erase oid, ?_⟩
      · simp only [naiveStep, optStep]
        rw [h1, h2]
      · intro i
        show i ∈ ids.erase oid ↔ _
        rw [hnd.mem_erase_iff, hmem i]
        constructor
        · rintro ⟨hne, hin⟩
          rw [List.map_append, List.mem_append] at hin
          rw [List.map_append, List.mem_append]
          rcases hin with hp1 | hp1
          · left
            rcases List.mem_map.1 hp1 with ⟨x, hx, hxi⟩
            exact List.mem_map.2 ⟨x, List.mem_filter.2 ⟨hx, by simp [hxi, hne]⟩, hxi⟩
          · right
            exact hp1
        · intro hin
          rw [List.map_append, List.mem_append] at hin
          rcases hin with hp1 | hp1
          · rcases List.mem_map.1 hp1 with ⟨x, hx, hxi⟩
            rcases List.mem_filter.1 hx with ⟨hxA, hxp⟩
            have hxne : x.order_id ≠ oid := by simpa using hxp
            refine ⟨by rw [← hxi]; exact hxne, ?_⟩
            rw [List.map_append, List.mem_append]
            exact Or.inl (List.mem_map.2 ⟨x, hxA, hxi⟩)
          · rcases List.mem_map.1 hp1 with ⟨y, hy, hyi⟩
            refine ⟨by rw [← hyi]; exact hBn y hy, ?_⟩
            rw [List.map_append, List.mem_append]
            exact Or.inr hp1
    | none =>
      cases hBx : findById B oid with
      | some o =>
        rcases sim_delete_ask h hAx hBx with ⟨h1, h2, h3⟩
        have hAn : ∀ y ∈ A, y.order_id ≠ oid := findById_eq_none.1 hAx
        refine ⟨?_, A, B.filter (fun y => !(decide (y.order_id = oid))), h3,
          hnd.erase oid, ?_⟩
        · simp only [naiveStep, optStep]
          rw [h1, h2]
        · intro i
          show i ∈ ids.erase oid ↔ _
          rw [hnd.mem_erase_iff, hmem i]
          constructor
          · rintro ⟨hne, hin⟩
            rw [List.map_append, List.mem_append] at hin
            rw [List.map_append, List.mem_append]
            rcases hin with hp1 | hp1
            · left
              exact hp1
            · right
              rcases List.mem_map.1 hp1 with ⟨x, hx, hxi⟩
              exact List.mem_map.2 ⟨x, List.mem_filter.2 ⟨hx, by simp [hxi, hne]⟩, hxi⟩
          · intro hin
            rw [List.map_append, List.mem_append] at hin
            rcases hin with hp1 | hp1
            · rcases List.mem_map.1 hp1 with ⟨x, hx, hxi⟩
              refine ⟨by rw [← hxi]; exact hAn x hx, ?_⟩
              rw [List.map_append, List.mem_append]
              exact Or.inl hp1
            · rcases List.mem_map.1 hp1 with ⟨x, hx, hxi⟩
              rcases List.mem_filter.1 hx with ⟨hxB, hxp⟩
              have hxne : x.order_id ≠ oid := by simpa using hxp
              refine ⟨by rw [← hxi]; exact hxne, ?_⟩
              rw [List.map_append, List.mem_append]
              exact Or.inr (List.mem_map.2 ⟨x, hxB, hxi⟩)
      | none =>
        have hABn : findById (A ++ B) oid = none := by
          rw [findById_append_none hAx]
          exact hBx
        rcases sim_delete_none h oid hABn with ⟨h1, h2⟩
        refine ⟨?_, A, B, ?_, ?_, ?_⟩
        · simp only [naiveStep, optStep]
          rw [h1, h2]
        · simp only [naiveStep, optStep]
          rw [h1, h2]
          exact h
        · exact hnd.erase oid
        · intro i
          show i ∈ ids.erase oid ↔ _
          have hoidn : oid ∉ ids := by
            intro hc
            have := (hmem oid).1 hc
            rcases List.mem_map.1 this with ⟨x, hx, hxi⟩
            exact (findById_eq_none.1 hABn) x hx hxi
          rw [List.erase_of_not_mem hoidn]
          exact hmem i
  | lookup oid =>
    refine ⟨?_, A, B, ?_, hnd, fun i => hmem i⟩
    · simp only [naiveStep, optStep]
      rw [sim_lookup h oid]
    · simp only [naiveStep, optStep]
      exact h
  | ordersAt p sd =>
    refine ⟨?_, A, B, ?_, hnd, fun i => hmem i⟩
    · simp only [naiveStep, optStep]
      rw [sim_ordersAt h p sd]
    · simp only [naiveStep, optStep]
      exact h
  | bestBid =>
    rcases sim_bestBid h with ⟨h1, h2⟩
    refine ⟨?_, A, B, ?_, hnd, fun i => hmem i⟩
    · simp only [naiveStep, optStep]
      rw [h1]
    · simp only [naiveStep, optStep]
      exact h2
  | bestAsk =>
    rcases sim_bestAsk h with ⟨h1, h2⟩
    refine ⟨?_, A, B, ?_, hnd, fun i => hmem i⟩
    · simp only [naiveStep, optStep]
      rw [h1]
    · simp only [naiveStep, optStep]
      exact h2
  | bestBidAsk =>
    rcases sim_bestBid h with ⟨h1, h2⟩
    rcases sim_bestAsk h2 with ⟨h3, h4⟩
    refine ⟨?_, A, B, ?_, hnd, fun i => hmem i⟩
    · simp only [naiveStep, optStep, NaiveOrderBook.get_best_bid_ask,
        OptimizedOrderBook.get_best_bid_ask]
      rw [h1, h3]
    · simp only [naiveStep, optStep, OptimizedOrderBook.get_best_bid_ask]
      exact h4

lemma simRun (ops : List Op) : ∀ (n : NaiveOrderBook) (s : OptimizedOrderBook)
    (A B : List Order) (ids : List Nat), SimRel n s A B → ids.Nodup →
    (∀ i, i ∈ ids ↔ i ∈ (A ++ B).map Order.order_id) →
    legalB ids ops = true →
    naiveRun n ops = optRun s ops := by
  induction ops with
  | nil =>
    intro n s A B ids _ _ _ _
    rfl
  | cons op ops ih =>
    intro n s A B ids hsim hnd hmem hleg
    rw [legalB, Bool.and_eq_true] at hleg
    rcases simStep op hsim hnd hmem hleg.1 with ⟨hobs, A2, B2, hsim2, hnd2, hmem2⟩
    rw [naiveRun, optRun, hobs, ih _ _ _ _ _ hsim2 hnd2 hmem2 hleg.2]

/-- A concrete legal trace exercising every observed call: three adds
(two bids, one ask), both best-price getters, a lookup, a price-level
query, an amend, a delete, and the getters again after the delete. -/
def c3ops : List Op :=
  [Op.add ⟨1, 100, 10, "bid"⟩, Op.add ⟨2, 101, 5, "bid"⟩,
    Op.add ⟨3, 102, 15, "ask"⟩, Op.bestBidAsk, Op.lookup 2,
    Op.ordersAt 101 none, Op.amend 1 20, Op.delete 2, Op.bestBid,
    Op.lookup 2, Op.bestAsk]

/-- C3: for every sequence of operations in which every added order has
a fresh identifier and a side in the set of the two strings "bid" and
"ask", the naive and the optimized book are observationally equivalent:
the corresponding calls to lookup_order, get_orders_at_price,
get_best_bid, get_best_ask, get_best_bid_ask, amend_order and
delete_order (and the add calls themselves) return equal results —
orders equal in all four attributes, sequences in the same order,
booleans and error outcomes alike. -/
theorem c3_observational_equivalence (ops : List Op)
    (hleg : legalB [] ops = true) :
    naiveRun NaiveOrderBook.init ops = optRun OptimizedOrderBook.init ops :=
  simRun ops NaiveOrderBook.init OptimizedOrderBook.init [] [] []
    simRel_init List.nodup_nil (by intro i; simp) hleg

theorem c3_observational_equivalence_witness :
    legalB [] c3ops = true ∧
      naiveRun NaiveOrderBook.init c3ops = optRun OptimizedOrderBook.init c3ops :=
  ⟨by decide, c3_observational_equivalence c3ops (by decide)⟩
